import Mathlib

/-!
# Khronos: calendar ⇄ Julian Day conversions

A shallow embedding of the conversion functions of the Khronos library
(`libsrc/*_to_jd.cpp`, `libsrc/jd_to_gregorian.cpp`, `libsrc/islamic.cpp`,
`libsrc/hebrew.cpp` and the calendar headers) together with theorems about them.

Modelling conventions
* `jd_t`, `second_t` and every other `double` is a rational `ℚ` and the
  arithmetic of the source is taken exactly, without binary rounding; the one
  exception is `jd_to_jdn`, whose `double` sum is rounded (`double_round`).
* `year_t`, `month_t`, `day_t`, `hour_t`, `minute_t` and `int` are integers `ℤ`
  without machine overflow, with two exceptions: `jd_to_gregorian_int32` and
  `jd_to_gregorian_hms_int32` compute the `int` locals of the Gregorian decoder
  in 32 bits (`wrap32`), and `Gregorian.add_days` takes its `unsigned` month
  and day sum modulo `2^32`.
* C++ `/` and `%` on integers truncate toward zero (`cdiv`, `cmod`).
* `static_cast<int>` of a `double` truncates toward zero (`toInt`).
* Reference output parameters become a returned tuple.
* Overloads that add the time of day carry the suffix `_hms`.
-/

namespace Khronos

/-! ## Definitions -/

/-- C++ integer division: the quotient truncated toward zero. -/
def cdiv (a b : ℤ) : ℤ := Int.tdiv a b

/-- C++ integer remainder: it has the sign of the dividend. -/
def cmod (a b : ℤ) : ℤ := Int.tmod a b

/-- Conversion of a `double` to an integer type: truncation toward zero. -/
def toInt (x : ℚ) : ℤ := if 0 ≤ x then ⌊x⌋ else ⌈x⌉

/-- The function `std::round`: nearest integer, halfway cases away from zero. -/
def cround (x : ℚ) : ℤ := if 0 ≤ x then ⌊x + 1 / 2⌋ else ⌈x - 1 / 2⌉

/-- Read of a constant table at a signed index; a read outside the table is
undefined in the source and yields `0` here. -/
def tableAt (t : List ℤ) (i : ℤ) : ℤ := if i < 0 then 0 else t.getD i.toNat 0

/-- Constant `SECONDS_PER_DAY` of `timeofday.hpp`. -/
def SECONDS_PER_DAY : ℤ := 24 * 60 * 60

/-- Constant `GREGORIAN_EPOCH` of `julian_day.hpp`. -/
def GREGORIAN_EPOCH : ℚ := 1721425.5

/-- Constant `JULIAN_EPOCH` of `julian_calendar.hpp`. -/
def JULIAN_EPOCH : ℚ := 1721423.5

/-- Constant `ISLAMIC_EPOCH` of `islamic_calendar.hpp`. -/
def ISLAMIC_EPOCH : ℚ := 1948439.5

/-- Constant `HEBREW_EPOCH` of `hebrew_calendar.hpp`. -/
def HEBREW_EPOCH : ℚ := 347995.5

/-- Time of day as a fraction of a day: `tod` of `gregorian.cpp`. -/
def tod (hour minute : ℤ) (second : ℚ) : ℚ :=
  ((hour : ℚ) * 3600 + (minute : ℚ) * 60 + second) / (24.0 * 60 * 60)

/-! ### Gregorian calendar -/

/-- Leap-year predicate `is_gregorian_leapyear` of `gregorian_calendar.hpp`. -/
def is_gregorian_leapyear (year : ℤ) : Bool :=
  cmod year 400 == 0 || (cmod year 4 == 0 && cmod year 100 != 0)

/-- Month length `gregorian_days_in_month` of `gregorian_calendar.hpp`, the
overload that reads the table `daysOfMonth[isLeapYear][month]`. The other
overload of that header forwards to `civil::days_in_month` of `calendar.hpp`. -/
def gregorian_days_in_month (month : ℤ) (isLeapYear : Bool) : ℤ :=
  tableAt
    (if isLeapYear then [0, 31, 29, 31, 30, 31, 30, 31, 31, 30, 31, 30, 31]
     else [0, 31, 28, 31, 30, 31, 30, 31, 31, 30, 31, 30, 31])
    month

/-- Date to Julian Day: `gregorian_to_jd(year, month, day)` of `gregorian_to_jd.cpp`. -/
def gregorian_to_jd (year month day : ℤ) : ℚ :=
  let year1 := if month ≤ 2 then year - 1 else year
  let month1 := if month ≤ 2 then month + 12 else month
  let A : ℚ := (⌊(year1 : ℚ) / 100.0⌋ : ℤ)
  let B : ℚ := 2 - A + (⌊A / 4.0⌋ : ℤ)
  (⌊365.25 * ((year1 : ℚ) + 4716.0)⌋ : ℤ) + (⌊30.6001 * ((month1 : ℚ) + 1.0)⌋ : ℤ)
    + (day : ℚ) + B - 1524.5

/-- Date and time to Julian Day: the six-argument `gregorian_to_jd`. -/
def gregorian_to_jd_hms (year month day hour minute : ℤ) (second : ℚ) : ℚ :=
  let jdn := gregorian_to_jd year month day
  let time_fraction : ℚ := ((hour : ℚ) * 3600.0 + (minute : ℚ) * 60.0 + second) / 86400.0
  jdn + time_fraction

/-- Julian Day to date: `jd_to_gregorian(jd, year, month, day)` of
`jd_to_gregorian.cpp`; the result is `(year, month, day)`. The `int` locals are
read as integers, which is what the source computes as long as no `int`
operation overflows; `jd_to_gregorian_int32` below is the same code in 32-bit
arithmetic. -/
def jd_to_gregorian (jd : ℚ) : ℤ × ℤ × ℤ :=
  let Z : ℤ := toInt (⌊jd + 0.5⌋ : ℤ)
  let A := Z + 32044
  let B := cdiv (4 * A + 3) 146097
  let C := A - cdiv (B * 146097) 4
  let D := cdiv (4 * C + 3) 1461
  let E := C - cdiv (1461 * D) 4
  let M := cdiv (5 * E + 2) 153
  (B * 100 + D - 4800 + cdiv M 10, M + 3 - 12 * cdiv M 10, E - cdiv (153 * M + 2) 5 + 1)

/-- Julian Day to date and time: the seven-argument `jd_to_gregorian`; the
result is `(year, month, day, hour, minute, second)`. The `int` locals are read
as integers; `jd_to_gregorian_hms_int32` below is the same code in 32-bit
arithmetic. -/
def jd_to_gregorian_hms (jd : ℚ) : ℤ × ℤ × ℤ × ℤ × ℤ × ℚ :=
  let Z : ℤ := toInt (⌊jd + 0.5⌋ : ℤ)
  let fractional_day : ℚ := jd + 0.5 - (Z : ℚ)
  let ymd := jd_to_gregorian (Z : ℚ)
  let total_seconds0 : ℤ := toInt (cround (fractional_day * 86400.0) : ℤ)
  let total_seconds : ℤ := min total_seconds0 86399
  (ymd.1, ymd.2.1, ymd.2.2, cdiv total_seconds 3600, cdiv (cmod total_seconds 3600) 60,
    ((cmod total_seconds 60 : ℤ) : ℚ))

/-- Value of a 32-bit `int` expression whose exact value is `x`: the
two's-complement wrap of `x` into `[-2^31, 2^31)`. -/
def wrap32 (x : ℤ) : ℤ := (x + 2147483648) % 4294967296 - 2147483648

/-- Julian Day to date with the `int` locals of `jd_to_gregorian.cpp` computed
in 32 bits: every `int` sum, difference and product is wrapped, every `int`
quotient truncates. -/
def jd_to_gregorian_int32 (jd : ℚ) : ℤ × ℤ × ℤ :=
  let Z : ℤ := wrap32 (toInt (⌊jd + 0.5⌋ : ℤ))
  let A := wrap32 (Z + 32044)
  let B := cdiv (wrap32 (4 * A + 3)) 146097
  let C := wrap32 (A - cdiv (wrap32 (B * 146097)) 4)
  let D := cdiv (wrap32 (4 * C + 3)) 1461
  let E := wrap32 (C - cdiv (wrap32 (1461 * D)) 4)
  let M := cdiv (wrap32 (5 * E + 2)) 153
  (wrap32 (B * 100 + D - 4800 + cdiv M 10), wrap32 (M + 3 - 12 * cdiv M 10),
    wrap32 (E - cdiv (wrap32 (153 * M + 2)) 5 + 1))

/-- Julian Day to date and time, the seven-argument `jd_to_gregorian`, with its
`int` locals computed in 32 bits. -/
def jd_to_gregorian_hms_int32 (jd : ℚ) : ℤ × ℤ × ℤ × ℤ × ℤ × ℚ :=
  let Z : ℤ := wrap32 (toInt (⌊jd + 0.5⌋ : ℤ))
  let fractional_day : ℚ := jd + 0.5 - (Z : ℚ)
  let ymd := jd_to_gregorian_int32 (Z : ℚ)
  let total_seconds0 : ℤ := wrap32 (toInt (cround (fractional_day * 86400.0) : ℤ))
  let total_seconds : ℤ := min total_seconds0 86399
  (ymd.1, ymd.2.1, ymd.2.2, cdiv total_seconds 3600, cdiv (cmod total_seconds 3600) 60,
    ((cmod total_seconds 60 : ℤ) : ℚ))

/-! ### Julian calendar -/

/-- Leap-year predicate `is_julian_leapyear` of `julian_calendar.hpp`. -/
def is_julian_leapyear (year : ℤ) : Bool := cmod year 4 == 0

/-- Month length `julian_days_in_month` of `julian_calendar.hpp`. -/
def julian_days_in_month (month : ℤ) (isLeapYear : Bool) : ℤ :=
  if month = 2 ∧ isLeapYear = true then 29
  else tableAt [31, 28, 31, 30, 31, 30, 31, 31, 30, 31, 30, 31] (month - 1)

/-- Date to Julian Day: `julian_to_jd(year, month, day)` of `julian_to_jd.cpp`. -/
def julian_to_jd (year month day : ℤ) : ℚ :=
  let a := cdiv (14 - month) 12
  let y := year + 4800 - a
  let m := month + 12 * a - 3
  ((day + cdiv (153 * m + 2) 5 + 365 * y + cdiv y 4 : ℤ) : ℚ) - 32083.5

/-- Julian Day to date: `jd_to_julian(jd, year, month, day)` of
`julian_to_jd.cpp`; the result is `(year, month, day)`. -/
def jd_to_julian (jd : ℚ) : ℤ × ℤ × ℤ :=
  let a : ℚ := (⌊jd + 0.5⌋ : ℤ)
  let b : ℚ := a + 1524
  let c : ℚ := (⌊(b - 122.1) / 365.25⌋ : ℤ)
  let d : ℚ := (⌊365.25 * c⌋ : ℤ)
  let e : ℚ := (⌊(b - d) / 30.6001⌋ : ℤ)
  let month : ℤ := toInt (⌊if e < 14 then e - 1 else e - 13⌋ : ℤ)
  let year : ℤ := toInt (⌊if month > 2 then c - 4716 else c - 4715⌋ : ℤ)
  let day : ℤ := toInt (b - d - (⌊30.6001 * e⌋ : ℤ))
  (year, month, day)

/-! ### Islamic calendar -/

/-- Leap-year predicate `is_islamic_leapyear` of `islamic_calendar.hpp`. -/
def is_islamic_leapyear (year : ℤ) : Bool := cmod (11 * year + 14) 30 < 11

/-- Month length `islamic_days_in_month` of `islamic_calendar.hpp`
(`DhulQadah = 11`, `DhulHijja = 12`). -/
def islamic_days_in_month (month : ℤ) (isLeapYear : Bool) : ℤ :=
  if month = 11 then 30
  else if month = 12 then (if isLeapYear then 30 else 29)
  else if cmod month 2 = 1 then 30 else 29

/-- Date to Julian Day: `islamic_to_jd(year, month, day)` of `islamic_to_jd.cpp`. -/
def islamic_to_jd (year month day : ℤ) : ℚ :=
  (day : ℚ) + (⌈29.5 * (((month - 1 : ℤ) : ℚ))⌉ : ℤ) + (((year - 1 : ℤ) : ℚ)) * 354.0
    + (⌊(3 + 11.0 * (year : ℚ)) / 30.0⌋ : ℤ) + ISLAMIC_EPOCH - 1

/-- Date and time to Julian Day: the six-argument `islamic_to_jd`. -/
def islamic_to_jd_hms (year month day hour minute : ℤ) (second : ℚ) : ℚ :=
  let tod0 := tod hour minute second
  let tod1 := if tod0 ≥ 0.5 then tod0 - 1 else tod0
  islamic_to_jd year month day + tod1

/-- Time of day of a Julian Day: `hms` of `islamic.cpp`; the result is
`(hour, minute, second)`. -/
def hms (jd : ℚ) : ℤ × ℤ × ℚ :=
  let tod : ℚ := (jd + 0.5) - (⌊jd + 0.5⌋ : ℤ)
  let secondsInDay : ℤ := toInt (⌊tod * (SECONDS_PER_DAY : ℚ) + 0.5⌋ : ℤ)
  (cdiv secondsInDay 3600, cmod (cdiv secondsInDay 60) 60, ((cmod secondsInDay 60 : ℤ) : ℚ))

/-- Julian Day to date: `jd_to_islamic(jd, year, month, day)` of `islamic.cpp`;
the result is `(year, month, day)`. -/
def jd_to_islamic (jd : ℚ) : ℤ × ℤ × ℤ :=
  let a : ℚ := (⌊jd⌋ : ℤ) + 0.5
  let year : ℤ := toInt (⌊(30 * (jd - ISLAMIC_EPOCH) + 10646) / 10631.0⌋ : ℤ)
  let month : ℤ :=
    min 12 (toInt (((⌈(jd - (29 + islamic_to_jd year 1 1)) / 29.5⌉ : ℤ) : ℚ) + 1))
  let day : ℤ := toInt (a - islamic_to_jd year month 1 + 1)
  (year, month, day)

/-- Julian Day to date and time: the seven-argument `jd_to_islamic`; the
result is `(year, month, day, hour, minute, second)`. -/
def jd_to_islamic_hms (jd : ℚ) : ℤ × ℤ × ℤ × ℤ × ℤ × ℚ :=
  let ymd := jd_to_islamic jd
  let t := hms jd
  (ymd.1, ymd.2.1, ymd.2.2, t.1, t.2.1, t.2.2)

/-! ### Hebrew calendar -/

/-- Leap-year predicate `is_hebrew_leapyear` of `hebrew_calendar.hpp`. -/
def is_hebrew_leapyear (year : ℤ) : Bool := cmod (year * 7 + 1) 19 < 7

/-- Month count `hebrew_months_in_year` of `hebrew_calendar.hpp`. -/
def hebrew_months_in_year (year : ℤ) : ℤ := if is_hebrew_leapyear year then 13 else 12

/-- Start-of-year delay `hebrew_delay_of_week` of `hebrew.cpp`. -/
def hebrew_delay_of_week (year : ℤ) : ℚ :=
  let months : ℚ := (⌊(235.0 * (year : ℚ) - 234.0) / 19.0⌋ : ℤ)
  let parts : ℤ := 12084 + 13753 * toInt months
  let days : ℚ := months * 29 + (⌊(parts : ℚ) / 25920.0⌋ : ℤ)
  if cmod (3 * toInt (days + 1)) 7 < 3 then days + 1 else days

/-- Adjacent-year delay `hebrew_delay_adjacent_year` of `hebrew.cpp`. -/
def hebrew_delay_adjacent_year (year : ℤ) : ℚ :=
  let last := hebrew_delay_of_week (year - 1)
  let present := hebrew_delay_of_week year
  let next := hebrew_delay_of_week (year + 1)
  if next - present = 356 then 2.0
  else if present - last = 382 then 1.0
  else 0.0

/-- Iterations of the loop body `jdn += dim(m); m++`, `count` times from month `m`. -/
def add_month_days_from (dim : ℤ → ℤ) : ℕ → ℚ → ℤ → ℚ
  | 0, jdn, _ => jdn
  | count + 1, jdn, m => add_month_days_from dim count (jdn + ((dim m : ℤ) : ℚ)) (m + 1)

/-- The loop `for (m = lo; m < hi; m++) jdn += dim(m);` of `hebrew_to_jd`: it
runs `hi - lo` iterations when `lo < hi` and none otherwise. -/
def add_month_days (dim : ℤ → ℤ) (jdn : ℚ) (lo hi : ℤ) : ℚ :=
  add_month_days_from dim (hi - lo).toNat jdn lo

/-- Body of `hebrew_to_jd(year, month, day)` of `hebrew_to_jd.cpp`, with the
month-length function it calls passed as `dim`. -/
def hebrew_to_jd_with (dim : ℤ → ℤ → ℤ) (year month day : ℤ) : ℚ :=
  let jdn : ℚ := HEBREW_EPOCH + hebrew_delay_of_week year + hebrew_delay_adjacent_year year
    + (day : ℚ) + 1
  if month < 7 then
    add_month_days (dim year)
      (add_month_days (dim year) jdn 7 (hebrew_months_in_year year + 1)) 1 month
  else
    add_month_days (dim year) jdn 7 month

/-- Year length `hebrew_days_in_year` of `hebrew.cpp`:
`hebrew_to_jd(year + 1, 7, 1) - hebrew_to_jd(year, 7, 1)`. Both calls have
month 7, for which no loop of `hebrew_to_jd` runs an iteration, so the month
lengths are never consulted; this is where the mutual recursion of the source
ends. -/
def hebrew_days_in_year (year : ℤ) : ℚ :=
  hebrew_to_jd_with (fun _ _ => 0) (year + 1) 7 1 - hebrew_to_jd_with (fun _ _ => 0) year 7 1

/-- Month length `hebrew_days_in_month` of `hebrew.cpp`. -/
def hebrew_days_in_month (year month : ℤ) : ℤ :=
  let days_in_year : ℤ := toInt (hebrew_days_in_year year)
  if month = 2 ∨ month = 4 ∨ month = 6 ∨ month = 10 ∨ month = 13 then 29
  else if month = 12 ∧ ¬ (is_hebrew_leapyear year = true) then 29
  else if month = 8 ∧ cmod days_in_year 10 ≠ 5 then 29
  else if month = 9 ∧ cmod days_in_year 10 = 3 then 29
  else 30

/-- Date to Julian Day: `hebrew_to_jd(year, month, day)` of `hebrew_to_jd.cpp`. -/
def hebrew_to_jd (year month day : ℤ) : ℚ :=
  hebrew_to_jd_with hebrew_days_in_month year month day

/-- The loop `while (a >= hebrew_to_jd(year + 1, 7, 1)) ++year;` of
`jd_to_hebrew`, run for at most `fuel` evaluations of its condition. -/
def hebrew_year_search (a : ℚ) : ℕ → ℤ → Option ℤ
  | 0, _ => none
  | fuel + 1, year =>
    if a ≥ hebrew_to_jd (year + 1) 7 1 then hebrew_year_search a fuel (year + 1)
    else some year

/-- The loop
`while (a > hebrew_to_jd(year, month, hebrew_days_in_month(year, month))) ++month;`
of `jd_to_hebrew`, run for at most `fuel` evaluations of its condition. -/
def hebrew_month_search (a : ℚ) (year : ℤ) : ℕ → ℤ → Option ℤ
  | 0, _ => none
  | fuel + 1, month =>
    if a > hebrew_to_jd year month (hebrew_days_in_month year month) then
      hebrew_month_search a year fuel (month + 1)
    else some month

/-- Julian Day to date: `jd_to_hebrew(jd, year, month, day)` of
`hebrew_to_jd.cpp`; the result is `(year, month, day)`, or `none` when one of
the two search loops needs more than `fuel` evaluations of its condition. -/
def jd_to_hebrew (fuel : ℕ) (jd : ℚ) : Option (ℤ × ℤ × ℤ) :=
  let a : ℚ := (cround (jd + 0.5) : ℤ)
  let count : ℚ := (⌊((a - HEBREW_EPOCH) * 98496.0) / 35975351.0⌋ : ℤ)
  let year0 : ℤ := toInt (count - 1)
  match hebrew_year_search a fuel year0 with
  | none => none
  | some year =>
    let first_month : ℤ := if a < hebrew_to_jd year 1 1 then 7 else 1
    match hebrew_month_search a year fuel first_month with
    | none => none
    | some month => some (year, month, toInt (a - hebrew_to_jd year month 1 + 1))

/-! ### Calendar dates and calendar arithmetic -/

/-- Data members of class `Gregorian` of `gregorian_calendar.hpp`; the time of
day defaults to midnight as in the three-argument constructor. -/
structure Gregorian where
  year_ : ℤ
  month_ : ℤ
  day_ : ℤ
  hour_ : ℤ := 0
  minute_ : ℤ := 0
  second_ : ℚ := 0

/-- Data members of class `Julian` of `julian_calendar.hpp`. -/
structure Julian where
  year_ : ℤ
  month_ : ℤ
  day_ : ℤ
  hour_ : ℤ := 0
  minute_ : ℤ := 0
  second_ : ℚ := 0

/-- Data members of class `Islamic` of `islamic_calendar.hpp`. -/
structure Islamic where
  year_ : ℤ
  month_ : ℤ
  day_ : ℤ
  hour_ : ℤ := 0
  minute_ : ℤ := 0
  second_ : ℚ := 0

/-- Month addition `add_months(Gregorian const&, int)` of `gregorian_calendar.hpp`. -/
def Gregorian.add_months (date : Gregorian) (n : ℤ) : Gregorian :=
  let total_month := date.month_ + n
  let new_year := date.year_ + cdiv (total_month - 1) 12
  let new_month := cmod (total_month - 1) 12 + 1
  let new_year1 := if new_month < 1 then new_year - 1 else new_year
  let new_month1 := if new_month < 1 then new_month + 12 else new_month
  let day := date.day_
  let max_days := gregorian_days_in_month new_month1 (is_gregorian_leapyear new_year1)
  let day1 := if day > max_days then max_days else day
  { year_ := new_year1, month_ := new_month1, day_ := day1,
    hour_ := date.hour_, minute_ := date.minute_, second_ := date.second_ }

/-- The loop of `add_days(Gregorian const&, unsigned)` on the state
`(y, m, d, dom)`, run for at most `fuel` evaluations of its condition. -/
def Gregorian.add_days_loop : ℕ → ℤ → ℤ → ℤ → ℤ → Option (ℤ × ℤ × ℤ)
  | 0, _, _, _, _ => none
  | fuel + 1, y, m, d, dom =>
    if d > dom then
      let d1 := d - dom
      let m1 := m + 1
      let y2 := if m1 > 12 then y + 1 else y
      let m2 := if m1 > 12 then 1 else m1
      Gregorian.add_days_loop fuel y2 m2 d1
        (gregorian_days_in_month m2 (is_gregorian_leapyear y2))
    else some (y, m, d)

/-- Day addition `add_days(Gregorian const&, unsigned)` of
`gregorian_calendar.hpp`; `m` and `d` are `unsigned` in the source, so the
month and the sum `date.day() + n` are taken modulo `2^32`; `none` when the
loop needs more than `fuel` evaluations of its condition. -/
def Gregorian.add_days (fuel : ℕ) (date : Gregorian) (n : ℕ) : Option Gregorian :=
  let y := date.year_
  let m := date.month_ % 4294967296
  let d := (date.day_ + (n : ℤ)) % 4294967296
  let dom := gregorian_days_in_month m (is_gregorian_leapyear y)
  match Gregorian.add_days_loop fuel y m d dom with
  | none => none
  | some r => some { year_ := r.1, month_ := r.2.1, day_ := r.2.2 }

/-- Year addition `addYears(const Gregorian&, int)` of `gregorian_calendar.hpp`
(`MONTH_FEB = 2`). -/
def addYears (date : Gregorian) (n : ℤ) : Gregorian :=
  let new_year := date.year_ + n
  let new_month := date.month_
  let new_day := date.day_
  let new_day1 :=
    if new_month = 2 ∧ new_day = 29 ∧ ¬ (is_gregorian_leapyear new_year = true) then 28
    else new_day
  let max_days := gregorian_days_in_month new_month (is_gregorian_leapyear new_year)
  let new_day2 := if new_day1 > max_days then max_days else new_day1
  { year_ := new_year, month_ := new_month, day_ := new_day2,
    hour_ := date.hour_, minute_ := date.minute_, second_ := date.second_ }

/-- Day difference `operator-(const Gregorian&, const Gregorian&)` of
`gregorian_calendar.hpp`. -/
def Gregorian.operator_diff (lhs rhs : Gregorian) : ℤ :=
  let lhs_jd := gregorian_to_jd lhs.year_ lhs.month_ lhs.day_
  let rhs_jd := gregorian_to_jd rhs.year_ rhs.month_ rhs.day_
  toInt (lhs_jd - rhs_jd)

/-- Month addition `add_months(Islamic const&, int)` of `islamic.cpp`; the
result is built by the three-argument constructor, so its time is midnight. -/
def Islamic.add_months (date : Islamic) (n : ℤ) : Islamic :=
  let months := date.month_ + n
  let years := date.year_ + cdiv (months - 1) 12
  let months1 := cmod (months - 1) 12 + 1
  let days_in_new_month := islamic_days_in_month months1 (is_islamic_leapyear years)
  let new_day := min date.day_ days_in_new_month
  { year_ := years, month_ := months1, day_ := new_day }

/-- The loop of `add_days(Islamic const&, int)` on the state
`(year, month, day)`, run for at most `fuel` evaluations of its condition. -/
def Islamic.add_days_loop : ℕ → ℤ → ℤ → ℤ → Option (ℤ × ℤ × ℤ)
  | 0, _, _, _ => none
  | fuel + 1, year, month, day =>
    if day > islamic_days_in_month month (is_islamic_leapyear year) then
      let day1 := day - islamic_days_in_month month (is_islamic_leapyear year)
      let month1 := month + 1
      let year2 := if month1 > 12 then year + 1 else year
      let month2 := if month1 > 12 then 1 else month1
      Islamic.add_days_loop fuel year2 month2 day1
    else some (year, month, day)

/-- Day addition `add_days(Islamic const&, int)` of `islamic.cpp`; `none` when
the loop needs more than `fuel` evaluations of its condition. -/
def Islamic.add_days (fuel : ℕ) (date : Islamic) (n : ℤ) : Option Islamic :=
  match Islamic.add_days_loop fuel date.year_ date.month_ (date.day_ + n) with
  | none => none
  | some r => some { year_ := r.1, month_ := r.2.1, day_ := r.2.2 }

/-! ### Time-bearing Julian and Hebrew conversions, the `Jd` class -/

/-- Date and time to Julian Day: the six-argument `julian_to_jd` of `julian_to_jd.cpp`. -/
def julian_to_jd_hms (year month day hour minute : ℤ) (second : ℚ) : ℚ :=
  julian_to_jd year month day + tod hour minute second

/-- Julian Day to date and time: the seven-argument `jd_to_julian` of
`julian_to_jd.cpp`; the result is `(year, month, day, hour, minute, second)`. -/
def jd_to_julian_hms (jd : ℚ) : ℤ × ℤ × ℤ × ℤ × ℤ × ℚ :=
  let ymd := jd_to_julian jd
  let tod : ℚ := (jd + 0.5) - (⌊jd + 0.5⌋ : ℤ)
  let secondsInDay : ℤ := toInt (⌊tod * (SECONDS_PER_DAY : ℚ) + 0.5⌋ : ℤ)
  (ymd.1, ymd.2.1, ymd.2.2, cdiv secondsInDay 3600, cmod (cdiv secondsInDay 60) 60,
    ((cmod secondsInDay 60 : ℤ) : ℚ))

/-- Date and time to Julian Day: the six-argument `hebrew_to_jd` of `hebrew_to_jd.cpp`. -/
def hebrew_to_jd_hms (year month day hour minute : ℤ) (second : ℚ) : ℚ :=
  let tod0 := tod hour minute second
  let tod1 := if tod0 ≥ 0.5 then tod0 - 1 else tod0
  hebrew_to_jd year month day + tod1

/-- Julian Day to date and time: the seven-argument `jd_to_hebrew` of
`hebrew_to_jd.cpp`; the result is `(year, month, day, hour, minute, second)`, or
`none` when a search loop of the date part needs more than `fuel` evaluations
of its condition. -/
def jd_to_hebrew_hms (fuel : ℕ) (jd : ℚ) : Option (ℤ × ℤ × ℤ × ℤ × ℤ × ℚ) :=
  match jd_to_hebrew fuel jd with
  | none => none
  | some ymd =>
    let tod : ℚ := jd + 0.5 - (⌊jd + 0.5⌋ : ℤ)
    let totalSeconds : ℤ := toInt (cround (tod * (SECONDS_PER_DAY : ℚ)) : ℤ)
    some (ymd.1, ymd.2.1, ymd.2.2, cdiv totalSeconds 3600, cdiv (cmod totalSeconds 3600) 60,
      ((cmod totalSeconds 60 : ℤ) : ℚ))

/-- Class `Jd` of `julian_day.hpp`: one Julian Day value. -/
structure Jd where
  jd_ : ℚ

/-- Duration `days` of `julian_day.hpp`. -/
structure days where
  value : ℚ

/-- Duration `weeks` of `julian_day.hpp`; the stored value is a number of days. -/
structure weeks where
  value : ℚ

/-- Constructor `weeks(jd_t w)`: it stores `w * 7`. -/
def weeks.of (w : ℚ) : weeks := { value := w * 7 }

/-- Accessor `Jd::jd()`. -/
def Jd.jd (j : Jd) : ℚ := j.jd_

/-- Accessor `Jd::value()`. -/
def Jd.value (j : Jd) : ℚ := j.jd_

/-- The operator `operator-(const Jd&, const Jd&)`: a difference in days. -/
def Jd.diff (lhs rhs : Jd) : ℚ := lhs.jd - rhs.jd

/-- The operator `operator+(const Jd&, const days&)`. -/
def Jd.add_days (j : Jd) (d : days) : Jd := { jd_ := j.jd + d.value }

/-- The operator `operator-(const Jd&, const days&)`. -/
def Jd.sub_days (j : Jd) (d : days) : Jd := { jd_ := j.jd - d.value }

/-- The operator `operator+(const days&, const Jd&)`. -/
def days.add_jd (d : days) (j : Jd) : Jd := { jd_ := j.jd + d.value }

/-- The operator `operator+(const Jd&, const weeks&)`. -/
def Jd.add_weeks (j : Jd) (w : weeks) : Jd := { jd_ := j.jd + w.value }

/-- The operator `operator-(const Jd&, const weeks&)`. -/
def Jd.sub_weeks (j : Jd) (w : weeks) : Jd := { jd_ := j.jd - w.value }

/-- Constructor `Julian::Julian(Jd jd)` of `julian_to_jd.cpp`. -/
def Julian.of_Jd (jd : Jd) : Julian :=
  let r := jd_to_julian_hms jd.value
  let year1 := if r.1 ≤ 0 then -(r.1 - 1) else r.1
  { year_ := year1, month_ := r.2.1, day_ := r.2.2.1,
    hour_ := r.2.2.2.1, minute_ := r.2.2.2.2.1, second_ := r.2.2.2.2.2 }

/-- The rounded day `a = std::round(jd + 0.5)` with which `jd_to_hebrew` starts. -/
def jd_to_hebrew_a (jd : ℚ) : ℚ := (cround (jd + 0.5) : ℤ)

/-- The year estimate `static_cast<year_t>(count - 1)` of `jd_to_hebrew`, from
which its year search starts. -/
def jd_to_hebrew_year0 (jd : ℚ) : ℤ :=
  let a : ℚ := jd_to_hebrew_a jd
  let count : ℚ := (⌊((a - HEBREW_EPOCH) * 98496.0) / 35975351.0⌋ : ℤ)
  toInt (count - 1)

/-- The month `first_month` of `jd_to_hebrew`, from which its month search
starts in year `year`. -/
def jd_to_hebrew_first_month (jd : ℚ) (year : ℤ) : ℤ :=
  if jd_to_hebrew_a jd < hebrew_to_jd year 1 1 then 7 else 1

/-- Conversion `Julian::operator Jd()` of `julian_calendar.hpp`. -/
def Julian.operator_Jd (j : Julian) : Jd :=
  { jd_ := julian_to_jd_hms j.year_ j.month_ j.day_ j.hour_ j.minute_ j.second_ }

/-! ### Day of week, `jd_to_jdn` and the era literals -/

/-- Day of week `day_of_week(const Gregorian&)` of `gregorian_calendar.hpp`;
the result is the integer that the source casts to `DayOfWeek`. -/
def day_of_week (date : Gregorian) : ℤ :=
  let y := date.year_
  let m := date.month_
  let d := date.day_
  let m1 := if m < 3 then m + 12 else m
  let y1 := if m < 3 then y - 1 else y
  let y2 := if y1 < 0 then y1 + 1 else y1
  let k := cmod y2 100
  let j := cdiv y2 100
  let dow := cmod (d + cdiv (13 * (m1 + 1)) 5 + k + cdiv k 4 + cdiv j 4 - 2 * j) 7
  cmod (dow + 5) 7

/-- Day of week `day_of_week(jd_t)` of `gregorian_calendar.hpp`; the result is
the integer that the source casts to `DayOfWeek`. -/
def day_of_week_jd (jd : ℚ) : ℤ :=
  let jdn := toInt (jd + 0.5)
  let dow := cmod (jdn + 1) 7
  cmod (dow + 6) 7

/-- The literal `operator"" _CE` of `gregorian_calendar.hpp`. -/
def operator_CE (year : ℕ) : ℤ := (year : ℤ)

/-- Integer form of `gregorian_to_jd`: the day number `gregorian_to_jd + 1/2`,
written with floor division. -/
def gregorian_jdn (year month day : ℤ) : ℤ :=
  let year1 := if month ≤ 2 then year - 1 else year
  let month1 := if month ≤ 2 then month + 12 else month
  1461 * (year1 + 4716) / 4 + 306001 * (month1 + 1) / 10000 + day
    + (2 - year1 / 100 + year1 / 100 / 4) - 1524

/-- Validity of day `d` in the month numbered `m1` (March = 3, ..., February = 14)
of the year that starts on 1 March of year `Y - 4800`. -/
def marchLen (Y m1 d : ℤ) : Prop :=
  (m1 = 3 ∧ d ≤ 31) ∨ (m1 = 4 ∧ d ≤ 30) ∨ (m1 = 5 ∧ d ≤ 31) ∨ (m1 = 6 ∧ d ≤ 30) ∨
  (m1 = 7 ∧ d ≤ 31) ∨ (m1 = 8 ∧ d ≤ 31) ∨ (m1 = 9 ∧ d ≤ 30) ∨ (m1 = 10 ∧ d ≤ 31) ∨
  (m1 = 11 ∧ d ≤ 30) ∨ (m1 = 12 ∧ d ≤ 31) ∨ (m1 = 13 ∧ d ≤ 31) ∨
  (m1 = 14 ∧ (d ≤ 28 ∨
    (d = 29 ∧ ((Y + 1) % 400 = 0 ∨ ((Y + 1) % 4 = 0 ∧ (Y + 1) % 100 ≠ 0)))))

/-- Integer form of `islamic_to_jd`: the number of days from `ISLAMIC_EPOCH`
to the date, written with floor division. -/
def islamic_days (year month day : ℤ) : ℤ :=
  day + (59 * (month - 1) + 1) / 2 + (year - 1) * 354 + (3 + 11 * year) / 30 - 1

/-! ### Integer forms of the Hebrew day counts, used in the proofs -/

/-- Integer form of `months` in `hebrew_delay_of_week`: `⌊(235 * year - 234) / 19⌋`. -/
def hebrew_months_elapsed (year : ℤ) : ℤ := (235 * year - 234) / 19

/-- Integer form of `days` in `hebrew_delay_of_week` before the adjustment. -/
def hebrew_molad_day (year : ℤ) : ℤ :=
  29 * hebrew_months_elapsed year + (12084 + 13753 * hebrew_months_elapsed year) / 25920

/-- Integer form of `hebrew_delay_of_week`. -/
def hebrew_delay_of_week_int (year : ℤ) : ℤ :=
  if cmod (3 * (hebrew_molad_day year + 1)) 7 < 3 then hebrew_molad_day year + 1
  else hebrew_molad_day year

/-- Integer form of `hebrew_delay_adjacent_year`. -/
def hebrew_delay_adjacent_year_int (year : ℤ) : ℤ :=
  if hebrew_delay_of_week_int (year + 1) - hebrew_delay_of_week_int year = 356 then 2
  else if hebrew_delay_of_week_int year - hebrew_delay_of_week_int (year - 1) = 382 then 1
  else 0

/-- Days from `HEBREW_EPOCH` to 1 Tishri of `year`, as `hebrew_to_jd` counts them. -/
def hebrew_new_year_int (year : ℤ) : ℤ :=
  hebrew_delay_of_week_int year + hebrew_delay_adjacent_year_int year + 2

/-- Integer form of `hebrew_days_in_year`. -/
def hebrew_year_length (year : ℤ) : ℤ :=
  hebrew_new_year_int (year + 1) - hebrew_new_year_int year

/-- Sum of `dim m`, `dim (m + 1)`, ... over `count` consecutive months. -/
def month_days_sum (dim : ℤ → ℤ) : ℕ → ℤ → ℤ
  | 0, _ => 0
  | count + 1, m => dim m + month_days_sum dim count (m + 1)

/-- Days that `hebrew_to_jd` adds for the months before `month`. -/
def hebrew_month_offset (year month : ℤ) : ℤ :=
  if month < 7 then
    month_days_sum (hebrew_days_in_month year) (hebrew_months_in_year year + 1 - 7).toNat 7
      + month_days_sum (hebrew_days_in_month year) (month - 1).toNat 1
  else month_days_sum (hebrew_days_in_month year) (month - 7).toNat 7

/-- Integer form of `hebrew_to_jd`: days from `HEBREW_EPOCH` to the date. -/
def hebrew_day_number (year month day : ℤ) : ℤ :=
  hebrew_new_year_int year + (day - 1) + hebrew_month_offset year month

/-! ## Arithmetic helpers -/

theorem toInt_intCast (n : ℤ) : toInt (n : ℚ) = n := by
  unfold toInt
  split <;> simp

theorem floor_of_eq_div (x : ℚ) (a : ℤ) (b : ℕ) (h : x = (a : ℚ) / (b : ℚ)) :
    ⌊x⌋ = a / (b : ℤ) := by
  rw [h]; exact Rat.floor_intCast_div_natCast a b

theorem ceil_eq_neg_floor (x : ℚ) : ⌈x⌉ = -⌊-x⌋ := by
  rw [Int.floor_neg, neg_neg]

theorem cdiv_of_nonneg {a b : ℤ} (ha : 0 ≤ a) (hb : 0 ≤ b) : cdiv a b = a / b :=
  Int.tdiv_eq_ediv ha hb

theorem cmod_of_nonneg {a b : ℤ} (ha : 0 ≤ a) (hb : 0 ≤ b) : cmod a b = a % b :=
  Int.tmod_eq_emod ha hb

theorem cmod_eq_zero_iff (a b : ℤ) : cmod a b = 0 ↔ a % b = 0 := by
  unfold cmod
  rw [← Int.dvd_iff_tmod_eq_zero, Int.dvd_iff_emod_eq_zero]

theorem div_div_100_4 (y : ℤ) : y / 100 / 4 = y / 400 := by
  omega

/-! ## Gregorian calendar -/

theorem is_gregorian_leapyear_iff (y : ℤ) :
    is_gregorian_leapyear y = true ↔ (y % 400 = 0 ∨ (y % 4 = 0 ∧ y % 100 ≠ 0)) := by
  simp [is_gregorian_leapyear, cmod_eq_zero_iff]

theorem gregorian_to_jd_eq (y m d : ℤ) :
    gregorian_to_jd y m d = (gregorian_jdn y m d : ℚ) - 1 / 2 := by
  unfold gregorian_to_jd gregorian_jdn
  simp only []
  generalize (if m ≤ 2 then y - 1 else y) = y1
  generalize (if m ≤ 2 then m + 12 else m) = m1
  have h1 : ⌊(y1 : ℚ) / 100.0⌋ = y1 / 100 := by
    have := floor_of_eq_div ((y1 : ℚ) / 100.0) y1 100 (by norm_num)
    simpa using this
  have h2 : ⌊((y1 / 100 : ℤ) : ℚ) / 4.0⌋ = y1 / 100 / 4 := by
    have := floor_of_eq_div (((y1 / 100 : ℤ) : ℚ) / 4.0) (y1 / 100) 4 (by norm_num)
    simpa using this
  have h3 : ⌊(365.25 : ℚ) * ((y1 : ℚ) + 4716.0)⌋ = 1461 * (y1 + 4716) / 4 := by
    have := floor_of_eq_div ((365.25 : ℚ) * ((y1 : ℚ) + 4716.0)) (1461 * (y1 + 4716)) 4
      (by push_cast; ring)
    simpa using this
  have h4 : ⌊(30.6001 : ℚ) * ((m1 : ℚ) + 1.0)⌋ = 306001 * (m1 + 1) / 10000 := by
    have := floor_of_eq_div ((30.6001 : ℚ) * ((m1 : ℚ) + 1.0)) (306001 * (m1 + 1)) 10000
      (by push_cast; ring)
    simpa using this
  rw [h1, h2, h3, h4]
  push_cast
  ring

theorem jd_to_gregorian_jdn (n : ℤ) (h : 0 ≤ n + 32044) :
    jd_to_gregorian ((n : ℚ) - 1 / 2) =
      (let A := n + 32044
       let B := (4 * A + 3) / 146097
       let C := A - (B * 146097) / 4
       let D := (4 * C + 3) / 1461
       let E := C - (1461 * D) / 4
       let M := (5 * E + 2) / 153
       (B * 100 + D - 4800 + M / 10, M + 3 - 12 * (M / 10), E - (153 * M + 2) / 5 + 1)) := by
  unfold jd_to_gregorian
  have hZ : toInt (⌊((n : ℚ) - 1 / 2) + 0.5⌋ : ℤ) = n := by
    have : ((n : ℚ) - 1 / 2) + 0.5 = (n : ℚ) := by norm_num
    rw [this, Int.floor_intCast, toInt_intCast]
  simp only [hZ]
  have hB : cdiv (4 * (n + 32044) + 3) 146097 = (4 * (n + 32044) + 3) / 146097 :=
    cdiv_of_nonneg (by omega) (by norm_num)
  rw [hB]
  generalize hBd : (4 * (n + 32044) + 3) / 146097 = B
  have hB0 : 0 ≤ B := by omega
  have hC : cdiv (B * 146097) 4 = (B * 146097) / 4 := cdiv_of_nonneg (by omega) (by norm_num)
  rw [hC]
  generalize hCd : n + 32044 - (B * 146097) / 4 = C
  have hC0 : 0 ≤ C := by omega
  have hD : cdiv (4 * C + 3) 1461 = (4 * C + 3) / 1461 := cdiv_of_nonneg (by omega) (by norm_num)
  rw [hD]
  generalize hDd : (4 * C + 3) / 1461 = D
  have hD0 : 0 ≤ D := by omega
  have hE : cdiv (1461 * D) 4 = (1461 * D) / 4 := cdiv_of_nonneg (by omega) (by norm_num)
  rw [hE]
  generalize hEd : C - (1461 * D) / 4 = E
  have hE0 : 0 ≤ E := by omega
  have hM : cdiv (5 * E + 2) 153 = (5 * E + 2) / 153 := cdiv_of_nonneg (by omega) (by norm_num)
  rw [hM]
  generalize hMd : (5 * E + 2) / 153 = M
  have hM0 : 0 ≤ M := by omega
  rw [cdiv_of_nonneg hM0 (by norm_num),
    cdiv_of_nonneg (show 0 ≤ 153 * M + 2 by omega) (by norm_num)]

theorem greg_fwd (y1 m1 d : ℤ) (h3 : 3 ≤ m1) (h14 : m1 ≤ 14) :
    1461 * (y1 + 4716) / 4 + 306001 * (m1 + 1) / 10000 + d
        + (2 - y1 / 100 + y1 / 100 / 4) - 1524 + 32044
      = 36524 * ((y1 + 4800) / 100) + (y1 + 4800) / 100 / 4
          + (365 * ((y1 + 4800) % 100) + (y1 + 4800) % 100 / 4
              + ((153 * (m1 - 3) + 2) / 5 + d - 1)) := by
  have := div_div_100_4 y1
  have := div_div_100_4 (y1 + 4800)
  have h4 : (y1 + 4800) / 4 = y1 / 4 + 1200 := by omega
  have h100 : (y1 + 4800) / 100 = y1 / 100 + 48 := by omega
  have h400 : (y1 + 4800) / 400 = y1 / 400 + 12 := by omega
  have h5 : 1461 * (y1 + 4716) / 4 = 365 * (y1 + 4716) + y1 / 4 + 1179 := by omega
  have h6 : 306001 * (m1 + 1) / 10000 = (153 * (m1 - 3) + 2) / 5 + 122 := by
    interval_cases m1 <;> norm_num
  have h7 : (y1 + 4800) / 4 = 25 * ((y1 + 4800) / 100) + ((y1 + 4800) % 100) / 4 := by omega
  omega

theorem century_step (b r A : ℤ) (hr0 : 0 ≤ r)
    (hr : r ≤ 36523 ∨ (r = 36524 ∧ b % 4 = 3)) (hA : A = 36524 * b + b / 4 + r) :
    (4 * A + 3) / 146097 = b ∧ A - b * 146097 / 4 = r := by
  subst hA
  constructor <;> omega

theorem year_step (r0 e C : ℤ) (he0 : 0 ≤ e)
    (he : e ≤ 364 ∨ (e = 365 ∧ r0 % 4 = 3)) (hC : C = 365 * r0 + r0 / 4 + e) :
    (4 * C + 3) / 1461 = r0 ∧ C - 1461 * r0 / 4 = e := by
  subst hC
  constructor <;> omega

theorem month_step (Y m1 d e : ℤ) (hd : 1 ≤ d) (hlen : marchLen Y m1 d)
    (he : e = (153 * (m1 - 3) + 2) / 5 + d - 1) :
    0 ≤ e ∧
    (e ≤ 364 ∨ (e = 365 ∧ ((Y + 1) % 400 = 0 ∨ ((Y + 1) % 4 = 0 ∧ (Y + 1) % 100 ≠ 0)))) ∧
    (5 * e + 2) / 153 = m1 - 3 := by
  subst he
  unfold marchLen at hlen
  rcases hlen with h | h | h | h | h | h | h | h | h | h | h | h <;> obtain ⟨rfl, h⟩ := h <;>
    refine ⟨?_, ?_, ?_⟩ <;> omega

theorem leap_step (Y : ℤ) (h : (Y + 1) % 400 = 0 ∨ ((Y + 1) % 4 = 0 ∧ (Y + 1) % 100 ≠ 0)) :
    (Y % 100) % 4 = 3 ∧ (Y % 100 = 99 → (Y / 100) % 4 = 3) := by
  rcases h with h | h <;> constructor <;> omega

theorem greg_core (Y m1 d A : ℤ) (hd : 1 ≤ d) (hlen : marchLen Y m1 d)
    (hA : A = 36524 * (Y / 100) + Y / 100 / 4
          + (365 * (Y % 100) + Y % 100 / 4 + ((153 * (m1 - 3) + 2) / 5 + d - 1))) :
    (4 * A + 3) / 146097 = Y / 100 ∧
    (4 * (A - Y / 100 * 146097 / 4) + 3) / 1461 = Y % 100 ∧
    A - Y / 100 * 146097 / 4 - 1461 * (Y % 100) / 4 = (153 * (m1 - 3) + 2) / 5 + d - 1 ∧
    (5 * ((153 * (m1 - 3) + 2) / 5 + d - 1) + 2) / 153 = m1 - 3 := by
  obtain ⟨he0, he1, hM⟩ := month_step Y m1 d _ hd hlen rfl
  generalize (153 * (m1 - 3) + 2) / 5 + d - 1 = e at *
  have he2 : e ≤ 364 ∨ (e = 365 ∧ (Y % 100) % 4 = 3) := by
    rcases he1 with h | ⟨h, hl⟩
    · exact Or.inl h
    · exact Or.inr ⟨h, (leap_step Y hl).1⟩
  have hr : 365 * (Y % 100) + Y % 100 / 4 + e ≤ 36523 ∨
      (365 * (Y % 100) + Y % 100 / 4 + e = 36524 ∧ (Y / 100) % 4 = 3) := by
    rcases he1 with h | ⟨h, hl⟩
    · left; omega
    · have := (leap_step Y hl).2
      omega
  obtain ⟨hB, hC⟩ := century_step (Y / 100) _ A (by omega) hr hA
  obtain ⟨hD, hE⟩ := year_step (Y % 100) e _ he0 he2 rfl
  rw [hC]
  exact ⟨hB, hD, hE, hM⟩

/-- Validity of a civil date expressed on the March-based month numbering. -/
theorem marchLen_of_valid (y m d : ℤ) (hm1 : 1 ≤ m) (hm2 : m ≤ 12)
    (hd2 : d ≤ gregorian_days_in_month m (is_gregorian_leapyear y)) :
    marchLen ((if m ≤ 2 then y - 1 else y) + 4800) (if m ≤ 2 then m + 12 else m) d := by
  unfold marchLen
  have hleap := is_gregorian_leapyear_iff y
  cases hl : is_gregorian_leapyear y <;> rw [hl] at hd2 hleap <;>
    interval_cases m <;> simp [gregorian_days_in_month, tableAt] at hd2 ⊢ <;> try omega
  · have := hleap.mp rfl
    omega

/-- Integer core of the round trip: decomposing the day number of a valid date
gives the date back. -/
theorem gregorian_decompose (y m d : ℤ) (hy : -4799 ≤ y) (hm1 : 1 ≤ m) (hm2 : m ≤ 12)
    (hd1 : 1 ≤ d) (hd2 : d ≤ gregorian_days_in_month m (is_gregorian_leapyear y)) :
    0 ≤ gregorian_jdn y m d + 32044 ∧
    jd_to_gregorian ((gregorian_jdn y m d : ℚ) - 1 / 2) = (y, m, d) := by
  have hlen := marchLen_of_valid y m d hm1 hm2 hd2
  have hfwd := greg_fwd (if m ≤ 2 then y - 1 else y) (if m ≤ 2 then m + 12 else m) d
    (by split <;> omega) (by split <;> omega)
  have hjdn : gregorian_jdn y m d + 32044 =
      1461 * ((if m ≤ 2 then y - 1 else y) + 4716) / 4
        + 306001 * ((if m ≤ 2 then m + 12 else m) + 1) / 10000 + d
        + (2 - (if m ≤ 2 then y - 1 else y) / 100 + (if m ≤ 2 then y - 1 else y) / 100 / 4)
        - 1524 + 32044 := rfl
  rw [hfwd] at hjdn
  generalize hy1 : (if m ≤ 2 then y - 1 else y) = y1 at *
  generalize hm1' : (if m ≤ 2 then m + 12 else m) = m1 at *
  have hY : 0 ≤ y1 + 4800 := by rw [← hy1]; split <;> omega
  obtain ⟨he0, -, -⟩ := month_step _ m1 d _ hd1 hlen rfl
  obtain ⟨hB, hD, hE, hM⟩ := greg_core (y1 + 4800) m1 d _ hd1 hlen hjdn
  have hA0 : 0 ≤ gregorian_jdn y m d + 32044 := by
    rw [hjdn]
    have h1 : 0 ≤ (y1 + 4800) / 100 := by omega
    have h2 : 0 ≤ (y1 + 4800) / 100 / 4 := by omega
    have h3 : 0 ≤ (y1 + 4800) % 100 := by omega
    have h4 : 0 ≤ (y1 + 4800) % 100 / 4 := by omega
    omega
  refine ⟨hA0, ?_⟩
  rw [jd_to_gregorian_jdn _ hA0]
  simp only []
  rw [hB, hD, hE, hM]
  have hmm : m1 - 3 + 3 - 12 * ((m1 - 3) / 10) = m := by rw [← hm1']; split <;> omega
  have hyy : (y1 + 4800) / 100 * 100 + (y1 + 4800) % 100 - 4800 + (m1 - 3) / 10 = y := by
    rw [← hy1, ← hm1']; split <;> omega
  rw [hmm, hyy]
  have hdd : (153 * (m1 - 3) + 2) / 5 + d - 1 - (153 * (m1 - 3) + 2) / 5 + 1 = d := by omega
  rw [hdd]

/-- C1. Gregorian date round trip: for every valid proleptic Gregorian date
`(y, m, d)` with `y ≥ -4712`, `1 ≤ m ≤ 12` and
`1 ≤ d ≤ gregorian_days_in_month m (is_gregorian_leapyear y)`,
`jd_to_gregorian (gregorian_to_jd y m d)` is exactly `(y, m, d)`. -/
theorem gregorian_round_trip (y m d : ℤ) (hy : -4712 ≤ y) (hm1 : 1 ≤ m) (hm2 : m ≤ 12)
    (hd1 : 1 ≤ d) (hd2 : d ≤ gregorian_days_in_month m (is_gregorian_leapyear y)) :
    jd_to_gregorian (gregorian_to_jd y m d) = (y, m, d) := by
  rw [gregorian_to_jd_eq]
  exact (gregorian_decompose y m d (by omega) hm1 hm2 hd1 hd2).2

/-- Witness for C1: the leap day 2024-02-29 round trips. -/
theorem gregorian_round_trip_witness :
    jd_to_gregorian (gregorian_to_jd 2024 2 29) = (2024, 2, 29) :=
  gregorian_round_trip 2024 2 29 (by decide) (by decide) (by decide) (by decide) (by decide)

theorem jd_to_gregorian_of_floor (jd : ℚ) (n : ℤ) (h : ⌊jd + 0.5⌋ = n) :
    jd_to_gregorian jd = jd_to_gregorian ((n : ℚ) - 1 / 2) := by
  have h2 : ⌊((n : ℚ) - 1 / 2) + 0.5⌋ = n := by
    have : ((n : ℚ) - 1 / 2) + 0.5 = (n : ℚ) := by norm_num
    rw [this, Int.floor_intCast]
  unfold jd_to_gregorian
  rw [h, h2]

/-- Splitting a second count below one day into hours, minutes and seconds. -/
theorem split_seconds (h mi s : ℤ) (hmi : 0 ≤ mi) (hmi2 : mi ≤ 59)
    (hs : 0 ≤ s) (hs2 : s ≤ 59) :
    (h * 3600 + mi * 60 + s) / 3600 = h ∧ (h * 3600 + mi * 60 + s) % 3600 / 60 = mi ∧
    (h * 3600 + mi * 60 + s) / 60 % 60 = mi ∧ (h * 3600 + mi * 60 + s) % 60 = s := by
  refine ⟨?_, ?_, ?_, ?_⟩ <;> omega

theorem cround_intCast (n : ℤ) : cround (n : ℚ) = n := by
  unfold cround
  split
  · have : ((n : ℚ) + 1 / 2) = (n : ℚ) + (1 / 2 : ℚ) := rfl
    rw [Int.floor_eq_iff]
    constructor <;> norm_num
  · rw [Int.ceil_eq_iff]
    constructor <;> norm_num

/-- Round trip with time of day when the `int` locals of the decoder are read
as integers: for every valid Gregorian date with `y ≥ -4712` and every integer
time `0 ≤ h ≤ 23`, `0 ≤ mi ≤ 59`, `0 ≤ s ≤ 59`. -/
theorem gregorian_hms_round_trip_exact (y m d h mi s : ℤ) (hy : -4712 ≤ y) (hm1 : 1 ≤ m)
    (hm2 : m ≤ 12) (hd1 : 1 ≤ d)
    (hd2 : d ≤ gregorian_days_in_month m (is_gregorian_leapyear y))
    (hh1 : 0 ≤ h) (hh2 : h ≤ 23) (hmi1 : 0 ≤ mi) (hmi2 : mi ≤ 59) (hs1 : 0 ≤ s)
    (hs2 : s ≤ 59) :
    jd_to_gregorian_hms (gregorian_to_jd_hms y m d h mi (s : ℚ)) = (y, m, d, h, mi, (s : ℚ)) := by
  obtain ⟨hT1, hT2, -, hT4⟩ := split_seconds h mi s hmi1 hmi2 hs1 hs2
  generalize hT : h * 3600 + mi * 60 + s = T at hT1 hT2 hT4
  have hT0 : 0 ≤ T := by omega
  have hT86 : T ≤ 86399 := by omega
  have hjd : gregorian_to_jd_hms y m d h mi (s : ℚ)
      = (gregorian_jdn y m d : ℚ) - 1 / 2 + (T : ℚ) / 86400 := by
    unfold gregorian_to_jd_hms
    simp only []
    rw [gregorian_to_jd_eq, ← hT]
    push_cast
    norm_num
  have hfl : ⌊gregorian_to_jd_hms y m d h mi (s : ℚ) + 0.5⌋ = gregorian_jdn y m d := by
    rw [hjd, Int.floor_eq_iff]
    have h1 : (0 : ℚ) ≤ (T : ℚ) / 86400 := by positivity
    have h2 : (T : ℚ) / 86400 < 1 := by
      rw [div_lt_one (by norm_num)]
      have : (T : ℚ) ≤ 86399 := by exact_mod_cast hT86
      linarith
    constructor <;> norm_num <;> linarith
  have hfl2 : ⌊((gregorian_jdn y m d : ℤ) : ℚ) + 0.5⌋ = gregorian_jdn y m d := by
    rw [Int.floor_eq_iff]
    constructor <;> norm_num
  have hymd : jd_to_gregorian ((gregorian_jdn y m d : ℤ) : ℚ) = (y, m, d) := by
    rw [jd_to_gregorian_of_floor _ _ hfl2]
    exact (gregorian_decompose y m d (by omega) hm1 hm2 hd1 hd2).2
  unfold jd_to_gregorian_hms
  simp only [hfl, toInt_intCast, hymd]
  have hfrac : (gregorian_to_jd_hms y m d h mi (s : ℚ) + 0.5 - (gregorian_jdn y m d : ℚ))
      * 86400.0 = (T : ℚ) := by
    rw [hjd]; norm_num; ring
  rw [hfrac, cround_intCast, min_eq_left hT86,
    cdiv_of_nonneg hT0 (by norm_num), cmod_of_nonneg hT0 (by norm_num),
    cmod_of_nonneg hT0 (by norm_num),
    cdiv_of_nonneg (Int.emod_nonneg _ (by norm_num)) (by norm_num), hT1, hT2, hT4]

/-- Reverse round trip on the JD axis when the `int` locals of the decoder are
read as integers: for every date-only value `x = n + 0.5` with `n ≥ -32044`,
`gregorian_to_jd` applied to the `(year, month, day)` returned by
`jd_to_gregorian x` equals `x`. -/
theorem gregorian_jd_round_trip_exact (n : ℤ) (hn : -32044 ≤ n) :
    gregorian_to_jd (jd_to_gregorian ((n : ℚ) + 0.5)).1 (jd_to_gregorian ((n : ℚ) + 0.5)).2.1
      (jd_to_gregorian ((n : ℚ) + 0.5)).2.2 = (n : ℚ) + 0.5 := by
  have hfl : ⌊((n : ℚ) + 0.5) + 0.5⌋ = n + 1 := by
    rw [Int.floor_eq_iff]
    constructor <;> push_cast <;> norm_num <;> linarith
  rw [jd_to_gregorian_of_floor _ _ hfl, jd_to_gregorian_jdn _ (by omega), gregorian_to_jd_eq]
  simp only []
  generalize hA : n + 1 + 32044 = A
  have hA0 : 0 ≤ A := by omega
  generalize hB : (4 * A + 3) / 146097 = B
  have hB0 : 0 ≤ B := by omega
  generalize hC : A - B * 146097 / 4 = C
  have hC0 : 0 ≤ C ∧ C ≤ 36524 := by constructor <;> omega
  generalize hD : (4 * C + 3) / 1461 = D
  have hD0 : 0 ≤ D ∧ D ≤ 99 := by constructor <;> omega
  generalize hE : C - 1461 * D / 4 = E
  have hE0 : 0 ≤ E ∧ E ≤ 365 := by constructor <;> omega
  generalize hM : (5 * E + 2) / 153 = M
  have hM0 : 0 ≤ M ∧ M ≤ 11 := by constructor <;> omega
  have hjdn : gregorian_jdn (B * 100 + D - 4800 + M / 10) (M + 3 - 12 * (M / 10))
      (E - (153 * M + 2) / 5 + 1) = n + 1 := by
    have hy1 : (if M + 3 - 12 * (M / 10) ≤ 2 then B * 100 + D - 4800 + M / 10 - 1
        else B * 100 + D - 4800 + M / 10) = B * 100 + D - 4800 := by split <;> omega
    have hm1 : (if M + 3 - 12 * (M / 10) ≤ 2 then M + 3 - 12 * (M / 10) + 12
        else M + 3 - 12 * (M / 10)) = M + 3 := by split <;> omega
    have hfwd := greg_fwd (B * 100 + D - 4800) (M + 3) (E - (153 * M + 2) / 5 + 1)
      (by omega) (by omega)
    have hY1 : (B * 100 + D - 4800 + 4800) / 100 = B := by omega
    have hY2 : (B * 100 + D - 4800 + 4800) % 100 = D := by omega
    rw [hY1, hY2] at hfwd
    have hM3 : M + 3 - 3 = M := by omega
    rw [hM3] at hfwd
    have hjdn0 : gregorian_jdn (B * 100 + D - 4800 + M / 10) (M + 3 - 12 * (M / 10))
        (E - (153 * M + 2) / 5 + 1) + 32044 =
        1461 * (B * 100 + D - 4800 + 4716) / 4 + 306001 * (M + 3 + 1) / 10000
          + (E - (153 * M + 2) / 5 + 1)
          + (2 - (B * 100 + D - 4800) / 100 + (B * 100 + D - 4800) / 100 / 4)
          - 1524 + 32044 := by
      unfold gregorian_jdn
      simp only []
      rw [hy1, hm1]
    rw [hfwd] at hjdn0
    have e1 : B * 146097 / 4 = 36524 * B + B / 4 := by omega
    have e2 : 1461 * D / 4 = 365 * D + D / 4 := by omega
    clear hy1 hm1 hfwd hY1 hY2 hM hD hB
    omega
  rw [hjdn]
  push_cast
  norm_num
  ring

/-! ## Fixed points and anchors -/

/-- C8 (as stated, refuted). Gregorian 1582-10-15 and Julian 1582-10-04 do not
map to the same JD value. -/
theorem reform_anchor_not_equal : gregorian_to_jd 1582 10 15 ≠ julian_to_jd 1582 10 4 := by
  norm_num [gregorian_to_jd, julian_to_jd, cdiv_of_nonneg]

/-- C8 (amended). Gregorian 1582-10-15 maps to JD 2299160.5, exactly one day
after the JD 2299159.5 of Julian 1582-10-04; it is the JD of Julian 1582-10-05. -/
theorem reform_anchor_next_day :
    gregorian_to_jd 1582 10 15 = 2299160.5 ∧ julian_to_jd 1582 10 4 = 2299159.5 ∧
    gregorian_to_jd 1582 10 15 = julian_to_jd 1582 10 4 + 1 ∧
    gregorian_to_jd 1582 10 15 = julian_to_jd 1582 10 5 := by
  norm_num [gregorian_to_jd, julian_to_jd, cdiv_of_nonneg]

/-- C9. Known fixed point: `gregorian_to_jd(2000, 1, 1, 12, 0, 0)` is exactly
`2451545.0`. -/
theorem gregorian_j2000 : gregorian_to_jd_hms 2000 1 1 12 0 0 = 2451545.0 := by
  norm_num [gregorian_to_jd_hms, gregorian_to_jd]

/-- C10. The epoch constants are the JD of each calendar's date (1,1,1):
`julian_to_jd 1 1 1 = JULIAN_EPOCH = 1721423.5`,
`islamic_to_jd 1 1 1 = ISLAMIC_EPOCH = 1948439.5` and
`gregorian_to_jd 1 1 1 = GREGORIAN_EPOCH = 1721425.5`. -/
theorem epoch_constants :
    julian_to_jd 1 1 1 = JULIAN_EPOCH ∧ JULIAN_EPOCH = 1721423.5 ∧
    islamic_to_jd 1 1 1 = ISLAMIC_EPOCH ∧ ISLAMIC_EPOCH = 1948439.5 ∧
    gregorian_to_jd 1 1 1 = GREGORIAN_EPOCH ∧ GREGORIAN_EPOCH = 1721425.5 := by
  norm_num [julian_to_jd, islamic_to_jd, gregorian_to_jd, JULIAN_EPOCH, ISLAMIC_EPOCH,
    GREGORIAN_EPOCH, cdiv_of_nonneg, ceil_eq_neg_floor]

/-! ## Julian calendar -/

theorem is_julian_leapyear_iff (y : ℤ) : is_julian_leapyear y = true ↔ y % 4 = 0 := by
  simp [is_julian_leapyear, cmod_eq_zero_iff]

theorem julian_to_jd_eq (y m d : ℤ) (hy : -4799 ≤ y) (hm1 : 1 ≤ m) (hm2 : m ≤ 12) :
    julian_to_jd y m d =
      ((d + (153 * (m + 12 * ((14 - m) / 12) - 3) + 2) / 5 + 365 * (y + 4800 - (14 - m) / 12)
        + (y + 4800 - (14 - m) / 12) / 4 - 32083 : ℤ) : ℚ) - 1 / 2 := by
  unfold julian_to_jd
  simp only []
  rw [cdiv_of_nonneg (show 0 ≤ 14 - m by omega) (by norm_num)]
  rw [cdiv_of_nonneg (show 0 ≤ 153 * (m + 12 * ((14 - m) / 12) - 3) + 2 by omega) (by norm_num),
    cdiv_of_nonneg (show 0 ≤ y + 4800 - (14 - m) / 12 by omega) (by norm_num)]
  push_cast
  norm_num
  ring

theorem jd_to_julian_int (n : ℤ) :
    jd_to_julian ((n : ℚ) - 1 / 2) =
      (let b := n + 1524
       let c := (20 * b - 2442) / 7305
       let d := 1461 * c / 4
       let e := 10000 * (b - d) / 306001
       let month := if e < 14 then e - 1 else e - 13
       let year := if month > 2 then c - 4716 else c - 4715
       (year, month, b - d - 306001 * e / 10000)) := by
  unfold jd_to_julian
  have ha : ⌊((n : ℚ) - 1 / 2) + 0.5⌋ = n := by
    have : ((n : ℚ) - 1 / 2) + 0.5 = (n : ℚ) := by norm_num
    rw [this, Int.floor_intCast]
  simp only [ha]
  have hc : ⌊((n : ℚ) + 1524 - 122.1) / 365.25⌋ = (20 * (n + 1524) - 2442) / 7305 := by
    have := floor_of_eq_div (((n : ℚ) + 1524 - 122.1) / 365.25) (20 * (n + 1524) - 2442) 7305
      (by push_cast; norm_num; ring)
    simpa using this
  rw [hc]
  generalize (20 * (n + 1524) - 2442) / 7305 = c
  have hd : ⌊(365.25 : ℚ) * (c : ℚ)⌋ = 1461 * c / 4 := by
    have := floor_of_eq_div ((365.25 : ℚ) * (c : ℚ)) (1461 * c) 4 (by push_cast; norm_num; ring)
    simpa using this
  rw [hd]
  generalize 1461 * c / 4 = d
  have he : ⌊((n : ℚ) + 1524 - (d : ℚ)) / 30.6001⌋ = 10000 * (n + 1524 - d) / 306001 := by
    have := floor_of_eq_div (((n : ℚ) + 1524 - (d : ℚ)) / 30.6001) (10000 * (n + 1524 - d))
      306001 (by push_cast; norm_num; ring)
    simpa using this
  rw [he]
  generalize 10000 * (n + 1524 - d) / 306001 = e
  have hfe : ⌊(30.6001 : ℚ) * (e : ℚ)⌋ = 306001 * e / 10000 := by
    have := floor_of_eq_div ((30.6001 : ℚ) * (e : ℚ)) (306001 * e) 10000
      (by push_cast; norm_num; ring)
    simpa using this
  rw [hfe]
  have hmonth : toInt (⌊if (e : ℚ) < 14 then (e : ℚ) - 1 else (e : ℚ) - 13⌋ : ℤ)
      = if e < 14 then e - 1 else e - 13 := by
    rw [toInt_intCast]
    have h14 : ((e : ℚ) < 14) ↔ e < 14 := by exact_mod_cast Iff.rfl
    simp only [h14]
    split
    · have : ((e : ℚ) - 1) = ((e - 1 : ℤ) : ℚ) := by push_cast; ring
      rw [this, Int.floor_intCast]
    · have : ((e : ℚ) - 13) = ((e - 13 : ℤ) : ℚ) := by push_cast; ring
      rw [this, Int.floor_intCast]
  rw [hmonth]
  generalize (if e < 14 then e - 1 else e - 13) = month
  have hyear : toInt (⌊if month > 2 then (c : ℚ) - 4716 else (c : ℚ) - 4715⌋ : ℤ)
      = if month > 2 then c - 4716 else c - 4715 := by
    rw [toInt_intCast]
    split
    · have : ((c : ℚ) - 4716) = ((c - 4716 : ℤ) : ℚ) := by push_cast; ring
      rw [this, Int.floor_intCast]
    · have : ((c : ℚ) - 4715) = ((c - 4715 : ℤ) : ℚ) := by push_cast; ring
      rw [this, Int.floor_intCast]
  rw [hyear]
  have hday : toInt ((n : ℚ) + 1524 - (d : ℚ) - ((306001 * e / 10000 : ℤ) : ℚ))
      = n + 1524 - d - 306001 * e / 10000 := by
    have : (n : ℚ) + 1524 - (d : ℚ) - ((306001 * e / 10000 : ℤ) : ℚ)
        = ((n + 1524 - d - 306001 * e / 10000 : ℤ) : ℚ) := by push_cast; ring
    rw [this, toInt_intCast]
  rw [hday]

theorem julian_year_step (c0 k b : ℤ) (hk1 : 1 ≤ k)
    (hk : k ≤ 365 ∨ (k = 366 ∧ c0 % 4 = 3)) (hb : b = 365 * c0 + c0 / 4 + 122 + k) :
    (20 * b - 2442) / 7305 = c0 ∧ b - 1461 * c0 / 4 = 122 + k := by
  subst hb
  constructor <;> omega

/-- Day-of-year bounds and month recovery for a valid Julian-calendar date, on
the March-based month index `mp = m + 12 * ((14 - m) / 12) - 3`. -/
theorem julian_month_step (y m d : ℤ) (hm1 : 1 ≤ m) (hm2 : m ≤ 12) (hd1 : 1 ≤ d)
    (hd2 : d ≤ julian_days_in_month m (is_julian_leapyear y)) :
    (153 * (m + 12 * ((14 - m) / 12) - 3) + 2) / 5 + d ≤ 365 ∨
      ((153 * (m + 12 * ((14 - m) / 12) - 3) + 2) / 5 + d = 366 ∧ y % 4 = 0 ∧ m = 2) := by
  have hleap := is_julian_leapyear_iff y
  cases hl : is_julian_leapyear y <;> rw [hl] at hd2 hleap <;>
    interval_cases m <;> simp [julian_days_in_month, tableAt] at hd2 ⊢ <;> try omega
  · have := hleap.mp rfl
    omega

theorem julian_month_index (y m d : ℤ) (hm1 : 1 ≤ m) (hm2 : m ≤ 12) (hd1 : 1 ≤ d)
    (hd2 : d ≤ julian_days_in_month m (is_julian_leapyear y)) :
    10000 * (122 + ((153 * (m + 12 * ((14 - m) / 12) - 3) + 2) / 5 + d)) / 306001
        = m + 12 * ((14 - m) / 12) + 1 ∧
    306001 * (m + 12 * ((14 - m) / 12) + 1) / 10000
        = 122 + (153 * (m + 12 * ((14 - m) / 12) - 3) + 2) / 5 := by
  have hd3 : d ≤ 31 := by
    cases hl : is_julian_leapyear y <;> rw [hl] at hd2 <;>
      interval_cases m <;> simp [julian_days_in_month, tableAt] at hd2 <;> omega
  have hd4 : m = 2 → d ≤ 29 := by
    rintro rfl
    cases hl : is_julian_leapyear y <;> rw [hl] at hd2 <;>
      simp [julian_days_in_month, tableAt] at hd2 <;> omega
  have hd5 : m = 4 ∨ m = 6 ∨ m = 9 ∨ m = 11 → d ≤ 30 := by
    rintro (rfl | rfl | rfl | rfl) <;>
    cases hl : is_julian_leapyear y <;> rw [hl] at hd2 <;>
      simp [julian_days_in_month, tableAt] at hd2 <;> omega
  clear hd2
  interval_cases m <;> constructor <;> omega

/-- Integer core of the Julian round trip. -/
theorem julian_decompose (y m d : ℤ) (hy : -4799 ≤ y) (hm1 : 1 ≤ m) (hm2 : m ≤ 12)
    (hd1 : 1 ≤ d) (hd2 : d ≤ julian_days_in_month m (is_julian_leapyear y)) :
    jd_to_julian (julian_to_jd y m d) = (y, m, d) := by
  rw [julian_to_jd_eq y m d hy hm1 hm2, jd_to_julian_int]
  simp only []
  have hk := julian_month_step y m d hm1 hm2 hd1 hd2
  obtain ⟨he, hfe⟩ := julian_month_index y m d hm1 hm2 hd1 hd2
  generalize hmp : m + 12 * ((14 - m) / 12) = mq at *
  generalize hyp : y + 4800 - (14 - m) / 12 = yp at *
  generalize hdoy : (153 * (mq - 3) + 2) / 5 = doy at *
  have hdoy0 : 0 ≤ doy := by omega
  have hb : d + doy + 365 * yp + yp / 4 - 32083 + 1524
      = 365 * (yp - 84) + (yp - 84) / 4 + 122 + (doy + d) := by omega
  have hk2 : doy + d ≤ 365 ∨ (doy + d = 366 ∧ (yp - 84) % 4 = 3) := by
    rcases hk with h | ⟨h1, h2, h3⟩
    · exact Or.inl h
    · right
      refine ⟨h1, ?_⟩
      omega
  obtain ⟨hc, hbd⟩ := julian_year_step (yp - 84) (doy + d) _ (by omega) hk2 hb
  rw [hc, hbd, he, hfe]
  have hmonth : (if mq + 1 < 14 then mq + 1 - 1 else mq + 1 - 13) = m := by
    split <;> omega
  rw [hmonth]
  have hyear : (if m > 2 then yp - 84 - 4716 else yp - 84 - 4715) = y := by
    split <;> omega
  rw [hyear]
  have hday : 122 + (doy + d) - (122 + doy) = d := by omega
  rw [hday]

/-- C4. Julian date round trip: for every valid Julian-calendar date `(y, m, d)`
with `1 ≤ m ≤ 12`, `1 ≤ d ≤ julian_days_in_month m (is_julian_leapyear y)` and
`y ≥ -4712`, the free function `jd_to_julian (julian_to_jd y m d)` is exactly
`(y, m, d)`. -/
theorem julian_round_trip (y m d : ℤ) (hy : -4712 ≤ y) (hm1 : 1 ≤ m) (hm2 : m ≤ 12)
    (hd1 : 1 ≤ d) (hd2 : d ≤ julian_days_in_month m (is_julian_leapyear y)) :
    jd_to_julian (julian_to_jd y m d) = (y, m, d) :=
  julian_decompose y m d (by omega) hm1 hm2 hd1 hd2

/-- Witness for C4: the first supported day, 1 January -4712, round trips. -/
theorem julian_round_trip_witness :
    jd_to_julian (julian_to_jd (-4712) 1 1) = (-4712, 1, 1) :=
  julian_round_trip (-4712) 1 1 (by decide) (by decide) (by decide) (by decide) (by decide)

/-! ## Islamic calendar -/

theorem is_islamic_leapyear_iff (y : ℤ) (hy : 0 ≤ y) :
    is_islamic_leapyear y = true ↔ (11 * y + 14) % 30 < 11 := by
  simp [is_islamic_leapyear, cmod_of_nonneg (show 0 ≤ 11 * y + 14 by omega)]

theorem islamic_to_jd_eq (y m d : ℤ) :
    islamic_to_jd y m d = ISLAMIC_EPOCH + (islamic_days y m d : ℚ) := by
  unfold islamic_to_jd islamic_days
  have h1 : ⌈(29.5 : ℚ) * (((m - 1 : ℤ) : ℚ))⌉ = (59 * (m - 1) + 1) / 2 := by
    have h := floor_of_eq_div (-((29.5 : ℚ) * (((m - 1 : ℤ) : ℚ)))) (-(59 * (m - 1))) 2
      (by push_cast; norm_num; ring)
    rw [ceil_eq_neg_floor, h]
    omega
  have h2 : ⌊(3 + 11.0 * (y : ℚ)) / 30.0⌋ = (3 + 11 * y) / 30 := by
    have := floor_of_eq_div ((3 + 11.0 * (y : ℚ)) / 30.0) (3 + 11 * y) 30
      (by push_cast; norm_num)
    simpa using this
  rw [h1, h2]
  push_cast
  norm_num
  ring

theorem jd_to_islamic_int (N : ℤ) :
    jd_to_islamic (ISLAMIC_EPOCH + (N : ℚ)) =
      (let year := (30 * N + 10646) / 10631
       let k := N - islamic_days year 1 1
       let month := min 12 (-((58 - 2 * k) / 59) + 1)
       (year, month, N - islamic_days year month 1 + 1)) := by
  unfold jd_to_islamic
  simp only []
  have hyear : toInt (⌊(30 * (ISLAMIC_EPOCH + (N : ℚ) - ISLAMIC_EPOCH) + 10646) / 10631.0⌋ : ℤ)
      = (30 * N + 10646) / 10631 := by
    rw [toInt_intCast]
    have := floor_of_eq_div ((30 * (ISLAMIC_EPOCH + (N : ℚ) - ISLAMIC_EPOCH) + 10646) / 10631.0)
      (30 * N + 10646) 10631 (by push_cast; norm_num)
    simpa using this
  rw [hyear]
  generalize (30 * N + 10646) / 10631 = year
  have hmonth : toInt (((⌈(ISLAMIC_EPOCH + (N : ℚ) - (29 + islamic_to_jd year 1 1)) / 29.5⌉ : ℤ)
      : ℚ) + 1) = -((58 - 2 * (N - islamic_days year 1 1)) / 59) + 1 := by
    have h := floor_of_eq_div
      (-((ISLAMIC_EPOCH + (N : ℚ) - (29 + islamic_to_jd year 1 1)) / 29.5))
      (58 - 2 * (N - islamic_days year 1 1)) 59
      (by rw [islamic_to_jd_eq]; push_cast; norm_num; ring)
    rw [ceil_eq_neg_floor, h]
    have : (((-((58 - 2 * (N - islamic_days year 1 1)) / ((59 : ℕ) : ℤ)) : ℤ) : ℚ) + 1)
        = ((-((58 - 2 * (N - islamic_days year 1 1)) / 59) + 1 : ℤ) : ℚ) := by push_cast; ring
    rw [this, toInt_intCast]
  rw [hmonth]
  generalize min 12 (-((58 - 2 * (N - islamic_days year 1 1)) / 59) + 1) = month
  have hday : toInt ((⌊ISLAMIC_EPOCH + (N : ℚ)⌋ : ℤ) + 0.5 - islamic_to_jd year month 1 + 1)
      = N - islamic_days year month 1 + 1 := by
    have hfl : ⌊ISLAMIC_EPOCH + (N : ℚ)⌋ = 1948439 + N := by
      rw [Int.floor_eq_iff]
      unfold ISLAMIC_EPOCH
      push_cast
      constructor
      · norm_num
      · norm_num
        linarith
    rw [hfl, islamic_to_jd_eq]
    have : (((1948439 + N : ℤ) : ℚ) + 0.5 - (ISLAMIC_EPOCH + (islamic_days year month 1 : ℚ)) + 1)
        = ((N - islamic_days year month 1 + 1 : ℤ) : ℚ) := by
      unfold ISLAMIC_EPOCH; push_cast; norm_num; ring
    rw [this, toInt_intCast]
  rw [hday]

/-- Month lengths of a valid Islamic date, by month. -/
theorem islamic_day_bound (y m d : ℤ) (hy : 0 ≤ y) (hm1 : 1 ≤ m) (hm2 : m ≤ 12)
    (hd2 : d ≤ islamic_days_in_month m (is_islamic_leapyear y)) :
    (m % 2 = 1 → d ≤ 30) ∧ (m % 2 = 0 → m ≠ 12 → d ≤ 29) ∧
    (m = 12 → d ≤ 29 ∨ (d = 30 ∧ (11 * y + 14) % 30 < 11)) := by
  have hL := (is_islamic_leapyear_iff y hy).mp
  cases hl : is_islamic_leapyear y
  · rw [hl] at hd2
    clear hL
    interval_cases m <;> simp [islamic_days_in_month, cmod_of_nonneg] at hd2 ⊢ <;> omega
  · rw [hl] at hd2
    have := hL hl
    interval_cases m <;> simp [islamic_days_in_month, cmod_of_nonneg] at hd2 ⊢ <;> omega

theorem leap_residue (r : ℤ) (h0 : 0 ≤ r) (h30 : r < 30) (h : (r + 11) % 30 < 11) :
    19 ≤ r := by
  omega

theorem islamic_year_step (y k : ℤ) (hk0 : 0 ≤ k)
    (hk : k ≤ 353 ∨ (k = 354 ∧ (11 * y + 14) % 30 < 11)) :
    (30 * (k + (y - 1) * 354 + (3 + 11 * y) / 30) + 10646) / 10631 = y := by
  have h1 : (11 * y + 14) % 30 = ((3 + 11 * y) % 30 + 11) % 30 := by omega
  have h2 : 30 * (k + (y - 1) * 354 + (3 + 11 * y) / 30) + 10646
      = 10631 * y + (30 * k + 29 - (3 + 11 * y) % 30) := by omega
  rw [h2]
  generalize (3 + 11 * y) % 30 = r at h1 h2
  have hr : 0 ≤ r ∧ r < 30 := by omega
  have hk2 : k ≤ 353 ∨ (k = 354 ∧ 19 ≤ r) := by
    rcases hk with h | ⟨h, h3⟩
    · exact Or.inl h
    · rw [h1] at h3
      exact Or.inr ⟨h, leap_residue r hr.1 hr.2 h3⟩
  clear hk h1 h2
  omega

/-- Integer core of the Islamic round trip: decomposing the day count of a
valid date gives the date back. -/
theorem islamic_decompose (y m d : ℤ) (hy : 1 ≤ y) (hm1 : 1 ≤ m) (hm2 : m ≤ 12)
    (hd1 : 1 ≤ d) (hd2 : d ≤ islamic_days_in_month m (is_islamic_leapyear y)) :
    (30 * islamic_days y m d + 10646) / 10631 = y ∧
    min 12 (-((58 - 2 * (islamic_days y m d - islamic_days y 1 1)) / 59) + 1) = m ∧
    islamic_days y m d - islamic_days y m 1 + 1 = d := by
  obtain ⟨hb1, hb2, hb3⟩ := islamic_day_bound y m d (by omega) hm1 hm2 hd2
  clear hd2
  have hk : d + (59 * (m - 1) + 1) / 2 - 1 ≤ 353 ∨
      (d + (59 * (m - 1) + 1) / 2 - 1 = 354 ∧ (11 * y + 14) % 30 < 11) := by
    interval_cases m <;> omega
  have hsplit : islamic_days y m d
      = (d + (59 * (m - 1) + 1) / 2 - 1) + (y - 1) * 354 + (3 + 11 * y) / 30 := by
    unfold islamic_days; omega
  refine ⟨?_, ?_, ?_⟩
  · rw [hsplit]
    exact islamic_year_step y _ (by omega) hk
  · have h11 : islamic_days y m d - islamic_days y 1 1 = d + (59 * (m - 1) + 1) / 2 - 1 := by
      unfold islamic_days; omega
    rw [h11]
    clear hk hsplit h11
    interval_cases m <;> omega
  · unfold islamic_days; omega

/-- C3. Islamic date round trip: for every valid Islamic date `(y, m, d)` with
`y ≥ 1`, `1 ≤ m ≤ 12` and `1 ≤ d ≤ islamic_days_in_month m (is_islamic_leapyear y)`,
the date-only `jd_to_islamic (islamic_to_jd y m d)` is exactly `(y, m, d)`. -/
theorem islamic_round_trip (y m d : ℤ) (hy : 1 ≤ y) (hm1 : 1 ≤ m) (hm2 : m ≤ 12)
    (hd1 : 1 ≤ d) (hd2 : d ≤ islamic_days_in_month m (is_islamic_leapyear y)) :
    jd_to_islamic (islamic_to_jd y m d) = (y, m, d) := by
  rw [islamic_to_jd_eq, jd_to_islamic_int]
  simp only []
  obtain ⟨h1, h2, h3⟩ := islamic_decompose y m d hy hm1 hm2 hd1 hd2
  rw [h1, h2, h3]

/-- Witness for C3: the leap day 30 Dhu al-Hijja of year 2 round trips. -/
theorem islamic_round_trip_witness :
    jd_to_islamic (islamic_to_jd 2 12 30) = (2, 12, 30) :=
  islamic_round_trip 2 12 30 (by decide) (by decide) (by decide) (by decide) (by decide)


/-- C5 (failing input). Noon of the first day of Islamic year 2 does not round
trip: the seven-argument `jd_to_islamic` applied to
`islamic_to_jd(2, 1, 1, 12, 0, 0)` returns `(1, 12, 30, 12, 0, 0)`, a day 30 in
a month that has 29 days in year 1. -/
theorem islamic_hms_noon_new_year :
    jd_to_islamic_hms (islamic_to_jd_hms 2 1 1 12 0 0) = (1, 12, 30, 12, 0, 0) ∧
    islamic_days_in_month 12 (is_islamic_leapyear 1) = 29 := by
  constructor
  · norm_num [jd_to_islamic_hms, islamic_to_jd_hms, jd_to_islamic, islamic_to_jd, hms, tod,
      ISLAMIC_EPOCH, toInt, cdiv_of_nonneg, cmod_of_nonneg, SECONDS_PER_DAY, ceil_eq_neg_floor]
  · decide

/-! ## Hebrew calendar -/

theorem add_month_days_done (dim : ℤ → ℤ) (jdn : ℚ) (lo hi : ℤ) (h : hi ≤ lo) :
    add_month_days dim jdn lo hi = jdn := by
  have h0 : (hi - lo).toNat = 0 := by omega
  simp [add_month_days, h0, add_month_days_from]

theorem add_month_days_step (dim : ℤ → ℤ) (jdn : ℚ) (lo hi : ℤ) (h : lo < hi) :
    add_month_days dim jdn lo hi = add_month_days dim (jdn + ((dim lo : ℤ) : ℚ)) (lo + 1) hi := by
  have h1 : (hi - lo).toNat = (hi - (lo + 1)).toNat + 1 := by omega
  simp [add_month_days, h1, add_month_days_from]

theorem hebrew_to_jd_with_tishri (dim : ℤ → ℤ → ℤ) (y d : ℤ) :
    hebrew_to_jd_with dim y 7 d
      = HEBREW_EPOCH + hebrew_delay_of_week y + hebrew_delay_adjacent_year y + (d : ℚ) + 1 := by
  simp [hebrew_to_jd_with, add_month_days_done]

/-- The equation of the source for `hebrew_days_in_year` holds of the model. -/
theorem hebrew_days_in_year_eq (y : ℤ) :
    hebrew_days_in_year y = hebrew_to_jd (y + 1) 7 1 - hebrew_to_jd y 7 1 := by
  simp only [hebrew_days_in_year, hebrew_to_jd, hebrew_to_jd_with_tishri]

theorem hdow_5782 : hebrew_delay_of_week 5782 = 2111467 := by
  norm_num [hebrew_delay_of_week, toInt, cmod_of_nonneg]

theorem hdow_5783 : hebrew_delay_of_week 5783 = 2111851 := by
  norm_num [hebrew_delay_of_week, toInt, cmod_of_nonneg]

theorem hdow_5784 : hebrew_delay_of_week 5784 = 2112206 := by
  norm_num [hebrew_delay_of_week, toInt, cmod_of_nonneg]

theorem hdow_5785 : hebrew_delay_of_week 5785 = 2112589 := by
  norm_num [hebrew_delay_of_week, toInt, cmod_of_nonneg]

theorem hdow_5786 : hebrew_delay_of_week 5786 = 2112944 := by
  norm_num [hebrew_delay_of_week, toInt, cmod_of_nonneg]

theorem hadj_5783 : hebrew_delay_adjacent_year 5783 = 0 := by
  norm_num [hebrew_delay_adjacent_year, hdow_5782, hdow_5783, hdow_5784]

theorem hadj_5784 : hebrew_delay_adjacent_year 5784 = 0 := by
  norm_num [hebrew_delay_adjacent_year, hdow_5783, hdow_5784, hdow_5785]

theorem hadj_5785 : hebrew_delay_adjacent_year 5785 = 0 := by
  norm_num [hebrew_delay_adjacent_year, hdow_5784, hdow_5785, hdow_5786]

theorem hebrew_new_year_5783 : hebrew_to_jd 5783 7 1 = 2459848.5 := by
  norm_num [hebrew_to_jd, hebrew_to_jd_with_tishri, hdow_5783, hadj_5783, HEBREW_EPOCH]

theorem hebrew_new_year_5784 : hebrew_to_jd 5784 7 1 = 2460203.5 := by
  norm_num [hebrew_to_jd, hebrew_to_jd_with_tishri, hdow_5784, hadj_5784, HEBREW_EPOCH]

theorem hebrew_new_year_5785 : hebrew_to_jd 5785 7 1 = 2460586.5 := by
  norm_num [hebrew_to_jd, hebrew_to_jd_with_tishri, hdow_5785, hadj_5785, HEBREW_EPOCH]

theorem hebrew_days_in_year_5784 : hebrew_days_in_year 5784 = 383 := by
  norm_num [hebrew_days_in_year_eq, hebrew_new_year_5784, hebrew_new_year_5785]

theorem is_hebrew_leapyear_5784 : is_hebrew_leapyear 5784 = true := by
  decide

theorem hebrew_months_5784 :
    hebrew_days_in_month 5784 7 = 30 ∧ hebrew_days_in_month 5784 8 = 29 ∧
    hebrew_days_in_month 5784 9 = 29 ∧ hebrew_days_in_month 5784 10 = 29 ∧
    hebrew_days_in_month 5784 11 = 30 ∧ hebrew_days_in_month 5784 12 = 30 ∧
    hebrew_days_in_month 5784 13 = 29 := by
  norm_num [hebrew_days_in_month, hebrew_days_in_year_5784, toInt, cmod_of_nonneg,
    is_hebrew_leapyear_5784]

theorem hebrew_tishri_30_5784 : hebrew_to_jd 5784 7 30 = 2460232.5 := by
  norm_num [hebrew_to_jd, hebrew_to_jd_with_tishri, hdow_5784, hadj_5784, HEBREW_EPOCH]

theorem hebrew_heshvan_5784 (d : ℤ) : hebrew_to_jd 5784 8 d = 2460232.5 + (d : ℚ) := by
  obtain ⟨h7, -⟩ := hebrew_months_5784
  unfold hebrew_to_jd hebrew_to_jd_with
  rw [if_neg (by decide), add_month_days_step _ _ 7 8 (by decide),
    add_month_days_done _ _ _ _ (by decide), h7, hdow_5784, hadj_5784]
  norm_num [HEBREW_EPOCH]
  ring

theorem hebrew_nisan_1_5784 : hebrew_to_jd 5784 1 1 = 2460409.5 := by
  obtain ⟨h7, h8, h9, h10, h11, h12, h13⟩ := hebrew_months_5784
  have hmy : hebrew_months_in_year 5784 + 1 = 14 := by
    simp [hebrew_months_in_year, is_hebrew_leapyear_5784]
  unfold hebrew_to_jd hebrew_to_jd_with
  rw [if_pos (by decide), hmy, add_month_days_done _ _ 1 1 (by decide),
    add_month_days_step _ _ 7 14 (by decide), add_month_days_step _ _ (7 + 1) 14 (by decide),
    add_month_days_step _ _ (7 + 1 + 1) 14 (by decide),
    add_month_days_step _ _ (7 + 1 + 1 + 1) 14 (by decide),
    add_month_days_step _ _ (7 + 1 + 1 + 1 + 1) 14 (by decide),
    add_month_days_step _ _ (7 + 1 + 1 + 1 + 1 + 1) 14 (by decide),
    add_month_days_step _ _ (7 + 1 + 1 + 1 + 1 + 1 + 1) 14 (by decide),
    add_month_days_done _ _ _ _ (by decide)]
  norm_num [h7, h8, h9, h10, h11, h12, h13, hdow_5784, hadj_5784, HEBREW_EPOCH]

/-- C2 (failing input). The 30th and last day of Tishri 5784 does not round
trip: whenever the two search loops are given at least three evaluations of
their conditions, `jd_to_hebrew (hebrew_to_jd 5784 7 30)` returns
`(5784, 8, 0)`, month 8 with day 0, although Tishri 5784 has 30 days. -/
theorem hebrew_last_day_of_tishri (n : ℕ) :
    hebrew_days_in_month 5784 7 = 30 ∧
    jd_to_hebrew (n + 3) (hebrew_to_jd 5784 7 30) = some (5784, 8, 0) := by
  refine ⟨hebrew_months_5784.1, ?_⟩
  have ha : cround (hebrew_to_jd 5784 7 30 + 0.5) = 2460233 := by
    rw [hebrew_tishri_30_5784]
    norm_num [cround]
  have hyear0 : toInt (((⌊(((2460233 : ℤ) : ℚ) - HEBREW_EPOCH) * 98496.0 / 35975351.0⌋ : ℤ) : ℚ)
      - 1) = 5782 := by
    norm_num [HEBREW_EPOCH, toInt]
  have hys : hebrew_year_search ((2460233 : ℤ) : ℚ) (n + 3) 5782 = some 5784 := by
    norm_num [hebrew_year_search, hebrew_new_year_5783, hebrew_new_year_5784,
      hebrew_new_year_5785]
  have hms : hebrew_month_search ((2460233 : ℤ) : ℚ) 5784 (n + 3) 7 = some 8 := by
    norm_num [hebrew_month_search, hebrew_months_5784, hebrew_tishri_30_5784,
      hebrew_heshvan_5784]
  have hday : toInt (((2460233 : ℤ) : ℚ) - hebrew_to_jd 5784 8 1 + 1) = 0 := by
    norm_num [hebrew_heshvan_5784, toInt]
  have hfirst : (if ((2460233 : ℤ) : ℚ) < hebrew_to_jd 5784 1 1 then (7 : ℤ) else 1) = 7 := by
    norm_num [hebrew_nisan_1_5784]
  unfold jd_to_hebrew
  simp only [ha, hyear0, hys, hfirst, hms, hday]

/-! ## Hebrew epoch -/

theorem hdow_0 : hebrew_delay_of_week 0 = -383 := by
  have h : cmod (-1149) 7 = -1 := by decide
  norm_num [hebrew_delay_of_week, toInt, ceil_eq_neg_floor, h]

theorem hdow_1 : hebrew_delay_of_week 1 = 0 := by
  norm_num [hebrew_delay_of_week, toInt, cmod_of_nonneg]

theorem hdow_2 : hebrew_delay_of_week 2 = 355 := by
  norm_num [hebrew_delay_of_week, toInt, cmod_of_nonneg]

theorem hadj_1 : hebrew_delay_adjacent_year 1 = 0 := by
  norm_num [hebrew_delay_adjacent_year, hdow_0, hdow_1, hdow_2]

/-- C11 (as stated, refuted). The JD of 1 Tishri of Hebrew year 1 is not the
constant `HEBREW_EPOCH`. -/
theorem hebrew_epoch_not_tishri_1 : hebrew_to_jd 1 7 1 ≠ HEBREW_EPOCH := by
  norm_num [hebrew_to_jd, hebrew_to_jd_with_tishri, hdow_1, hadj_1, HEBREW_EPOCH]

/-- C11 (amended). `hebrew_to_jd(1, 7, 1)` is `HEBREW_EPOCH + 2 = 347997.5`:
the constant `HEBREW_EPOCH = 347995.5` is the base of the day count of
`hebrew_to_jd`, two days before the JD of 1 Tishri of year 1. -/
theorem hebrew_epoch_offset :
    hebrew_to_jd 1 7 1 = HEBREW_EPOCH + 2 ∧ HEBREW_EPOCH = 347995.5 ∧
    hebrew_to_jd 1 7 1 = 347997.5 := by
  norm_num [hebrew_to_jd, hebrew_to_jd_with_tishri, hdow_1, hadj_1, HEBREW_EPOCH]

/-! ## Leap-year laws -/

theorem is_hebrew_leapyear_iff (y : ℤ) (hy : 0 ≤ y) :
    is_hebrew_leapyear y = true ↔ (y * 7 + 1) % 19 < 7 := by
  simp [is_hebrew_leapyear, cmod_of_nonneg (show 0 ≤ y * 7 + 1 by omega)]

/-- C12. Gregorian leap rule for every signed year: `is_gregorian_leapyear y`
is true iff `400 ∣ y`, or `4 ∣ y` and not `100 ∣ y`; it has period 400, is true
at 2000 and false at 1900. `is_julian_leapyear y` is true iff `4 ∣ y`, with
period 4. -/
theorem leap_rules_gregorian_julian :
    (∀ y : ℤ, is_gregorian_leapyear y = true ↔ (400 ∣ y ∨ (4 ∣ y ∧ ¬ 100 ∣ y))) ∧
    (∀ y : ℤ, is_gregorian_leapyear (y + 400) = is_gregorian_leapyear y) ∧
    is_gregorian_leapyear 2000 = true ∧ is_gregorian_leapyear 1900 = false ∧
    (∀ y : ℤ, is_julian_leapyear y = true ↔ 4 ∣ y) ∧
    (∀ y : ℤ, is_julian_leapyear (y + 4) = is_julian_leapyear y) := by
  refine ⟨?_, ?_, by decide, by decide, ?_, ?_⟩
  · intro y
    rw [is_gregorian_leapyear_iff]
    omega
  · intro y
    rw [Bool.eq_iff_iff, is_gregorian_leapyear_iff, is_gregorian_leapyear_iff]
    omega
  · intro y
    rw [is_julian_leapyear_iff]
    omega
  · intro y
    rw [Bool.eq_iff_iff, is_julian_leapyear_iff, is_julian_leapyear_iff]
    omega

/-- C13 (failing inputs). With the truncating remainder the Islamic and Hebrew
leap predicates are not periodic on negative years: years -2 and 28 disagree
for the Islamic rule, years -1 and 18 for the Hebrew rule. Year -2 is reported
leap, so its month 12 is given 30 days by `islamic_days_in_month`, while by
`islamic_to_jd` that month has 29 days. -/
theorem leap_not_periodic_negative :
    is_islamic_leapyear (-2 + 30) ≠ is_islamic_leapyear (-2) ∧
    is_hebrew_leapyear (-1 + 19) ≠ is_hebrew_leapyear (-1) ∧
    is_islamic_leapyear (-2) = true ∧
    islamic_days_in_month 12 (is_islamic_leapyear (-2)) = 30 ∧
    islamic_to_jd (-1) 1 1 - islamic_to_jd (-2) 12 1 = 29 := by
  refine ⟨by decide, by decide, by decide, by decide, ?_⟩
  norm_num [islamic_to_jd, ISLAMIC_EPOCH, ceil_eq_neg_floor]

/-- Where the dividend of the remainder is not negative the predicates are
periodic: `is_islamic_leapyear (y + 30) = is_islamic_leapyear y` for every
`y ≥ -1` and `is_hebrew_leapyear (z + 19) = is_hebrew_leapyear z` for every
`z ≥ 0`. -/
theorem leap_periodic_nonnegative (y z : ℤ) (hy : -1 ≤ y) (hz : 0 ≤ z) :
    is_islamic_leapyear (y + 30) = is_islamic_leapyear y ∧
    is_hebrew_leapyear (z + 19) = is_hebrew_leapyear z := by
  constructor
  · unfold is_islamic_leapyear
    rw [cmod_of_nonneg (show 0 ≤ 11 * (y + 30) + 14 by omega) (by norm_num),
      cmod_of_nonneg (show 0 ≤ 11 * y + 14 by omega) (by norm_num)]
    have : (11 * (y + 30) + 14) % 30 = (11 * y + 14) % 30 := by omega
    rw [this]
  · unfold is_hebrew_leapyear
    rw [cmod_of_nonneg (show 0 ≤ (z + 19) * 7 + 1 by omega) (by norm_num),
      cmod_of_nonneg (show 0 ≤ z * 7 + 1 by omega) (by norm_num)]
    have : ((z + 19) * 7 + 1) % 19 = (z * 7 + 1) % 19 := by omega
    rw [this]

/-! ## Month and year arithmetic -/

/-- C15 (failing input). One month before 1 Muharram of year 2: the Islamic
`add_months` returns year 2, month 0, day 1, where the claimed result is year 1,
month 12; the Gregorian `add_months` on the same fields gives year 1, month 12. -/
theorem islamic_add_months_back_over_year :
    ((Islamic.add_months { year_ := 2, month_ := 1, day_ := 1 } (-1)).year_ = 2 ∧
      (Islamic.add_months { year_ := 2, month_ := 1, day_ := 1 } (-1)).month_ = 0 ∧
      (Islamic.add_months { year_ := 2, month_ := 1, day_ := 1 } (-1)).day_ = 1) ∧
    (2 + ((1 : ℤ) - 1 + -1) / 12 = 1 ∧ ((1 : ℤ) - 1 + -1) % 12 + 1 = 12) ∧
    ((Gregorian.add_months { year_ := 2, month_ := 1, day_ := 1 } (-1)).year_ = 1 ∧
      (Gregorian.add_months { year_ := 2, month_ := 1, day_ := 1 } (-1)).month_ = 12) := by
  decide

theorem gregorian_days_in_month_bounds (m : ℤ) (l : Bool) (hm1 : 1 ≤ m) (hm2 : m ≤ 12) :
    28 ≤ gregorian_days_in_month m l ∧ gregorian_days_in_month m l ≤ 31 := by
  cases l <;> interval_cases m <;> decide

/-- The month length depends on the year only in February. -/
theorem gregorian_days_in_month_not_feb (m : ℤ) (l l2 : Bool) (hm : m ≠ 2) :
    gregorian_days_in_month m l = gregorian_days_in_month m l2 := by
  unfold gregorian_days_in_month tableAt
  by_cases h0 : m < 0
  · simp [h0]
  · simp only [if_neg h0]
    obtain ⟨k, hk⟩ : ∃ k : ℕ, m = (k : ℤ) := ⟨m.toNat, by omega⟩
    subst hk
    simp only [Int.toNat_ofNat]
    have hk2 : k ≠ 2 := by omega
    cases l <;> cases l2 <;> simp only [Bool.false_eq_true, if_false, if_true] <;>
      match k, hk2 with
      | 0, _ => rfl
      | 1, _ => rfl
      | 2, h => exact absurd rfl h
      | (k + 3), _ => rfl

/-- C20. Gregorian `addYears`: for every valid date `(y, m, d, h, mi, s)` and
integer `n` the result has year `y + n`, the same month and time of day, and
day 28 when `(m, d) = (2, 29)` and `y + n` is not a leap year, otherwise day
`d`; the result is a valid Gregorian date. -/
theorem addYears_spec (date : Gregorian) (n : ℤ) (hm1 : 1 ≤ date.month_)
    (hm2 : date.month_ ≤ 12) (hd1 : 1 ≤ date.day_)
    (hd2 : date.day_ ≤ gregorian_days_in_month date.month_ (is_gregorian_leapyear date.year_)) :
    (addYears date n).year_ = date.year_ + n ∧
    (addYears date n).month_ = date.month_ ∧
    1 ≤ (addYears date n).month_ ∧ (addYears date n).month_ ≤ 12 ∧
    (addYears date n).hour_ = date.hour_ ∧ (addYears date n).minute_ = date.minute_ ∧
    (addYears date n).second_ = date.second_ ∧
    (addYears date n).day_ =
      (if date.month_ = 2 ∧ date.day_ = 29 ∧ is_gregorian_leapyear (date.year_ + n) = false
        then 28 else date.day_) ∧
    1 ≤ (addYears date n).day_ ∧
    (addYears date n).day_ ≤ gregorian_days_in_month (addYears date n).month_
      (is_gregorian_leapyear (addYears date n).year_) := by
  have hday : (addYears date n).day_ =
      (if date.month_ = 2 ∧ date.day_ = 29 ∧ is_gregorian_leapyear (date.year_ + n) = false
        then 28 else date.day_) ∧
      1 ≤ (addYears date n).day_ ∧
      (addYears date n).day_ ≤ gregorian_days_in_month date.month_
        (is_gregorian_leapyear (date.year_ + n)) := by
    simp only [addYears]
    by_cases hf : date.month_ = 2
    · rw [hf] at hd2 ⊢
      cases hl : is_gregorian_leapyear (date.year_ + n) <;>
        cases hl0 : is_gregorian_leapyear date.year_ <;> rw [hl0] at hd2 <;>
        simp [gregorian_days_in_month, tableAt] at hd2 ⊢ <;>
        (refine ⟨?_, ?_, ?_⟩ <;> (try split_ifs) <;> omega)
    · have hsame := gregorian_days_in_month_not_feb date.month_
        (is_gregorian_leapyear date.year_) (is_gregorian_leapyear (date.year_ + n)) hf
      rw [hsame] at hd2
      simp only [hf, false_and, if_false]
      rw [if_neg (by omega)]
      exact ⟨rfl, hd1, hd2⟩
  exact ⟨rfl, rfl, hm1, hm2, rfl, rfl, rfl, hday.1, hday.2.1, hday.2.2⟩

/-- Witness for C20: 29 February 2024 plus one year is 28 February 2025. -/
theorem addYears_spec_witness :
    (addYears { year_ := 2024, month_ := 2, day_ := 29 } 1).year_ = 2024 + 1 ∧
    (addYears { year_ := 2024, month_ := 2, day_ := 29 } 1).month_ = 2 ∧
    1 ≤ (addYears { year_ := 2024, month_ := 2, day_ := 29 } 1).month_ ∧
    (addYears { year_ := 2024, month_ := 2, day_ := 29 } 1).month_ ≤ 12 ∧
    (addYears { year_ := 2024, month_ := 2, day_ := 29 } 1).hour_ = 0 ∧
    (addYears { year_ := 2024, month_ := 2, day_ := 29 } 1).minute_ = 0 ∧
    (addYears { year_ := 2024, month_ := 2, day_ := 29 } 1).second_ = 0 ∧
    (addYears { year_ := 2024, month_ := 2, day_ := 29 } 1).day_ =
      (if (2 : ℤ) = 2 ∧ (29 : ℤ) = 29 ∧ is_gregorian_leapyear (2024 + 1) = false
        then 28 else 29) ∧
    1 ≤ (addYears { year_ := 2024, month_ := 2, day_ := 29 } 1).day_ ∧
    (addYears { year_ := 2024, month_ := 2, day_ := 29 } 1).day_ ≤
      gregorian_days_in_month (addYears { year_ := 2024, month_ := 2, day_ := 29 } 1).month_
        (is_gregorian_leapyear (addYears { year_ := 2024, month_ := 2, day_ := 29 } 1).year_) :=
  addYears_spec { year_ := 2024, month_ := 2, day_ := 29 } 1 (by decide) (by decide)
    (by decide) (by decide)

/-! ## Day addition -/

theorem gregorian_jdn_day (y m d : ℤ) : gregorian_jdn y m d = gregorian_jdn y m 1 + (d - 1) := by
  simp only [gregorian_jdn]
  ring

/-- The day number of the first day of the next month is the day number of the
first day of this month plus the length of this month. -/
theorem gregorian_next_month (y m : ℤ) (hm1 : 1 ≤ m) (hm2 : m ≤ 12) :
    gregorian_jdn (if m + 1 > 12 then y + 1 else y) (if m + 1 > 12 then 1 else m + 1) 1
      = gregorian_jdn y m 1 + gregorian_days_in_month m (is_gregorian_leapyear y) := by
  have hL := is_gregorian_leapyear_iff y
  have h1 := div_div_100_4 y
  have h2 := div_div_100_4 (y - 1)
  have h3 : 1461 * (y + 4716) / 4 = 365 * (y + 4716) + (y + 4716) / 4 := by omega
  have h4 : 1461 * (y - 1 + 4716) / 4 = 365 * (y - 1 + 4716) + (y - 1 + 4716) / 4 := by omega
  cases hl : is_gregorian_leapyear y <;> rw [hl] at hL <;>
    interval_cases m <;>
    simp [gregorian_jdn, gregorian_days_in_month, tableAt] at hL ⊢ <;> omega

theorem gregorian_add_days_loop_spec (fuel : ℕ) :
    ∀ y m d : ℤ, 1 ≤ m → m ≤ 12 → 1 ≤ d → d ≤ (fuel : ℤ) →
      ∃ y2 m2 d2 : ℤ,
        Gregorian.add_days_loop fuel y m d (gregorian_days_in_month m (is_gregorian_leapyear y))
          = some (y2, m2, d2) ∧
        1 ≤ m2 ∧ m2 ≤ 12 ∧ 1 ≤ d2 ∧
        d2 ≤ gregorian_days_in_month m2 (is_gregorian_leapyear y2) ∧
        gregorian_jdn y2 m2 d2 = gregorian_jdn y m d := by
  induction fuel with
  | zero =>
    intro y m d _ _ hd1 hd
    simp at hd
    omega
  | succ k ih =>
    intro y m d hm1 hm2 hd1 hd
    obtain ⟨hb1, hb2⟩ := gregorian_days_in_month_bounds m (is_gregorian_leapyear y) hm1 hm2
    unfold Gregorian.add_days_loop
    by_cases hgt : d > gregorian_days_in_month m (is_gregorian_leapyear y)
    · simp only [if_pos hgt]
      have hm1n : 1 ≤ (if m + 1 > 12 then 1 else m + 1) := by split <;> omega
      have hm2n : (if m + 1 > 12 then 1 else m + 1) ≤ 12 := by split <;> omega
      have hdk : d - gregorian_days_in_month m (is_gregorian_leapyear y) ≤ (k : ℤ) := by
        push_cast at hd
        omega
      obtain ⟨y2, m2, d2, hres, h1, h2, h3, h4, h5⟩ :=
        ih (if m + 1 > 12 then y + 1 else y) (if m + 1 > 12 then 1 else m + 1)
          (d - gregorian_days_in_month m (is_gregorian_leapyear y)) hm1n hm2n (by omega) hdk
      refine ⟨y2, m2, d2, hres, h1, h2, h3, h4, ?_⟩
      rw [h5, gregorian_jdn_day, gregorian_next_month y m hm1 hm2, gregorian_jdn_day y m d]
      ring
    · simp only [if_neg hgt]
      exact ⟨y, m, d, rfl, hm1, hm2, hd1, by omega, rfl⟩

/-- C17 (as stated, refuted). The sum `date.day() + n` is an `unsigned` sum:
for 1 January 2024 and `n = 4294967295` it wraps to 0, the loop stops at the
first evaluation of its condition, and `add_days` returns day 0 of January
2024, which is not a valid date and is not `n` days after 1 January. -/
theorem gregorian_add_days_wraps :
    (1 : ℤ) ≤ gregorian_days_in_month 1 (is_gregorian_leapyear 2024) ∧
    (Gregorian.add_days 1 { year_ := 2024, month_ := 1, day_ := 1 } 4294967295).map
      (fun r => (r.year_, r.month_, r.day_)) = some (2024, 1, 0) ∧
    gregorian_to_jd 2024 1 0 ≠ gregorian_to_jd 2024 1 1 + ((4294967295 : ℕ) : ℚ) := by
  have d1 : gregorian_days_in_month 1 (is_gregorian_leapyear 2024) = 31 := by decide
  refine ⟨by decide, ?_, ?_⟩
  · simp [Gregorian.add_days, Gregorian.add_days_loop, d1]
  · norm_num [gregorian_to_jd]

/-- C17 (amended). Gregorian `add_days` agrees with the JD axis as long as the
`unsigned` sum does not wrap: for every Gregorian date `D` with month in
`1..12` and day at least 1 (every valid date in particular) and every `n ≥ 0`
with `D.day + n ≤ 4294967295`, once the loop is given `D.day + n` evaluations
of its condition, `add_days(D, n)` returns a valid Gregorian date (month in
`1..12`, `1 ≤ day ≤` days in month) whose `gregorian_to_jd` is
`gregorian_to_jd` of `D` plus `n`. -/
theorem gregorian_add_days_jd (fuel : ℕ) (date : Gregorian) (n : ℕ)
    (hm1 : 1 ≤ date.month_) (hm2 : date.month_ ≤ 12) (hd1 : 1 ≤ date.day_)
    (hwrap : date.day_ + (n : ℤ) ≤ 4294967295)
    (hfuel : date.day_ + (n : ℤ) ≤ (fuel : ℤ)) :
    ∃ r : Gregorian, Gregorian.add_days fuel date n = some r ∧
      1 ≤ r.month_ ∧ r.month_ ≤ 12 ∧ 1 ≤ r.day_ ∧
      r.day_ ≤ gregorian_days_in_month r.month_ (is_gregorian_leapyear r.year_) ∧
      gregorian_to_jd r.year_ r.month_ r.day_
        = gregorian_to_jd date.year_ date.month_ date.day_ + (n : ℚ) := by
  obtain ⟨y2, m2, d2, hres, h1, h2, h3, h4, h5⟩ :=
    gregorian_add_days_loop_spec fuel date.year_ date.month_ (date.day_ + (n : ℤ)) hm1 hm2
      (by omega) hfuel
  have em : date.month_ % 4294967296 = date.month_ := by omega
  have ed : (date.day_ + (n : ℤ)) % 4294967296 = date.day_ + (n : ℤ) := by omega
  refine ⟨{ year_ := y2, month_ := m2, day_ := d2 }, ?_, h1, h2, h3, h4, ?_⟩
  · simp only [Gregorian.add_days, em, ed, hres]
  · simp only [gregorian_to_jd_eq, h5]
    rw [gregorian_jdn_day, gregorian_jdn_day date.year_ date.month_ date.day_]
    push_cast
    ring

/-- Witness for C17 (amended): 31 January 2024 plus 60 days, with fuel 91. -/
theorem gregorian_add_days_jd_witness :
    ∃ r : Gregorian,
      Gregorian.add_days 91 { year_ := 2024, month_ := 1, day_ := 31 } 60 = some r ∧
      1 ≤ r.month_ ∧ r.month_ ≤ 12 ∧ 1 ≤ r.day_ ∧
      r.day_ ≤ gregorian_days_in_month r.month_ (is_gregorian_leapyear r.year_) ∧
      gregorian_to_jd r.year_ r.month_ r.day_
        = gregorian_to_jd 2024 1 31 + ((60 : ℕ) : ℚ) :=
  gregorian_add_days_jd 91 { year_ := 2024, month_ := 1, day_ := 31 } 60 (by decide)
    (by decide) (by decide) (by decide) (by decide)

/-- The leap day of year `y` is the carry of `(3 + 11 * y) / 30` into year `y + 1`. -/
theorem islamic_leap_carry (y : ℤ) :
    (3 + 11 * (y + 1)) / 30
      = (3 + 11 * y) / 30 + (if (11 * y + 14) % 30 < 11 then 1 else 0) := by
  obtain ⟨q, r, hr0, hr1, hq⟩ : ∃ q r : ℤ, 0 ≤ r ∧ r < 30 ∧ 3 + 11 * y = 30 * q + r :=
    ⟨(3 + 11 * y) / 30, (3 + 11 * y) % 30, by omega, by omega, by omega⟩
  have e1 : 11 * y + 14 = 30 * q + (r + 11) := by omega
  have e2 : 3 + 11 * (y + 1) = 30 * q + (r + 11) := by omega
  rw [e1, e2, hq]
  clear e1 e2 hq
  split <;> omega

/-- The day count of the first day of the next Islamic month is the day count
of the first day of this month plus the length of this month. -/
theorem islamic_next_month (y m : ℤ) (hy : 0 ≤ y) (hm1 : 1 ≤ m) (hm2 : m ≤ 12) :
    islamic_days (if m + 1 > 12 then y + 1 else y) (if m + 1 > 12 then 1 else m + 1) 1
      = islamic_days y m 1 + islamic_days_in_month m (is_islamic_leapyear y) := by
  by_cases h12 : m = 12
  · subst h12
    have hL := is_islamic_leapyear_iff y hy
    have h2 := islamic_leap_carry y
    cases hl : is_islamic_leapyear y <;> rw [hl] at hL <;>
      simp [islamic_days, islamic_days_in_month] at hL ⊢
    · rw [h2, if_neg (by omega)]
      omega
    · rw [h2, if_pos hL]
      omega
  · have hm3 : m ≤ 11 := by omega
    clear hm2 h12
    cases is_islamic_leapyear y <;> interval_cases m <;>
      simp [islamic_days, islamic_days_in_month, cmod_of_nonneg] <;> omega

/-- C21 (failing inputs). A fractional day within half a second of the next
midnight is decoded as 24:00:00 by the Julian, Islamic and Hebrew decoders,
which round to 86400 seconds and do not clamp; the Gregorian decoder clamps and
returns 23:59:59 on the same kind of input. -/
theorem time_decodes_to_24 (n : ℕ) :
    jd_to_julian_hms (86399 / 172800) = (-4712, 1, 1, 24, 0, 0) ∧
    jd_to_islamic_hms (ISLAMIC_EPOCH + 172799 / 172800) = (1, 1, 2, 24, 0, 0) ∧
    jd_to_hebrew_hms (n + 3) (2460216.5 + 172799 / 172800) = some (5784, 7, 15, 24, 0, 0) ∧
    jd_to_gregorian_hms (86399 / 172800) = (-4713, 11, 24, 23, 59, 59) := by
  refine ⟨?_, ?_, ?_, ?_⟩
  · norm_num [jd_to_julian_hms, jd_to_julian, toInt, cdiv_of_nonneg, cmod_of_nonneg,
      SECONDS_PER_DAY, ceil_eq_neg_floor]
  · norm_num [jd_to_islamic_hms, jd_to_islamic, islamic_to_jd, hms, ISLAMIC_EPOCH, toInt,
      cdiv_of_nonneg, cmod_of_nonneg, SECONDS_PER_DAY, ceil_eq_neg_floor]
  · have ha : cround ((2460216.5 : ℚ) + 172799 / 172800 + 0.5) = 2460218 := by
      norm_num [cround]
    have hyear0 : toInt (((⌊(((2460218 : ℤ) : ℚ) - HEBREW_EPOCH) * 98496.0 / 35975351.0⌋ : ℤ)
        : ℚ) - 1) = 5782 := by
      norm_num [HEBREW_EPOCH, toInt]
    have hys : hebrew_year_search ((2460218 : ℤ) : ℚ) (n + 3) 5782 = some 5784 := by
      norm_num [hebrew_year_search, hebrew_new_year_5783, hebrew_new_year_5784,
        hebrew_new_year_5785]
    have hms : hebrew_month_search ((2460218 : ℤ) : ℚ) 5784 (n + 3) 7 = some 7 := by
      norm_num [hebrew_month_search, hebrew_months_5784, hebrew_tishri_30_5784]
    have hday : toInt (((2460218 : ℤ) : ℚ) - hebrew_to_jd 5784 7 1 + 1) = 15 := by
      norm_num [hebrew_new_year_5784, toInt]
    have hfirst : (if ((2460218 : ℤ) : ℚ) < hebrew_to_jd 5784 1 1 then (7 : ℤ) else 1) = 7 := by
      norm_num [hebrew_nisan_1_5784]
    have hdate : jd_to_hebrew (n + 3) (2460216.5 + 172799 / 172800) = some (5784, 7, 15) := by
      unfold jd_to_hebrew
      simp only [ha, hyear0, hys, hfirst, hms, hday]
    unfold jd_to_hebrew_hms
    rw [hdate]
    norm_num [cround, toInt, cdiv_of_nonneg, cmod_of_nonneg, SECONDS_PER_DAY]
  · norm_num [jd_to_gregorian_hms, jd_to_gregorian, cround, toInt, cdiv_of_nonneg,
      cmod_of_nonneg]

/-! ## Hebrew calendar: integer forms -/

theorem hebrew_delay_of_week_eq (y : ℤ) :
    hebrew_delay_of_week y = (hebrew_delay_of_week_int y : ℚ) := by
  unfold hebrew_delay_of_week hebrew_delay_of_week_int hebrew_molad_day hebrew_months_elapsed
  have h1 : ⌊((235.0 : ℚ) * (y : ℚ) - 234.0) / 19.0⌋ = (235 * y - 234) / 19 := by
    have := floor_of_eq_div (((235.0 : ℚ) * (y : ℚ) - 234.0) / 19.0) (235 * y - 234) 19
      (by push_cast; norm_num)
    simpa using this
  simp only [h1, toInt_intCast]
  generalize (235 * y - 234) / 19 = M
  have h2 : ⌊(((12084 + 13753 * M : ℤ)) : ℚ) / 25920.0⌋ = (12084 + 13753 * M) / 25920 := by
    have := floor_of_eq_div ((((12084 + 13753 * M : ℤ)) : ℚ) / 25920.0) (12084 + 13753 * M)
      25920 (by push_cast; norm_num)
    simpa using this
  rw [h2]
  generalize (12084 + 13753 * M) / 25920 = q
  have h3 : ((M : ℚ) * 29 + (q : ℚ) + 1) = ((29 * M + q + 1 : ℤ) : ℚ) := by
    push_cast; ring
  rw [h3, toInt_intCast]
  split
  · rfl
  · push_cast
    ring

theorem hebrew_delay_adjacent_year_eq (y : ℤ) :
    hebrew_delay_adjacent_year y = (hebrew_delay_adjacent_year_int y : ℚ) := by
  unfold hebrew_delay_adjacent_year hebrew_delay_adjacent_year_int
  simp only [hebrew_delay_of_week_eq]
  have e1 : ((hebrew_delay_of_week_int (y + 1) : ℚ) - (hebrew_delay_of_week_int y : ℚ) = 356)
      ↔ hebrew_delay_of_week_int (y + 1) - hebrew_delay_of_week_int y = 356 := by
    constructor
    · intro h; exact_mod_cast h
    · intro h; exact_mod_cast h
  have e2 : ((hebrew_delay_of_week_int y : ℚ) - (hebrew_delay_of_week_int (y - 1) : ℚ) = 382)
      ↔ hebrew_delay_of_week_int y - hebrew_delay_of_week_int (y - 1) = 382 := by
    constructor
    · intro h; exact_mod_cast h
    · intro h; exact_mod_cast h
  simp only [e1, e2]
  split_ifs <;> norm_num

theorem add_month_days_from_eq (dim : ℤ → ℤ) (count : ℕ) :
    ∀ (jdn : ℚ) (m : ℤ),
      add_month_days_from dim count jdn m = jdn + (month_days_sum dim count m : ℚ) := by
  induction count with
  | zero => intro jdn m; simp [add_month_days_from, month_days_sum]
  | succ k ih =>
    intro jdn m
    simp only [add_month_days_from, month_days_sum, ih]
    push_cast
    ring

theorem hebrew_to_jd_eq (y m d : ℤ) :
    hebrew_to_jd y m d = HEBREW_EPOCH + (hebrew_day_number y m d : ℚ) := by
  unfold hebrew_to_jd hebrew_to_jd_with hebrew_day_number hebrew_month_offset
    hebrew_new_year_int add_month_days
  simp only [add_month_days_from_eq, hebrew_delay_of_week_eq, hebrew_delay_adjacent_year_eq]
  split
  · push_cast
    ring
  · push_cast
    ring

theorem hebrew_month_offset_tishri (y : ℤ) : hebrew_month_offset y 7 = 0 := by
  simp [hebrew_month_offset, month_days_sum]

theorem hebrew_new_year_eq (y : ℤ) :
    hebrew_to_jd y 7 1 = HEBREW_EPOCH + (hebrew_new_year_int y : ℚ) := by
  rw [hebrew_to_jd_eq]
  simp [hebrew_day_number, hebrew_month_offset_tishri]

theorem hebrew_days_in_year_int (y : ℤ) :
    toInt (hebrew_days_in_year y) = hebrew_year_length y := by
  rw [hebrew_days_in_year_eq, hebrew_new_year_eq, hebrew_new_year_eq]
  have : HEBREW_EPOCH + (hebrew_new_year_int (y + 1) : ℚ)
      - (HEBREW_EPOCH + (hebrew_new_year_int y : ℚ))
      = ((hebrew_new_year_int (y + 1) - hebrew_new_year_int y : ℤ) : ℚ) := by
    push_cast; ring
  rw [this, toInt_intCast]
  rfl

theorem hebrew_to_jd_day (y m d : ℤ) :
    hebrew_to_jd y m d = hebrew_to_jd y m 1 + ((d : ℚ) - 1) := by
  rw [hebrew_to_jd_eq, hebrew_to_jd_eq]
  simp only [hebrew_day_number]
  push_cast
  ring

/-! ## Encoding of the time of day -/

/-- C22 (as stated, refuted). At 12:00:00 the Islamic and Hebrew time-bearing
conversions are not the date-only JD plus `encode(h, mi, s)`: they return half
a day less than the date-only JD, so noon is encoded below midnight. -/
theorem noon_not_date_plus_encode :
    islamic_to_jd_hms 1 1 1 12 0 0 ≠ islamic_to_jd 1 1 1 + ((12 : ℚ) * 3600 + 0 * 60 + 0) / 86400 ∧
    hebrew_to_jd_hms 1 7 1 12 0 0 ≠ hebrew_to_jd 1 7 1 + ((12 : ℚ) * 3600 + 0 * 60 + 0) / 86400 ∧
    islamic_to_jd_hms 1 1 1 12 0 0 < islamic_to_jd_hms 1 1 1 0 0 0 ∧
    hebrew_to_jd_hms 1 7 1 12 0 0 < hebrew_to_jd_hms 1 7 1 0 0 0 := by
  norm_num [islamic_to_jd_hms, hebrew_to_jd_hms, tod]

/-- C22 (amended). With `e = (h*3600 + mi*60 + s) / 86400`: the Gregorian and
Julian time-bearing conversions are the date-only JD plus `e`; the Islamic and
Hebrew ones are the date-only JD plus `e` when `e < 1/2` and the date-only JD
plus `e - 1` when `e ≥ 1/2`. -/
theorem time_encoding_by_calendar (y m d h mi : ℤ) (s : ℚ) :
    gregorian_to_jd_hms y m d h mi s
      = gregorian_to_jd y m d + ((h : ℚ) * 3600 + (mi : ℚ) * 60 + s) / 86400 ∧
    julian_to_jd_hms y m d h mi s
      = julian_to_jd y m d + ((h : ℚ) * 3600 + (mi : ℚ) * 60 + s) / 86400 ∧
    islamic_to_jd_hms y m d h mi s
      = islamic_to_jd y m d +
        (if ((h : ℚ) * 3600 + (mi : ℚ) * 60 + s) / 86400 ≥ 1 / 2
          then ((h : ℚ) * 3600 + (mi : ℚ) * 60 + s) / 86400 - 1
          else ((h : ℚ) * 3600 + (mi : ℚ) * 60 + s) / 86400) ∧
    hebrew_to_jd_hms y m d h mi s
      = hebrew_to_jd y m d +
        (if ((h : ℚ) * 3600 + (mi : ℚ) * 60 + s) / 86400 ≥ 1 / 2
          then ((h : ℚ) * 3600 + (mi : ℚ) * 60 + s) / 86400 - 1
          else ((h : ℚ) * 3600 + (mi : ℚ) * 60 + s) / 86400) := by
  have htod : tod h mi s = ((h : ℚ) * 3600 + (mi : ℚ) * 60 + s) / 86400 := by
    unfold tod
    norm_num
  have hhalf : (0.5 : ℚ) = 1 / 2 := by norm_num
  refine ⟨?_, ?_, ?_, ?_⟩
  · unfold gregorian_to_jd_hms
    norm_num
  · unfold julian_to_jd_hms
    rw [htod]
  · unfold islamic_to_jd_hms
    simp only [htod, hhalf]
  · unfold hebrew_to_jd_hms
    simp only [htod, hhalf]

/-! ## Domain of the conversions -/

theorem hebrew_month_14_5784 : hebrew_to_jd 5784 14 1 = 2460409.5 := by
  obtain ⟨h7, h8, h9, h10, h11, h12, h13⟩ := hebrew_months_5784
  unfold hebrew_to_jd hebrew_to_jd_with
  rw [if_neg (by decide),
    add_month_days_step _ _ 7 14 (by decide), add_month_days_step _ _ (7 + 1) 14 (by decide),
    add_month_days_step _ _ (7 + 1 + 1) 14 (by decide),
    add_month_days_step _ _ (7 + 1 + 1 + 1) 14 (by decide),
    add_month_days_step _ _ (7 + 1 + 1 + 1 + 1) 14 (by decide),
    add_month_days_step _ _ (7 + 1 + 1 + 1 + 1 + 1) 14 (by decide),
    add_month_days_step _ _ (7 + 1 + 1 + 1 + 1 + 1 + 1) 14 (by decide),
    add_month_days_done _ _ _ _ (by decide)]
  norm_num [h7, h8, h9, h10, h11, h12, h13, hdow_5784, hadj_5784, HEBREW_EPOCH]

/-- C23 (as stated, refuted). Out-of-range fields are converted without any
signal: Gregorian day 32 of January has the JD of 1 February, and Hebrew month
14 of year 5784 has the JD of 1 Nisan 5784. -/
theorem out_of_range_is_converted :
    gregorian_to_jd 2024 1 32 = gregorian_to_jd 2024 2 1 ∧
    hebrew_to_jd 5784 14 1 = hebrew_to_jd 5784 1 1 := by
  constructor
  · norm_num [gregorian_to_jd]
  · rw [hebrew_month_14_5784, hebrew_nisan_1_5784]

/-- C23 (amended). The to-JD conversions validate nothing and return a value
for every integer month and day: for every `y`, `m`, `d` a day past the end of
a month runs on linearly, `gregorian_to_jd y m d = gregorian_to_jd y m 1 + (d - 1)`
and `hebrew_to_jd y m d = hebrew_to_jd y m 1 + (d - 1)`, and
`gregorian_to_jd y 1 32 = gregorian_to_jd y 2 1` in every year. -/
theorem to_jd_runs_on_without_validation (y m d : ℤ) :
    gregorian_to_jd y m d = gregorian_to_jd y m 1 + ((d : ℚ) - 1) ∧
    hebrew_to_jd y m d = hebrew_to_jd y m 1 + ((d : ℚ) - 1) ∧
    gregorian_to_jd y 1 32 = gregorian_to_jd y 2 1 := by
  refine ⟨?_, ?_, ?_⟩
  · rw [gregorian_to_jd_eq, gregorian_to_jd_eq, gregorian_jdn_day]
    push_cast
    ring
  · exact hebrew_to_jd_day y m d
  · rw [gregorian_to_jd_eq, gregorian_to_jd_eq]
    have h := gregorian_next_month y 1 (by decide) (by decide)
    have e1 : gregorian_jdn y 1 32 = gregorian_jdn y 1 1 + 31 := by
      rw [gregorian_jdn_day]; ring
    have e2 : gregorian_days_in_month 1 (is_gregorian_leapyear y) = 31 := by
      cases is_gregorian_leapyear y <;> decide
    rw [e2] at h
    simp only [show ¬ ((1 : ℤ) + 1 > 12) by decide, if_false] at h
    have e3 : gregorian_jdn y 1 32 = gregorian_jdn y 2 1 := by
      rw [e1, ← h]
      norm_num
    rw [e3]

/-! ## The `Jd` class -/

/-- C28. JD duration arithmetic: `(j + days(n)).jd() = j.jd() + n`,
`(j - days(n)).jd() = j.jd() - n`, `days(n) + j = j + days(n)`,
`j + weeks(w) = j + days(7*w)` and `(j + days(n)) - j = n`. -/
theorem jd_duration_arithmetic (j : Jd) (n w : ℚ) :
    (j.add_days { value := n }).jd = j.jd + n ∧
    (j.sub_days { value := n }).jd = j.jd - n ∧
    days.add_jd { value := n } j = j.add_days { value := n } ∧
    j.add_weeks (weeks.of w) = j.add_days { value := 7 * w } ∧
    (j.add_days { value := n }).diff j = n := by
  refine ⟨rfl, rfl, rfl, ?_, ?_⟩
  · simp only [Jd.add_weeks, Jd.add_days, weeks.of, mul_comm]
  · simp only [Jd.diff, Jd.add_days, Jd.jd]
    ring

/-! ## Hebrew calendar: year lengths -/

theorem months_elapsed_step (y : ℤ) :
    hebrew_months_elapsed (y + 1) = hebrew_months_elapsed y + 12 ∨
    hebrew_months_elapsed (y + 1) = hebrew_months_elapsed y + 13 := by
  unfold hebrew_months_elapsed
  omega

/-- Two consecutive years never both have 13 months. -/
theorem months_elapsed_no_two_13 (y : ℤ)
    (h : hebrew_months_elapsed y = hebrew_months_elapsed (y - 1) + 13) :
    hebrew_months_elapsed (y + 1) = hebrew_months_elapsed y + 12 := by
  unfold hebrew_months_elapsed at *
  omega

theorem molad_day_step_12 (y : ℤ)
    (h : hebrew_months_elapsed (y + 1) = hebrew_months_elapsed y + 12) :
    hebrew_molad_day (y + 1) = hebrew_molad_day y + 354 ∨
    hebrew_molad_day (y + 1) = hebrew_molad_day y + 355 := by
  unfold hebrew_molad_day
  rw [h]
  generalize hebrew_months_elapsed y = M
  omega

theorem molad_day_step_13 (y : ℤ)
    (h : hebrew_months_elapsed (y + 1) = hebrew_months_elapsed y + 13) :
    hebrew_molad_day (y + 1) = hebrew_molad_day y + 383 ∨
    hebrew_molad_day (y + 1) = hebrew_molad_day y + 384 := by
  unfold hebrew_molad_day
  rw [h]
  generalize hebrew_months_elapsed y = M
  omega

theorem delay_of_week_cases (y : ℤ) :
    hebrew_delay_of_week_int y = hebrew_molad_day y ∨
    hebrew_delay_of_week_int y = hebrew_molad_day y + 1 := by
  unfold hebrew_delay_of_week_int
  split
  · exact Or.inr rfl
  · exact Or.inl rfl

theorem delay_adjacent_cases (y : ℤ) :
    0 ≤ hebrew_delay_adjacent_year_int y ∧ hebrew_delay_adjacent_year_int y ≤ 2 := by
  unfold hebrew_delay_adjacent_year_int
  split_ifs <;> constructor <;> norm_num

theorem delay_of_week_step_12 (y : ℤ)
    (h : hebrew_months_elapsed (y + 1) = hebrew_months_elapsed y + 12) :
    353 ≤ hebrew_delay_of_week_int (y + 1) - hebrew_delay_of_week_int y ∧
    hebrew_delay_of_week_int (y + 1) - hebrew_delay_of_week_int y ≤ 356 ∧
    (hebrew_delay_of_week_int y = hebrew_molad_day y →
      354 ≤ hebrew_delay_of_week_int (y + 1) - hebrew_delay_of_week_int y) := by
  have hp1 := delay_of_week_cases y
  have hp2 := delay_of_week_cases (y + 1)
  have hD := molad_day_step_12 y h
  clear h
  refine ⟨?_, ?_, ?_⟩ <;> omega

theorem delay_of_week_step_13 (y : ℤ)
    (h : hebrew_months_elapsed (y + 1) = hebrew_months_elapsed y + 13) :
    382 ≤ hebrew_delay_of_week_int (y + 1) - hebrew_delay_of_week_int y ∧
    hebrew_delay_of_week_int (y + 1) - hebrew_delay_of_week_int y ≤ 385 ∧
    (hebrew_delay_of_week_int (y + 1) - hebrew_delay_of_week_int y = 382 →
      hebrew_delay_of_week_int (y + 1) = hebrew_molad_day (y + 1)) := by
  have hp1 := delay_of_week_cases y
  have hp2 := delay_of_week_cases (y + 1)
  have hD := molad_day_step_13 y h
  clear h
  refine ⟨?_, ?_, ?_⟩ <;> omega

theorem delay_adjacent_after_382 (y : ℤ)
    (h : hebrew_delay_of_week_int (y + 1) - hebrew_delay_of_week_int y = 382) :
    1 ≤ hebrew_delay_adjacent_year_int (y + 1) := by
  unfold hebrew_delay_adjacent_year_int
  have e1 : y + 1 - 1 = y := by ring
  rw [e1]
  split_ifs <;> omega

theorem hebrew_year_length_eq (y : ℤ) :
    hebrew_year_length y
      = hebrew_delay_of_week_int (y + 1) - hebrew_delay_of_week_int y
        + hebrew_delay_adjacent_year_int (y + 1)
        - (if hebrew_delay_of_week_int (y + 1) - hebrew_delay_of_week_int y = 356 then 2
           else if hebrew_delay_of_week_int y - hebrew_delay_of_week_int (y - 1) = 382 then 1
           else 0) := by
  have hadj0 : hebrew_delay_adjacent_year_int y =
      (if hebrew_delay_of_week_int (y + 1) - hebrew_delay_of_week_int y = 356 then 2
       else if hebrew_delay_of_week_int y - hebrew_delay_of_week_int (y - 1) = 382 then 1
       else 0) := rfl
  rw [← hadj0]
  unfold hebrew_year_length hebrew_new_year_int
  ring

/-- A year of 12 months has at least 353 days and a year of 13 months at least
383 days, as `hebrew_to_jd` counts them. -/
theorem year_length_lower (y : ℤ) :
    (hebrew_months_elapsed (y + 1) = hebrew_months_elapsed y + 12 → 353 ≤ hebrew_year_length y) ∧
    (hebrew_months_elapsed (y + 1) = hebrew_months_elapsed y + 13 → 383 ≤ hebrew_year_length y) := by
  have ha := (delay_adjacent_cases (y + 1)).1
  have e0 : y - 1 + 1 = y := by ring
  have hs0 := months_elapsed_step (y - 1)
  have hprev12 := delay_of_week_step_12 (y - 1)
  have hprev13 := delay_of_week_step_13 (y - 1)
  have hn := months_elapsed_no_two_13 y
  rw [e0] at hs0 hprev12 hprev13
  rw [hebrew_year_length_eq]
  constructor
  · intro h12
    obtain ⟨b1, b2, b3⟩ := delay_of_week_step_12 y h12
    split_ifs with c1 c2
    · omega
    · rcases hs0 with h0 | h0
      · obtain ⟨p1, p2, -⟩ := hprev12 h0
        omega
      · obtain ⟨-, -, p3⟩ := hprev13 h0
        have := b3 (p3 c2)
        omega
    · omega
  · intro h13
    obtain ⟨b1, b2, -⟩ := delay_of_week_step_13 y h13
    split_ifs with c1 c2
    · omega
    · rcases hs0 with h0 | h0
      · obtain ⟨p1, p2, -⟩ := hprev12 h0
        omega
      · have := hn h0
        omega
    · by_cases c3 : hebrew_delay_of_week_int (y + 1) - hebrew_delay_of_week_int y = 382
      · have := delay_adjacent_after_382 y c3
        omega
      · omega

theorem year_length_pos (y : ℤ) : 353 ≤ hebrew_year_length y := by
  obtain ⟨h1, h2⟩ := year_length_lower y
  rcases months_elapsed_step y with h | h
  · exact h1 h
  · have := h2 h
    omega

theorem new_year_mono (y : ℤ) (n : ℕ) : hebrew_new_year_int (y - n) ≤ hebrew_new_year_int y := by
  induction n with
  | zero => simp
  | succ k ih =>
    have h := year_length_pos (y - (k + 1 : ℕ))
    unfold hebrew_year_length at h
    have e : y - ((k + 1 : ℕ) : ℤ) + 1 = y - (k : ℤ) := by push_cast; ring
    rw [e] at h
    omega

theorem is_hebrew_leapyear_iff_13 (y : ℤ) (hy : 0 ≤ y) :
    is_hebrew_leapyear y = true ↔
      hebrew_months_elapsed (y + 1) = hebrew_months_elapsed y + 13 := by
  rw [is_hebrew_leapyear_iff y hy]
  unfold hebrew_months_elapsed
  have e1 : (235 * (y + 1) - 234) / 19 = 12 * y + (y * 7 + 1) / 19 := by omega
  have e2 : (235 * y - 234) / 19 = 12 * y - 12 + (y * 7 - 6) / 19 := by omega
  rw [e1, e2]
  omega

/-- The linear year estimate is within range of the true new-year day count. -/
theorem new_year_estimate (y : ℤ) :
    (y - 2) * 35975351 ≤ (2 * hebrew_new_year_int y + 1) * 49248 ∧
    (2 * hebrew_new_year_int y - 1) * 49248 < y * 35975351 := by
  have hp := delay_of_week_cases y
  have ha := delay_adjacent_cases y
  unfold hebrew_new_year_int
  have hD : hebrew_molad_day y
      = 29 * hebrew_months_elapsed y + (12084 + 13753 * hebrew_months_elapsed y) / 25920 := rfl
  have hM : hebrew_months_elapsed y = (235 * y - 234) / 19 := rfl
  generalize hebrew_months_elapsed y = M at *
  generalize hebrew_molad_day y = D at *
  generalize hebrew_delay_of_week_int y = w at *
  generalize hebrew_delay_adjacent_year_int y = a at *
  constructor <;> omega

/-! ## Hebrew calendar: months -/

theorem hebrew_days_in_month_bounds (y m : ℤ) :
    29 ≤ hebrew_days_in_month y m ∧ hebrew_days_in_month y m ≤ 30 := by
  unfold hebrew_days_in_month
  simp only
  split_ifs <;> constructor <;> norm_num

theorem hebrew_months_in_year_cases (y : ℤ) :
    hebrew_months_in_year y = 12 ∨ hebrew_months_in_year y = 13 := by
  unfold hebrew_months_in_year
  split
  · exact Or.inr rfl
  · exact Or.inl rfl

theorem month_days_sum_succ (dim : ℤ → ℤ) (n : ℕ) :
    ∀ s : ℤ, month_days_sum dim (n + 1) s = month_days_sum dim n s + dim (s + n) := by
  induction n with
  | zero => intro s; simp [month_days_sum]
  | succ k ih =>
    intro s
    have e1 : month_days_sum dim (k + 1 + 1) s = dim s + month_days_sum dim (k + 1) (s + 1) := rfl
    have e2 : month_days_sum dim (k + 1) s = dim s + month_days_sum dim k (s + 1) := rfl
    rw [e1, ih (s + 1), e2]
    have e3 : s + 1 + (k : ℤ) = s + ((k + 1 : ℕ) : ℤ) := by push_cast; ring
    rw [e3]
    ring

theorem month_days_sum_ge (dim : ℤ → ℤ) (h : ∀ m, 29 ≤ dim m) (n : ℕ) :
    ∀ s : ℤ, 29 * (n : ℤ) ≤ month_days_sum dim n s := by
  induction n with
  | zero => intro s; simp [month_days_sum]
  | succ k ih =>
    intro s
    have e : month_days_sum dim (k + 1) s = dim s + month_days_sum dim k (s + 1) := rfl
    rw [e]
    have h1 := ih (s + 1)
    have h2 := h s
    push_cast
    omega

theorem hebrew_month_offset_nonneg (y m : ℤ) : 0 ≤ hebrew_month_offset y m := by
  have hb : ∀ k, 29 ≤ hebrew_days_in_month y k := fun k => (hebrew_days_in_month_bounds y k).1
  unfold hebrew_month_offset
  split
  · have h1 := month_days_sum_ge (hebrew_days_in_month y) hb
      (hebrew_months_in_year y + 1 - 7).toNat 7
    have h2 := month_days_sum_ge (hebrew_days_in_month y) hb (m - 1).toNat 1
    omega
  · have h1 := month_days_sum_ge (hebrew_days_in_month y) hb (m - 7).toNat 7
    omega

theorem hebrew_month_offset_succ (y k : ℤ) (h : 7 ≤ k ∨ (1 ≤ k ∧ k < 6)) :
    hebrew_month_offset y (k + 1) = hebrew_month_offset y k + hebrew_days_in_month y k := by
  unfold hebrew_month_offset
  rcases h with h | ⟨h1, h2⟩
  · rw [if_neg (by omega), if_neg (by omega)]
    have e : (k + 1 - 7).toNat = (k - 7).toNat + 1 := by omega
    rw [e, month_days_sum_succ]
    have e2 : (7 : ℤ) + ((k - 7).toNat : ℤ) = k := by omega
    rw [e2]
  · rw [if_pos (by omega), if_pos (by omega)]
    have e : (k + 1 - 1).toNat = (k - 1).toNat + 1 := by omega
    rw [e, month_days_sum_succ]
    have e2 : (1 : ℤ) + ((k - 1).toNat : ℤ) = k := by omega
    rw [e2]
    ring

theorem hebrew_month_offset_nisan (y : ℤ) :
    hebrew_month_offset y 1 = hebrew_month_offset y (hebrew_months_in_year y)
      + hebrew_days_in_month y (hebrew_months_in_year y) := by
  have hL := hebrew_months_in_year_cases y
  unfold hebrew_month_offset
  rw [if_pos (by norm_num), if_neg (by omega)]
  have e : (hebrew_months_in_year y + 1 - 7).toNat
      = (hebrew_months_in_year y - 7).toNat + 1 := by omega
  rw [e, month_days_sum_succ]
  have e2 : (7 : ℤ) + ((hebrew_months_in_year y - 7).toNat : ℤ) = hebrew_months_in_year y := by
    omega
  rw [e2]
  simp [month_days_sum]

theorem hebrew_month_offset_mono (y k : ℤ) (n : ℕ) (h : 7 ≤ k ∨ (1 ≤ k ∧ k + n ≤ 6)) :
    hebrew_month_offset y k ≤ hebrew_month_offset y (k + n) := by
  induction n with
  | zero => simp
  | succ j ih =>
    have hs := hebrew_month_offset_succ y (k + j) (by omega)
    have hb := hebrew_days_in_month_bounds y (k + j)
    have h3 := ih (by omega)
    have e : k + ((j + 1 : ℕ) : ℤ) = k + j + 1 := by push_cast; ring
    rw [e, hs]
    omega

theorem hebrew_month_offset_lt (y k m : ℤ) (hkm : k < m) (h : 7 ≤ k ∨ (1 ≤ k ∧ m ≤ 6)) :
    hebrew_month_offset y k + hebrew_days_in_month y k ≤ hebrew_month_offset y m := by
  have hs := hebrew_month_offset_succ y k (by omega)
  have h3 := hebrew_month_offset_mono y (k + 1) (m - (k + 1)).toNat (by omega)
  have e : k + 1 + ((m - (k + 1)).toNat : ℤ) = m := by omega
  rw [e] at h3
  omega

theorem hebrew_days_in_month_fixed (y : ℤ) :
    hebrew_days_in_month y 1 = 30 ∧ hebrew_days_in_month y 2 = 29 ∧
    hebrew_days_in_month y 3 = 30 ∧ hebrew_days_in_month y 4 = 29 ∧
    hebrew_days_in_month y 5 = 30 ∧ hebrew_days_in_month y 6 = 29 ∧
    hebrew_days_in_month y 7 = 30 ∧ hebrew_days_in_month y 10 = 29 ∧
    hebrew_days_in_month y 11 = 30 ∧ hebrew_days_in_month y 13 = 29 := by
  simp [hebrew_days_in_month]

theorem hebrew_days_in_month_12 (y : ℤ) :
    hebrew_days_in_month y 12 = if is_hebrew_leapyear y = true then 30 else 29 := by
  cases h : is_hebrew_leapyear y <;> simp [hebrew_days_in_month, h]

theorem hebrew_days_in_month_8 (y : ℤ) :
    hebrew_days_in_month y 8 = if hebrew_year_length y % 10 = 5 then 30 else 29 := by
  have h := year_length_pos y
  have hc : cmod (hebrew_year_length y) 10 = hebrew_year_length y % 10 :=
    cmod_of_nonneg (by omega) (by norm_num)
  simp only [hebrew_days_in_month, hebrew_days_in_year_int, hc]
  split_ifs <;> simp_all

theorem hebrew_days_in_month_9 (y : ℤ) :
    hebrew_days_in_month y 9 = if hebrew_year_length y % 10 = 3 then 29 else 30 := by
  have h := year_length_pos y
  have hc : cmod (hebrew_year_length y) 10 = hebrew_year_length y % 10 :=
    cmod_of_nonneg (by omega) (by norm_num)
  simp only [hebrew_days_in_month, hebrew_days_in_year_int, hc]
  split_ifs <;> simp_all

theorem month_days_sum_5 (dim : ℤ → ℤ) (s : ℤ) :
    month_days_sum dim 5 s = dim s + dim (s + 1) + dim (s + 2) + dim (s + 3) + dim (s + 4) := by
  simp only [month_days_sum]
  ring_nf

theorem month_days_sum_6 (dim : ℤ → ℤ) (s : ℤ) :
    month_days_sum dim 6 s
      = dim s + dim (s + 1) + dim (s + 2) + dim (s + 3) + dim (s + 4) + dim (s + 5) := by
  simp only [month_days_sum]
  ring_nf

theorem month_days_sum_7 (dim : ℤ → ℤ) (s : ℤ) :
    month_days_sum dim 7 s
      = dim s + dim (s + 1) + dim (s + 2) + dim (s + 3) + dim (s + 4) + dim (s + 5)
        + dim (s + 6) := by
  simp only [month_days_sum]
  ring_nf

/-- The months of a year, as `hebrew_to_jd` adds them up, fit in the year. -/
theorem hebrew_year_months_total (y : ℤ) (hy : 0 ≤ y) :
    hebrew_month_offset y 6 + hebrew_days_in_month y 6 ≤ hebrew_year_length y := by
  obtain ⟨f1, f2, f3, f4, f5, f6, f7, f10, f11, f13⟩ := hebrew_days_in_month_fixed y
  have f8 := hebrew_days_in_month_8 y
  have f9 := hebrew_days_in_month_9 y
  have f12 := hebrew_days_in_month_12 y
  have hl := is_hebrew_leapyear_iff_13 y hy
  obtain ⟨hl12, hl13⟩ := year_length_lower y
  have hstep := months_elapsed_step y
  unfold hebrew_month_offset
  rw [if_pos (by norm_num)]
  have e5 : ((6 : ℤ) - 1).toNat = 5 := rfl
  rw [e5, month_days_sum_5]
  by_cases hleap : is_hebrew_leapyear y = true
  · have hm : hebrew_months_in_year y = 13 := by simp [hebrew_months_in_year, hleap]
    have e7 : ((13 : ℤ) + 1 - 7).toNat = 7 := rfl
    rw [hm, e7, month_days_sum_7]
    norm_num
    rw [f1, f2, f3, f4, f5, f6, f7, f8, f9, f10, f11, f12, f13, if_pos hleap]
    have h13 := hl13 (hl.1 hleap)
    split_ifs <;> omega
  · have hm : hebrew_months_in_year y = 12 := by simp [hebrew_months_in_year, hleap]
    have e6 : ((12 : ℤ) + 1 - 7).toNat = 6 := rfl
    rw [hm, e6, month_days_sum_6]
    norm_num
    rw [f1, f2, f3, f4, f5, f6, f7, f8, f9, f10, f11, f12, if_neg hleap]
    have h12 : hebrew_months_elapsed (y + 1) = hebrew_months_elapsed y + 12 := by
      rcases hstep with h | h
      · exact h
      · exact absurd (hl.2 h) hleap
    have h12b := hl12 h12
    split_ifs <;> omega

/-- A valid Hebrew date lies in its year: on or after 1 Tishri of the year and
before 1 Tishri of the next. -/
theorem hebrew_day_number_range (y m d : ℤ) (hy : 0 ≤ y) (hm1 : 1 ≤ m)
    (hm2 : m ≤ hebrew_months_in_year y) (hd1 : 1 ≤ d) (hd2 : d ≤ hebrew_days_in_month y m) :
    hebrew_new_year_int y ≤ hebrew_day_number y m d ∧
    hebrew_day_number y m d < hebrew_new_year_int (y + 1) := by
  have h0 := hebrew_month_offset_nonneg y m
  have ht := hebrew_year_months_total y hy
  have hL := hebrew_months_in_year_cases y
  have hb6 := hebrew_days_in_month_bounds y 6
  have hup : hebrew_month_offset y m + hebrew_days_in_month y m
      ≤ hebrew_month_offset y 6 + hebrew_days_in_month y 6 := by
    by_cases hm6 : m ≤ 6
    · by_cases hm : m = 6
      · rw [hm]
      · have := hebrew_month_offset_lt y m 6 (by omega) (by omega)
        omega
    · have h16 := hebrew_month_offset_mono y 1 5 (by norm_num)
      have e16 : (1 : ℤ) + ((5 : ℕ) : ℤ) = 6 := by norm_num
      rw [e16] at h16
      have hn := hebrew_month_offset_nisan y
      by_cases hm : m = hebrew_months_in_year y
      · rw [hm]
        omega
      · have := hebrew_month_offset_lt y m (hebrew_months_in_year y) (by omega) (by omega)
        have hbL := hebrew_days_in_month_bounds y (hebrew_months_in_year y)
        omega
  unfold hebrew_day_number
  unfold hebrew_year_length at ht
  constructor <;> omega

/-! ## Hebrew calendar: the two searches of `jd_to_hebrew` -/

/-- Comparisons of the rounded day `a` of `jd_to_hebrew` with a value of
`hebrew_to_jd`, as comparisons of integer day counts. -/
theorem hebrew_compare (B N : ℤ) :
    ((((B + 347996 : ℤ) : ℚ) ≥ HEBREW_EPOCH + (N : ℚ)) ↔ N ≤ B) ∧
    ((((B + 347996 : ℤ) : ℚ) > HEBREW_EPOCH + (N : ℚ)) ↔ N ≤ B) ∧
    ((((B + 347996 : ℤ) : ℚ) < HEBREW_EPOCH + (N : ℚ)) ↔ B < N) := by
  have he : HEBREW_EPOCH = 347996 - 1 / 2 := by norm_num [HEBREW_EPOCH]
  have up : N ≤ B → ((N : ℤ) : ℚ) ≤ ((B : ℤ) : ℚ) := fun h => by exact_mod_cast h
  have dn : B < N → ((B : ℤ) : ℚ) + 1 ≤ ((N : ℤ) : ℚ) := fun h => by exact_mod_cast h
  rw [he]
  push_cast
  refine ⟨⟨?_, ?_⟩, ⟨?_, ?_⟩, ⟨?_, ?_⟩⟩
  · intro h
    by_contra hc
    have := dn (not_le.mp hc)
    linarith
  · intro h
    have := up h
    linarith
  · intro h
    by_contra hc
    have := dn (not_le.mp hc)
    linarith
  · intro h
    have := up h
    linarith
  · intro h
    by_contra hc
    have := up (not_lt.mp hc)
    linarith
  · intro h
    have := dn h
    linarith

theorem hebrew_year_cond_iff (B y : ℤ) :
    (((B + 347996 : ℤ) : ℚ) ≥ hebrew_to_jd (y + 1) 7 1) ↔ hebrew_new_year_int (y + 1) ≤ B := by
  rw [hebrew_new_year_eq]
  exact (hebrew_compare B _).1

theorem hebrew_month_cond_iff (B y k d : ℤ) :
    (((B + 347996 : ℤ) : ℚ) > hebrew_to_jd y k d) ↔ hebrew_day_number y k d ≤ B := by
  rw [hebrew_to_jd_eq]
  exact (hebrew_compare B _).2.1

theorem hebrew_first_month_iff (B y : ℤ) :
    (((B + 347996 : ℤ) : ℚ) < hebrew_to_jd y 1 1) ↔ B < hebrew_day_number y 1 1 := by
  rw [hebrew_to_jd_eq]
  exact (hebrew_compare B _).2.2

theorem hebrew_year_search_step (a : ℚ) (fuel : ℕ) (y : ℤ) :
    hebrew_year_search a (fuel + 1) y
      = if a ≥ hebrew_to_jd (y + 1) 7 1 then hebrew_year_search a fuel (y + 1) else some y := rfl

theorem hebrew_month_search_step (a : ℚ) (y : ℤ) (fuel : ℕ) (m : ℤ) :
    hebrew_month_search a y (fuel + 1) m
      = if a > hebrew_to_jd y m (hebrew_days_in_month y m)
        then hebrew_month_search a y fuel (m + 1) else some m := rfl

/-- The year search started `n` years below the year containing day `B` stops
at that year once it is allowed `n + 1` evaluations of its condition. -/
theorem hebrew_year_search_finds (B Y : ℤ) (h1 : hebrew_new_year_int Y ≤ B)
    (h2 : B < hebrew_new_year_int (Y + 1)) (n : ℕ) :
    ∀ fuel : ℕ, n + 1 ≤ fuel →
      hebrew_year_search ((B + 347996 : ℤ) : ℚ) fuel (Y - n) = some Y := by
  induction n with
  | zero =>
    intro fuel hf
    obtain ⟨f, rfl⟩ : ∃ f, fuel = f + 1 := ⟨fuel - 1, by omega⟩
    rw [hebrew_year_search_step, if_neg]
    · simp
    · rw [hebrew_year_cond_iff]
      simp only [Nat.cast_zero, sub_zero]
      omega
  | succ k ih =>
    intro fuel hf
    obtain ⟨f, rfl⟩ : ∃ f, fuel = f + 1 := ⟨fuel - 1, by omega⟩
    have e : Y - ((k + 1 : ℕ) : ℤ) + 1 = Y - (k : ℤ) := by push_cast; ring
    rw [hebrew_year_search_step, if_pos, e]
    · exact ih f (by omega)
    · rw [hebrew_year_cond_iff, e]
      have := new_year_mono Y k
      omega

/-- A search that cannot continue from year `K` on stops, whatever its start. -/
theorem hebrew_year_search_total (B K : ℤ)
    (hK : ∀ y, K ≤ y → B < hebrew_new_year_int (y + 1)) (n : ℕ) :
    ∀ y : ℤ, K ≤ y + n →
      ∃ r, ∀ fuel : ℕ, n + 1 ≤ fuel →
        hebrew_year_search ((B + 347996 : ℤ) : ℚ) fuel y = some r := by
  induction n with
  | zero =>
    intro y hy
    refine ⟨y, ?_⟩
    intro fuel hf
    obtain ⟨f, rfl⟩ : ∃ f, fuel = f + 1 := ⟨fuel - 1, by omega⟩
    rw [hebrew_year_search_step, if_neg]
    rw [hebrew_year_cond_iff]
    have := hK y (by simpa using hy)
    omega
  | succ k ih =>
    intro y hy
    by_cases hc : hebrew_new_year_int (y + 1) ≤ B
    · obtain ⟨r, hr⟩ := ih (y + 1) (by push_cast at hy; omega)
      refine ⟨r, ?_⟩
      intro fuel hf
      obtain ⟨f, rfl⟩ : ∃ f, fuel = f + 1 := ⟨fuel - 1, by omega⟩
      rw [hebrew_year_search_step, if_pos ((hebrew_year_cond_iff B y).2 hc)]
      exact hr f (by omega)
    · refine ⟨y, ?_⟩
      intro fuel hf
      obtain ⟨f, rfl⟩ : ∃ f, fuel = f + 1 := ⟨fuel - 1, by omega⟩
      rw [hebrew_year_search_step, if_neg]
      rw [hebrew_year_cond_iff]
      exact hc

theorem hebrew_year_bound (B : ℤ) :
    ∃ K : ℤ, ∀ y, K ≤ y → B < hebrew_new_year_int (y + 1) := by
  by_cases hB : 0 ≤ B
  · refine ⟨B + 2, ?_⟩
    intro y hy
    have h := (new_year_estimate (y + 1)).1
    by_contra hc
    omega
  · refine ⟨2, ?_⟩
    intro y hy
    have h := (new_year_estimate (y + 1)).1
    by_contra hc
    omega

theorem hebrew_month_bound (B Y : ℤ) :
    ∃ K : ℤ, ∀ k, K ≤ k → B < hebrew_day_number Y k (hebrew_days_in_month Y k) := by
  refine ⟨7 + (B - hebrew_new_year_int Y).toNat, ?_⟩
  intro k hk
  have hb : ∀ j, 29 ≤ hebrew_days_in_month Y j := fun j => (hebrew_days_in_month_bounds Y j).1
  have h1 := month_days_sum_ge (hebrew_days_in_month Y) hb (k - 7).toNat 7
  have h2 := hb k
  unfold hebrew_day_number hebrew_month_offset
  rw [if_neg (by omega)]
  omega

/-- A month search that cannot continue from month `K` on stops. -/
theorem hebrew_month_search_total (B Y K : ℤ)
    (hK : ∀ k, K ≤ k → B < hebrew_day_number Y k (hebrew_days_in_month Y k)) (n : ℕ) :
    ∀ m : ℤ, K ≤ m + n →
      ∃ r, ∀ fuel : ℕ, n + 1 ≤ fuel →
        hebrew_month_search ((B + 347996 : ℤ) : ℚ) Y fuel m = some r := by
  induction n with
  | zero =>
    intro m hm
    refine ⟨m, ?_⟩
    intro fuel hf
    obtain ⟨f, rfl⟩ : ∃ f, fuel = f + 1 := ⟨fuel - 1, by omega⟩
    rw [hebrew_month_search_step, if_neg]
    rw [hebrew_month_cond_iff]
    have := hK m (by simpa using hm)
    omega
  | succ k ih =>
    intro m hm
    by_cases hc : hebrew_day_number Y m (hebrew_days_in_month Y m) ≤ B
    · obtain ⟨r, hr⟩ := ih (m + 1) (by push_cast at hm; omega)
      refine ⟨r, ?_⟩
      intro fuel hf
      obtain ⟨f, rfl⟩ : ∃ f, fuel = f + 1 := ⟨fuel - 1, by omega⟩
      rw [hebrew_month_search_step, if_pos ((hebrew_month_cond_iff B Y m _).2 hc)]
      exact hr f (by omega)
    · refine ⟨m, ?_⟩
      intro fuel hf
      obtain ⟨f, rfl⟩ : ∃ f, fuel = f + 1 := ⟨fuel - 1, by omega⟩
      rw [hebrew_month_search_step, if_neg]
      rw [hebrew_month_cond_iff]
      exact hc

/-! ## Hebrew calendar: `jd_to_hebrew` -/

/-- The function `jd_to_hebrew` in terms of its named parts. -/
theorem jd_to_hebrew_eq (fuel : ℕ) (jd : ℚ) :
    jd_to_hebrew fuel jd =
      match hebrew_year_search (jd_to_hebrew_a jd) fuel (jd_to_hebrew_year0 jd) with
      | none => none
      | some year =>
        match hebrew_month_search (jd_to_hebrew_a jd) year fuel
          (jd_to_hebrew_first_month jd year) with
        | none => none
        | some month =>
          some (year, month, toInt (jd_to_hebrew_a jd - hebrew_to_jd year month 1 + 1)) := rfl

theorem jd_to_hebrew_of_searches (fuel : ℕ) (jd : ℚ) (Y M : ℤ)
    (hy : hebrew_year_search (jd_to_hebrew_a jd) fuel (jd_to_hebrew_year0 jd) = some Y)
    (hm : hebrew_month_search (jd_to_hebrew_a jd) Y fuel (jd_to_hebrew_first_month jd Y)
      = some M) :
    jd_to_hebrew fuel jd
      = some (Y, M, toInt (jd_to_hebrew_a jd - hebrew_to_jd Y M 1 + 1)) := by
  rw [jd_to_hebrew_eq, hy]
  simp only
  rw [hm]

theorem jd_to_hebrew_a_int (jd : ℚ) :
    jd_to_hebrew_a jd = (((cround (jd + 0.5) - 347996) + 347996 : ℤ) : ℚ) := by
  unfold jd_to_hebrew_a
  congr 1
  ring

theorem jd_to_hebrew_a_of_date (Y m d : ℤ) :
    jd_to_hebrew_a (hebrew_to_jd Y m d) = ((hebrew_day_number Y m d + 347996 : ℤ) : ℚ) := by
  unfold jd_to_hebrew_a
  rw [hebrew_to_jd_eq]
  have e : HEBREW_EPOCH + (hebrew_day_number Y m d : ℚ) + 0.5
      = ((hebrew_day_number Y m d + 347996 : ℤ) : ℚ) := by
    unfold HEBREW_EPOCH
    push_cast
    norm_num
    ring
  rw [e, cround_intCast]

theorem jd_to_hebrew_year0_of_date (Y m d : ℤ) :
    jd_to_hebrew_year0 (hebrew_to_jd Y m d)
      = (2 * hebrew_day_number Y m d + 1) * 49248 / 35975351 - 1 := by
  unfold jd_to_hebrew_year0
  simp only [jd_to_hebrew_a_of_date]
  generalize hebrew_day_number Y m d = N
  have h1 : ⌊((((N + 347996 : ℤ) : ℚ) - HEBREW_EPOCH) * 98496.0) / 35975351.0⌋
      = (2 * N + 1) * 49248 / 35975351 := by
    have := floor_of_eq_div (((((N + 347996 : ℤ) : ℚ) - HEBREW_EPOCH) * 98496.0) / 35975351.0)
      ((2 * N + 1) * 49248) 35975351 (by unfold HEBREW_EPOCH; push_cast; norm_num; ring)
    simpa using this
  rw [h1]
  have h2 : ((((2 * N + 1) * 49248 / 35975351 : ℤ) : ℚ) - 1)
      = (((2 * N + 1) * 49248 / 35975351 - 1 : ℤ) : ℚ) := by
    push_cast
    ring
  rw [h2, toInt_intCast]

theorem jd_to_hebrew_year0_range (Y m d : ℤ) (hY : 0 ≤ Y) (hm1 : 1 ≤ m)
    (hm2 : m ≤ hebrew_months_in_year Y) (hd1 : 1 ≤ d) (hd2 : d ≤ hebrew_days_in_month Y m) :
    Y - 3 ≤ jd_to_hebrew_year0 (hebrew_to_jd Y m d) ∧
    jd_to_hebrew_year0 (hebrew_to_jd Y m d) ≤ Y - 1 := by
  obtain ⟨h1, h2⟩ := hebrew_day_number_range Y m d hY hm1 hm2 hd1 hd2
  have e1 := (new_year_estimate Y).1
  have e2 := (new_year_estimate (Y + 1)).2
  rw [jd_to_hebrew_year0_of_date]
  generalize hebrew_day_number Y m d = N at *
  generalize hebrew_new_year_int Y = H0 at *
  generalize hebrew_new_year_int (Y + 1) = H1 at *
  constructor <;> omega

/-- The year search of `jd_to_hebrew` on the day of a valid date stops at the
year of the date within four evaluations of its condition. -/
theorem jd_to_hebrew_year_of_date (Y m d : ℤ) (hY : 0 ≤ Y) (hm1 : 1 ≤ m)
    (hm2 : m ≤ hebrew_months_in_year Y) (hd1 : 1 ≤ d) (hd2 : d ≤ hebrew_days_in_month Y m)
    (fuel : ℕ) (hf : 4 ≤ fuel) :
    hebrew_year_search (jd_to_hebrew_a (hebrew_to_jd Y m d)) fuel
      (jd_to_hebrew_year0 (hebrew_to_jd Y m d)) = some Y := by
  obtain ⟨h1, h2⟩ := hebrew_day_number_range Y m d hY hm1 hm2 hd1 hd2
  obtain ⟨r1, r2⟩ := jd_to_hebrew_year0_range Y m d hY hm1 hm2 hd1 hd2
  rw [jd_to_hebrew_a_of_date]
  have h := hebrew_year_search_finds (hebrew_day_number Y m d) Y h1 h2
    (Y - jd_to_hebrew_year0 (hebrew_to_jd Y m d)).toNat fuel (by omega)
  have e : Y - (((Y - jd_to_hebrew_year0 (hebrew_to_jd Y m d)).toNat : ℕ) : ℤ)
      = jd_to_hebrew_year0 (hebrew_to_jd Y m d) := by omega
  rw [e] at h
  exact h

theorem hebrew_month_offset_le_nisan (Y m : ℤ) (h7 : 7 ≤ m) (hm2 : m ≤ hebrew_months_in_year Y) :
    hebrew_month_offset Y m + hebrew_days_in_month Y m ≤ hebrew_month_offset Y 1 := by
  have hn := hebrew_month_offset_nisan Y
  by_cases hm : m = hebrew_months_in_year Y
  · rw [hm]
    omega
  · have := hebrew_month_offset_lt Y m (hebrew_months_in_year Y) (by omega) (by omega)
    have hbL := hebrew_days_in_month_bounds Y (hebrew_months_in_year Y)
    omega

theorem jd_to_hebrew_first_month_of_date (Y m d : ℤ) (hm1 : 1 ≤ m)
    (hm2 : m ≤ hebrew_months_in_year Y) (hd1 : 1 ≤ d) (hd2 : d ≤ hebrew_days_in_month Y m) :
    jd_to_hebrew_first_month (hebrew_to_jd Y m d) Y = if m < 7 then 1 else 7 := by
  unfold jd_to_hebrew_first_month
  rw [jd_to_hebrew_a_of_date]
  by_cases h : m < 7
  · rw [if_pos h, if_neg]
    rw [hebrew_first_month_iff]
    have h3 := hebrew_month_offset_mono Y 1 (m - 1).toNat (by omega)
    have e : (1 : ℤ) + (((m - 1).toNat : ℕ) : ℤ) = m := by omega
    rw [e] at h3
    unfold hebrew_day_number
    omega
  · rw [if_neg h, if_pos]
    rw [hebrew_first_month_iff]
    have h3 := hebrew_month_offset_le_nisan Y m (by omega) hm2
    unfold hebrew_day_number
    omega

/-- The month search on a day that is not the last of its month: started `n`
months before the month of the date it returns that month when allowed `n + 1`
evaluations of its condition, and runs out when allowed only `n`. -/
theorem hebrew_month_search_run (Y m d : ℤ) (hd1 : 1 ≤ d) (hd2 : d < hebrew_days_in_month Y m)
    (n : ℕ) (hn : 7 ≤ m - n ∨ (1 ≤ m - n ∧ m ≤ 6)) :
    (∀ fuel : ℕ, n + 1 ≤ fuel →
      hebrew_month_search ((hebrew_day_number Y m d + 347996 : ℤ) : ℚ) Y fuel (m - n) = some m) ∧
    hebrew_month_search ((hebrew_day_number Y m d + 347996 : ℤ) : ℚ) Y n (m - n) = none := by
  induction n with
  | zero =>
    refine ⟨?_, rfl⟩
    intro fuel hf
    obtain ⟨f, rfl⟩ : ∃ f, fuel = f + 1 := ⟨fuel - 1, by omega⟩
    simp only [Nat.cast_zero, sub_zero]
    rw [hebrew_month_search_step, if_neg]
    rw [hebrew_month_cond_iff]
    unfold hebrew_day_number
    omega
  | succ k ih =>
    have e : m - ((k + 1 : ℕ) : ℤ) + 1 = m - (k : ℤ) := by push_cast; ring
    have hk : 7 ≤ m - (k : ℤ) ∨ (1 ≤ m - (k : ℤ) ∧ m ≤ 6) := by
      push_cast at hn
      omega
    obtain ⟨ih1, ih2⟩ := ih hk
    have hc : hebrew_day_number Y (m - ((k + 1 : ℕ) : ℤ))
        (hebrew_days_in_month Y (m - ((k + 1 : ℕ) : ℤ))) ≤ hebrew_day_number Y m d := by
      have h3 := hebrew_month_offset_lt Y (m - ((k + 1 : ℕ) : ℤ)) m
        (by push_cast; omega) (by push_cast at hn ⊢; omega)
      unfold hebrew_day_number
      omega
    constructor
    · intro fuel hf
      obtain ⟨f, rfl⟩ : ∃ f, fuel = f + 1 := ⟨fuel - 1, by omega⟩
      rw [hebrew_month_search_step, if_pos ((hebrew_month_cond_iff _ _ _ _).2 hc), e]
      exact ih1 f (by omega)
    · rw [hebrew_month_search_step, if_pos ((hebrew_month_cond_iff _ _ _ _).2 hc), e]
      exact ih2

theorem jd_to_hebrew_day_of_date (Y m d : ℤ) (hd1 : 1 ≤ d) :
    toInt (jd_to_hebrew_a (hebrew_to_jd Y m d) - hebrew_to_jd Y m 1 + 1) = d := by
  rw [jd_to_hebrew_a_of_date, hebrew_to_jd_eq]
  have e : ((hebrew_day_number Y m d + 347996 : ℤ) : ℚ)
      - (HEBREW_EPOCH + (hebrew_day_number Y m 1 : ℚ)) + 1 = (d : ℚ) + 1 / 2 := by
    unfold hebrew_day_number HEBREW_EPOCH
    push_cast
    norm_num
    ring
  rw [e]
  unfold toInt
  have hd : (0 : ℚ) ≤ (d : ℚ) + 1 / 2 := by
    have : (1 : ℚ) ≤ (d : ℚ) := by exact_mod_cast hd1
    linarith
  rw [if_pos hd, Int.floor_eq_iff]
  constructor <;> norm_num

/-- Round trip of the Hebrew conversion for every valid date that is not the
last day of its month, with the searches allowed seven evaluations each. -/
theorem jd_to_hebrew_of_date (Y m d : ℤ) (hY : 0 ≤ Y) (hm1 : 1 ≤ m)
    (hm2 : m ≤ hebrew_months_in_year Y) (hd1 : 1 ≤ d) (hd2 : d < hebrew_days_in_month Y m)
    (fuel : ℕ) (hf : 7 ≤ fuel) :
    jd_to_hebrew fuel (hebrew_to_jd Y m d) = some (Y, m, d) := by
  have hL := hebrew_months_in_year_cases Y
  have hy := jd_to_hebrew_year_of_date Y m d hY hm1 hm2 hd1 (by omega) fuel (by omega)
  have hfm := jd_to_hebrew_first_month_of_date Y m d hm1 hm2 hd1 (by omega)
  have hmo : hebrew_month_search (jd_to_hebrew_a (hebrew_to_jd Y m d)) Y fuel
      (jd_to_hebrew_first_month (hebrew_to_jd Y m d) Y) = some m := by
    rw [hfm, jd_to_hebrew_a_of_date]
    by_cases h : m < 7
    · rw [if_pos h]
      have h3 := (hebrew_month_search_run Y m d hd1 hd2 (m - 1).toNat (by omega)).1 fuel
        (by omega)
      have e : m - (((m - 1).toNat : ℕ) : ℤ) = 1 := by omega
      rw [e] at h3
      exact h3
    · rw [if_neg h]
      have h3 := (hebrew_month_search_run Y m d hd1 hd2 (m - 7).toNat (by omega)).1 fuel
        (by omega)
      have e : m - (((m - 7).toNat : ℕ) : ℤ) = 7 := by omega
      rw [e] at h3
      exact h3
  rw [jd_to_hebrew_of_searches fuel _ Y m hy hmo, jd_to_hebrew_day_of_date Y m d hd1]

/-! ## Termination and bounds of the Hebrew searches -/

/-- C24. The Hebrew reverse conversion terminates: for every JD value `jd`
(in particular every one at or after `hebrew_to_jd(1, 7, 1)`) there is a number
of loop evaluations from which on `jd_to_hebrew` returns one and the same date,
so both the year search and the month search stop. -/
theorem jd_to_hebrew_terminates (jd : ℚ) :
    ∃ (fuel0 : ℕ) (r : ℤ × ℤ × ℤ), ∀ fuel : ℕ, fuel0 ≤ fuel → jd_to_hebrew fuel jd = some r := by
  have ha := jd_to_hebrew_a_int jd
  generalize cround (jd + 0.5) - 347996 = B at ha
  obtain ⟨K, hK⟩ := hebrew_year_bound B
  obtain ⟨Y, hY⟩ := hebrew_year_search_total B K hK (K - jd_to_hebrew_year0 jd).toNat
    (jd_to_hebrew_year0 jd) (by omega)
  obtain ⟨K2, hK2⟩ := hebrew_month_bound B Y
  obtain ⟨M, hM⟩ := hebrew_month_search_total B Y K2 hK2
    (K2 - jd_to_hebrew_first_month jd Y).toNat (jd_to_hebrew_first_month jd Y) (by omega)
  refine ⟨max ((K - jd_to_hebrew_year0 jd).toNat + 1)
      ((K2 - jd_to_hebrew_first_month jd Y).toNat + 1),
    (Y, M, toInt (jd_to_hebrew_a jd - hebrew_to_jd Y M 1 + 1)), ?_⟩
  intro fuel hf
  apply jd_to_hebrew_of_searches
  · rw [ha]
    exact hY fuel (le_trans (le_max_left _ _) hf)
  · rw [ha]
    exact hM fuel (le_trans (le_max_right _ _) hf)

/-- Witness for C24: the JD of 1 Tishri 5784. -/
theorem jd_to_hebrew_terminates_witness :
    ∃ (fuel0 : ℕ) (r : ℤ × ℤ × ℤ), ∀ fuel : ℕ, fuel0 ≤ fuel →
      jd_to_hebrew fuel 2460203.5 = some r :=
  jd_to_hebrew_terminates 2460203.5

/-- C25. Hebrew year-search bound: on the JD of a valid Hebrew date of year
`Y ≥ 1` the year search of `jd_to_hebrew` starts at an estimate between `Y - 3`
and `Y - 1` and stops at `Y` within 4 evaluations of its condition, that is
after at most 3 increments. -/
theorem hebrew_year_search_bound (Y m d : ℤ) (hY : 1 ≤ Y) (hm1 : 1 ≤ m)
    (hm2 : m ≤ hebrew_months_in_year Y) (hd1 : 1 ≤ d) (hd2 : d ≤ hebrew_days_in_month Y m) :
    hebrew_year_search (jd_to_hebrew_a (hebrew_to_jd Y m d)) 4
      (jd_to_hebrew_year0 (hebrew_to_jd Y m d)) = some Y ∧
    jd_to_hebrew_year0 (hebrew_to_jd Y m d) ≤ Y ∧
    Y - jd_to_hebrew_year0 (hebrew_to_jd Y m d) ≤ 3 := by
  obtain ⟨r1, r2⟩ := jd_to_hebrew_year0_range Y m d (by omega) hm1 hm2 hd1 hd2
  refine ⟨jd_to_hebrew_year_of_date Y m d (by omega) hm1 hm2 hd1 hd2 4 (le_refl 4), ?_, ?_⟩
  · omega
  · omega

/-- Witness for C25: 1 Tishri 5784. -/
theorem hebrew_year_search_bound_witness :
    hebrew_year_search (jd_to_hebrew_a (hebrew_to_jd 5784 7 1)) 4
      (jd_to_hebrew_year0 (hebrew_to_jd 5784 7 1)) = some 5784 ∧
    jd_to_hebrew_year0 (hebrew_to_jd 5784 7 1) ≤ 5784 ∧
    5784 - jd_to_hebrew_year0 (hebrew_to_jd 5784 7 1) ≤ 3 :=
  hebrew_year_search_bound 5784 7 1 (by decide) (by decide) (by decide) (by decide)
    (by rw [hebrew_months_5784.1]; decide)

/-- C26 (as stated, refuted). On the JD of 1 Adar 5784 (month 12 of a leap
year, a valid date) the month search of `jd_to_hebrew` starts at month 7 and
needs 5 increments: allowed 5 evaluations of its condition it has not stopped,
allowed 6 it stops at month 12. -/
theorem month_search_needs_five_increments :
    12 ≤ hebrew_months_in_year 5784 ∧ 1 ≤ hebrew_days_in_month 5784 12 ∧
    jd_to_hebrew_first_month (hebrew_to_jd 5784 12 1) 5784 = 7 ∧
    hebrew_month_search (jd_to_hebrew_a (hebrew_to_jd 5784 12 1)) 5784 5 7 = none ∧
    hebrew_month_search (jd_to_hebrew_a (hebrew_to_jd 5784 12 1)) 5784 6 7 = some 12 := by
  have hd : hebrew_days_in_month 5784 12 = 30 := hebrew_months_5784.2.2.2.2.2.1
  have hrun := hebrew_month_search_run 5784 12 1 (by decide) (by rw [hd]; decide) 5
    (by decide)
  have e : (12 : ℤ) - ((5 : ℕ) : ℤ) = 7 := by decide
  rw [e] at hrun
  refine ⟨by decide, by rw [hd]; decide, ?_, ?_, ?_⟩
  · rw [jd_to_hebrew_first_month_of_date 5784 12 1 (by decide) (by decide) (by decide)
      (by rw [hd]; decide)]
    decide
  · rw [jd_to_hebrew_a_of_date]
    exact hrun.2
  · rw [jd_to_hebrew_a_of_date]
    exact hrun.1 6 (le_refl 6)

/-- C26 (amended). On the JD of a valid Hebrew date that is not the last day of
its month, the month search of `jd_to_hebrew` starts at month 1 when the month
is before Tishri and at month 7 otherwise, and stops at the month of the date
within 7 evaluations of its condition, that is after at most 6 increments. -/
theorem hebrew_month_search_bound (Y m d : ℤ) (hm1 : 1 ≤ m)
    (hm2 : m ≤ hebrew_months_in_year Y) (hd1 : 1 ≤ d) (hd2 : d < hebrew_days_in_month Y m) :
    jd_to_hebrew_first_month (hebrew_to_jd Y m d) Y = (if m < 7 then 1 else 7) ∧
    hebrew_month_search (jd_to_hebrew_a (hebrew_to_jd Y m d)) Y 7
      (jd_to_hebrew_first_month (hebrew_to_jd Y m d) Y) = some m ∧
    m - jd_to_hebrew_first_month (hebrew_to_jd Y m d) Y ≤ 6 := by
  have hL := hebrew_months_in_year_cases Y
  have hfm := jd_to_hebrew_first_month_of_date Y m d hm1 hm2 hd1 (by omega)
  refine ⟨hfm, ?_, ?_⟩
  · rw [hfm, jd_to_hebrew_a_of_date]
    by_cases h : m < 7
    · rw [if_pos h]
      have h3 := (hebrew_month_search_run Y m d hd1 hd2 (m - 1).toNat (by omega)).1 7
        (by omega)
      have e : m - (((m - 1).toNat : ℕ) : ℤ) = 1 := by omega
      rw [e] at h3
      exact h3
    · rw [if_neg h]
      have h3 := (hebrew_month_search_run Y m d hd1 hd2 (m - 7).toNat (by omega)).1 7
        (by omega)
      have e : m - (((m - 7).toNat : ℕ) : ℤ) = 7 := by omega
      rw [e] at h3
      exact h3
  · rw [hfm]
    split_ifs <;> omega

/-- Witness for C26 (amended): 1 Adar 5784, reached after 5 increments. -/
theorem hebrew_month_search_bound_witness :
    jd_to_hebrew_first_month (hebrew_to_jd 5784 12 1) 5784 = (if (12 : ℤ) < 7 then 1 else 7) ∧
    hebrew_month_search (jd_to_hebrew_a (hebrew_to_jd 5784 12 1)) 5784 7
      (jd_to_hebrew_first_month (hebrew_to_jd 5784 12 1) 5784) = some 12 ∧
    12 - jd_to_hebrew_first_month (hebrew_to_jd 5784 12 1) 5784 ≤ 6 :=
  hebrew_month_search_bound 5784 12 1 (by decide) (by decide) (by decide)
    (by rw [hebrew_months_5784.2.2.2.2.2.1]; decide)

/-- C30. The Hebrew year search finds the containing year: on the JD `x` of a
valid Hebrew date of year `Y ≥ 1`, `jd_to_hebrew` returns (once its loops are
allowed enough evaluations) a date whose year is `Y`, is not below the linear
estimate, and satisfies
`hebrew_to_jd(year, 7, 1) ≤ x < hebrew_to_jd(year + 1, 7, 1)`. -/
theorem hebrew_year_contains_date (Y m d : ℤ) (hY : 1 ≤ Y) (hm1 : 1 ≤ m)
    (hm2 : m ≤ hebrew_months_in_year Y) (hd1 : 1 ≤ d) (hd2 : d ≤ hebrew_days_in_month Y m) :
    ∃ fuel0 : ℕ, ∀ fuel : ℕ, fuel0 ≤ fuel →
      ∃ r : ℤ × ℤ × ℤ, jd_to_hebrew fuel (hebrew_to_jd Y m d) = some r ∧ r.1 = Y ∧
        jd_to_hebrew_year0 (hebrew_to_jd Y m d) ≤ r.1 ∧
        hebrew_to_jd r.1 7 1 ≤ hebrew_to_jd Y m d ∧
        hebrew_to_jd Y m d < hebrew_to_jd (r.1 + 1) 7 1 := by
  obtain ⟨h1, h2⟩ := hebrew_day_number_range Y m d (by omega) hm1 hm2 hd1 hd2
  obtain ⟨r1, r2⟩ := jd_to_hebrew_year0_range Y m d (by omega) hm1 hm2 hd1 hd2
  have ha := jd_to_hebrew_a_of_date Y m d
  obtain ⟨K2, hK2⟩ := hebrew_month_bound (hebrew_day_number Y m d) Y
  obtain ⟨M, hM⟩ := hebrew_month_search_total (hebrew_day_number Y m d) Y K2 hK2
    (K2 - jd_to_hebrew_first_month (hebrew_to_jd Y m d) Y).toNat
    (jd_to_hebrew_first_month (hebrew_to_jd Y m d) Y) (by omega)
  refine ⟨max 4 ((K2 - jd_to_hebrew_first_month (hebrew_to_jd Y m d) Y).toNat + 1), ?_⟩
  intro fuel hf
  have hy := jd_to_hebrew_year_of_date Y m d (by omega) hm1 hm2 hd1 hd2 fuel
    (le_trans (le_max_left _ _) hf)
  have hmo : hebrew_month_search (jd_to_hebrew_a (hebrew_to_jd Y m d)) Y fuel
      (jd_to_hebrew_first_month (hebrew_to_jd Y m d) Y) = some M := by
    rw [ha]
    exact hM fuel (le_trans (le_max_right _ _) hf)
  refine ⟨_, jd_to_hebrew_of_searches fuel _ Y M hy hmo, rfl, ?_, ?_, ?_⟩
  · show jd_to_hebrew_year0 (hebrew_to_jd Y m d) ≤ Y
    omega
  · show hebrew_to_jd Y 7 1 ≤ hebrew_to_jd Y m d
    rw [hebrew_new_year_eq, hebrew_to_jd_eq]
    have : ((hebrew_new_year_int Y : ℤ) : ℚ) ≤ ((hebrew_day_number Y m d : ℤ) : ℚ) := by
      exact_mod_cast h1
    linarith
  · show hebrew_to_jd Y m d < hebrew_to_jd (Y + 1) 7 1
    rw [hebrew_new_year_eq, hebrew_to_jd_eq]
    have : ((hebrew_day_number Y m d : ℤ) : ℚ) < ((hebrew_new_year_int (Y + 1) : ℤ) : ℚ) := by
      exact_mod_cast h2
    linarith

/-- Witness for C30: 30 Tishri 5784, the last day of its month. -/
theorem hebrew_year_contains_date_witness :
    ∃ fuel0 : ℕ, ∀ fuel : ℕ, fuel0 ≤ fuel →
      ∃ r : ℤ × ℤ × ℤ, jd_to_hebrew fuel (hebrew_to_jd 5784 7 30) = some r ∧ r.1 = 5784 ∧
        jd_to_hebrew_year0 (hebrew_to_jd 5784 7 30) ≤ r.1 ∧
        hebrew_to_jd r.1 7 1 ≤ hebrew_to_jd 5784 7 30 ∧
        hebrew_to_jd 5784 7 30 < hebrew_to_jd (r.1 + 1) 7 1 :=
  hebrew_year_contains_date 5784 7 30 (by decide) (by decide) (by decide) (by decide)
    (le_of_eq hebrew_months_5784.1.symm)

/-! ## Well-formedness of the dates returned by `jd_to_islamic` -/

/-- C27 (failing inputs). The date-only `jd_to_islamic` returns ill-formed
dates at JD values after the Islamic epoch that are not midnights: a quarter of
a day after the 30th day of year 1 it returns day 0 of month 2, and at
`ISLAMIC_EPOCH + 708.25` it returns month 0. -/
theorem jd_to_islamic_ill_formed :
    ISLAMIC_EPOCH ≤ ISLAMIC_EPOCH + 29.25 ∧
    jd_to_islamic (ISLAMIC_EPOCH + 29.25) = (1, 2, 0) ∧
    jd_to_islamic (ISLAMIC_EPOCH + 708.25) = (3, 0, 29) := by
  refine ⟨by norm_num, ?_, ?_⟩
  · norm_num [jd_to_islamic, islamic_to_jd, ISLAMIC_EPOCH, toInt, ceil_eq_neg_floor]
  · norm_num [jd_to_islamic, islamic_to_jd, ISLAMIC_EPOCH, toInt, ceil_eq_neg_floor]

/-! ## The constructor `Julian(Jd)` -/

theorem jd_to_julian_floor (x z : ℚ) (h : ⌊x + 0.5⌋ = ⌊z + 0.5⌋) :
    jd_to_julian x = jd_to_julian z := by
  unfold jd_to_julian
  simp only [h]

theorem jd_to_julian_add_time (y m d : ℤ) (t : ℚ) (hy : -4799 ≤ y) (hm1 : 1 ≤ m) (hm2 : m ≤ 12)
    (ht0 : 0 ≤ t) (ht1 : t < 1) :
    jd_to_julian (julian_to_jd y m d + t) = jd_to_julian (julian_to_jd y m d) := by
  apply jd_to_julian_floor
  rw [julian_to_jd_eq y m d hy hm1 hm2]
  generalize (d + (153 * (m + 12 * ((14 - m) / 12) - 3) + 2) / 5
    + 365 * (y + 4800 - (14 - m) / 12) + (y + 4800 - (14 - m) / 12) / 4 - 32083 : ℤ) = n
  have e1 : (n : ℚ) - 1 / 2 + t + 0.5 = (n : ℚ) + t := by norm_num; ring
  have e2 : (n : ℚ) - 1 / 2 + 0.5 = (n : ℚ) := by norm_num
  rw [e1, e2, Int.floor_intCast, Int.floor_eq_iff]
  constructor <;> linarith

/-- C29. Julian-from-JD year remap: for every JD value `x` the object
`Julian(Jd(x))` has the month and day of `jd_to_julian(x)`, its year is the
recovered year `y` when `y > 0` and `1 - y` when `y ≤ 0`, so it is always at
least 1; and a valid Julian date `j` of year `-4712 ≤ y ≤ 0` converted to `Jd`
and back through this constructor keeps its month and day and comes back with
year `1 - y`, which is not `y`. -/
theorem julian_of_jd_year_remap (x : ℚ) (j : Julian)
    (hy1 : -4712 ≤ j.year_) (hy2 : j.year_ ≤ 0) (hm1 : 1 ≤ j.month_) (hm2 : j.month_ ≤ 12)
    (hd1 : 1 ≤ j.day_)
    (hd2 : j.day_ ≤ julian_days_in_month j.month_ (is_julian_leapyear j.year_))
    (ht0 : 0 ≤ tod j.hour_ j.minute_ j.second_) (ht1 : tod j.hour_ j.minute_ j.second_ < 1) :
    (Julian.of_Jd { jd_ := x }).month_ = (jd_to_julian x).2.1 ∧
    (Julian.of_Jd { jd_ := x }).day_ = (jd_to_julian x).2.2 ∧
    (Julian.of_Jd { jd_ := x }).year_
      = (if 0 < (jd_to_julian x).1 then (jd_to_julian x).1 else 1 - (jd_to_julian x).1) ∧
    1 ≤ (Julian.of_Jd { jd_ := x }).year_ ∧
    (Julian.of_Jd j.operator_Jd).month_ = j.month_ ∧
    (Julian.of_Jd j.operator_Jd).day_ = j.day_ ∧
    (Julian.of_Jd j.operator_Jd).year_ = 1 - j.year_ ∧
    (Julian.of_Jd j.operator_Jd).year_ ≠ j.year_ := by
  have hyear : ∀ z : ℚ, (Julian.of_Jd { jd_ := z }).year_
      = (if 0 < (jd_to_julian z).1 then (jd_to_julian z).1 else 1 - (jd_to_julian z).1) := by
    intro z
    show (if (jd_to_julian z).1 ≤ 0 then -((jd_to_julian z).1 - 1) else (jd_to_julian z).1) = _
    split_ifs <;> omega
  have hback : jd_to_julian (j.operator_Jd).value = (j.year_, j.month_, j.day_) := by
    show jd_to_julian (julian_to_jd j.year_ j.month_ j.day_ + tod j.hour_ j.minute_ j.second_) = _
    rw [jd_to_julian_add_time _ _ _ _ (by omega) hm1 hm2 ht0 ht1]
    exact julian_decompose _ _ _ (by omega) hm1 hm2 hd1 hd2
  have hm : (Julian.of_Jd j.operator_Jd).month_ = (jd_to_julian (j.operator_Jd).value).2.1 := rfl
  have hd : (Julian.of_Jd j.operator_Jd).day_ = (jd_to_julian (j.operator_Jd).value).2.2 := rfl
  have hy : (Julian.of_Jd j.operator_Jd).year_ = 1 - j.year_ := by
    have := hyear (j.operator_Jd).value
    rw [hback] at this
    simp only at this
    rw [if_neg (by omega)] at this
    exact this
  refine ⟨rfl, rfl, hyear x, ?_, ?_, ?_, hy, ?_⟩
  · rw [hyear x]
    split_ifs <;> omega
  · rw [hm, hback]
  · rw [hd, hback]
  · rw [hy]
    omega

/-- Witness for C29: 1 January of astronomical year 0 comes back as year 1. -/
theorem julian_of_jd_year_remap_witness :
    (Julian.of_Jd { jd_ := 0 }).month_ = (jd_to_julian 0).2.1 ∧
    (Julian.of_Jd { jd_ := 0 }).day_ = (jd_to_julian 0).2.2 ∧
    (Julian.of_Jd { jd_ := 0 }).year_
      = (if 0 < (jd_to_julian 0).1 then (jd_to_julian 0).1 else 1 - (jd_to_julian 0).1) ∧
    1 ≤ (Julian.of_Jd { jd_ := 0 }).year_ ∧
    (Julian.of_Jd (Julian.operator_Jd { year_ := 0, month_ := 1, day_ := 1 })).month_ = 1 ∧
    (Julian.of_Jd (Julian.operator_Jd { year_ := 0, month_ := 1, day_ := 1 })).day_ = 1 ∧
    (Julian.of_Jd (Julian.operator_Jd { year_ := 0, month_ := 1, day_ := 1 })).year_ = 1 - 0 ∧
    (Julian.of_Jd (Julian.operator_Jd { year_ := 0, month_ := 1, day_ := 1 })).year_ ≠ 0 :=
  julian_of_jd_year_remap 0 { year_ := 0, month_ := 1, day_ := 1 } (by decide) (by decide)
    (by decide) (by decide) (by decide) (by decide) (by norm_num [tod]) (by norm_num [tod])

/-! ## Hebrew calendar: the six year lengths -/

theorem molad_day_nonneg (y : ℤ) (hy : 1 ≤ y) : 0 ≤ hebrew_molad_day y := by
  unfold hebrew_molad_day hebrew_months_elapsed
  omega

/-- The start of a year is put off by one day exactly when its molad day has
residue 2, 4 or 6 modulo 7. -/
theorem delay_of_week_mod (y : ℤ) (hD : 0 ≤ hebrew_molad_day y) :
    ((hebrew_molad_day y % 7 = 2 ∨ hebrew_molad_day y % 7 = 4 ∨ hebrew_molad_day y % 7 = 6) →
      hebrew_delay_of_week_int y = hebrew_molad_day y + 1) ∧
    (¬ (hebrew_molad_day y % 7 = 2 ∨ hebrew_molad_day y % 7 = 4 ∨ hebrew_molad_day y % 7 = 6) →
      hebrew_delay_of_week_int y = hebrew_molad_day y) := by
  unfold hebrew_delay_of_week_int
  rw [cmod_of_nonneg (by omega) (by norm_num)]
  have hr : hebrew_molad_day y % 7 = 0 ∨ hebrew_molad_day y % 7 = 1 ∨
      hebrew_molad_day y % 7 = 2 ∨ hebrew_molad_day y % 7 = 3 ∨ hebrew_molad_day y % 7 = 4 ∨
      hebrew_molad_day y % 7 = 5 ∨ hebrew_molad_day y % 7 = 6 := by omega
  constructor
  · intro h
    rw [if_pos]
    rcases hr with r | r | r | r | r | r | r <;> omega
  · intro h
    rw [if_neg]
    rcases hr with r | r | r | r | r | r | r <;> omega

theorem molad_no_two_carries (y : ℤ)
    (h1 : hebrew_months_elapsed (y + 1) = hebrew_months_elapsed y + 12)
    (h2 : hebrew_months_elapsed (y + 2) = hebrew_months_elapsed (y + 1) + 12)
    (hc : hebrew_molad_day (y + 2) = hebrew_molad_day (y + 1) + 355) :
    hebrew_molad_day (y + 1) = hebrew_molad_day y + 354 := by
  unfold hebrew_molad_day at *
  rw [h2, h1] at hc
  rw [h1]
  generalize hebrew_months_elapsed y = M at *
  omega

/-- A gap of 356 days between two year starts before adjustment: the year has
12 months, its molad day has residue 1 modulo 7 and is not put off, and the
next molad day is 355 days later. -/
theorem delay_gap_356 (y : ℤ) (hy : 1 ≤ y)
    (h : hebrew_delay_of_week_int (y + 1) - hebrew_delay_of_week_int y = 356) :
    hebrew_months_elapsed (y + 1) = hebrew_months_elapsed y + 12 ∧
    hebrew_molad_day (y + 1) = hebrew_molad_day y + 355 ∧
    hebrew_molad_day y % 7 = 1 ∧
    hebrew_delay_of_week_int y = hebrew_molad_day y := by
  have hD0 := molad_day_nonneg y hy
  have hD1 := molad_day_nonneg (y + 1) (by omega)
  obtain ⟨a1, a2⟩ := delay_of_week_mod y hD0
  obtain ⟨b1, b2⟩ := delay_of_week_mod (y + 1) hD1
  have h12 : hebrew_months_elapsed (y + 1) = hebrew_months_elapsed y + 12 := by
    rcases months_elapsed_step y with hs | hs
    · exact hs
    · obtain ⟨c1, -, -⟩ := delay_of_week_step_13 y hs
      omega
  have hstep := molad_day_step_12 y h12
  have hp0 := delay_of_week_cases y
  have hp1 := delay_of_week_cases (y + 1)
  have e1 : hebrew_molad_day (y + 1) = hebrew_molad_day y + 355 := by omega
  have e2 : hebrew_delay_of_week_int y = hebrew_molad_day y := by omega
  have e3 : hebrew_delay_of_week_int (y + 1) = hebrew_molad_day (y + 1) + 1 := by omega
  refine ⟨h12, e1, ?_, e2⟩
  by_contra hne
  by_cases hq : hebrew_molad_day (y + 1) % 7 = 2 ∨ hebrew_molad_day (y + 1) % 7 = 4 ∨
      hebrew_molad_day (y + 1) % 7 = 6
  · by_cases hp : hebrew_molad_day y % 7 = 2 ∨ hebrew_molad_day y % 7 = 4 ∨
        hebrew_molad_day y % 7 = 6
    · have := a1 hp
      omega
    · omega
  · have := b2 hq
    omega

theorem delay_adjacent_shape (y : ℤ) :
    (hebrew_delay_adjacent_year_int y = 2 ∧
      hebrew_delay_of_week_int (y + 1) - hebrew_delay_of_week_int y = 356) ∨
    (hebrew_delay_adjacent_year_int y = 1 ∧
      hebrew_delay_of_week_int y - hebrew_delay_of_week_int (y - 1) = 382) ∨
    hebrew_delay_adjacent_year_int y = 0 := by
  unfold hebrew_delay_adjacent_year_int
  split_ifs with c1 c2
  · exact Or.inl ⟨rfl, c1⟩
  · exact Or.inr (Or.inl ⟨rfl, c2⟩)
  · exact Or.inr (Or.inr rfl)

/-- A year of 12 months has at most 355 days. -/
theorem year_length_upper_12 (y : ℤ) (hy : 1 ≤ y)
    (h12 : hebrew_months_elapsed (y + 1) = hebrew_months_elapsed y + 12) :
    hebrew_year_length y ≤ 355 := by
  obtain ⟨b1, b2, -⟩ := delay_of_week_step_12 y h12
  have e2 : y + 1 + 1 = y + 2 := by ring
  have e0 : y + 1 - 1 = y := by ring
  rw [hebrew_year_length_eq]
  have hsh := delay_adjacent_shape (y + 1)
  rw [e2, e0] at hsh
  rcases hsh with ⟨s1, s2⟩ | ⟨s1, s2⟩ | s1
  · have hg := delay_gap_356 (y + 1) (by omega) (by rw [e2]; exact s2)
    rw [e2] at hg
    obtain ⟨g1, g2, g3, g4⟩ := hg
    have hc := molad_no_two_carries y h12 g1 g2
    have hD0 := molad_day_nonneg y hy
    obtain ⟨a1, -⟩ := delay_of_week_mod y hD0
    have hw := a1 (by omega)
    rw [s1]
    split_ifs <;> omega
  · omega
  · rw [s1]
    split_ifs <;> omega

/-- A year of 13 months has at most 385 days. -/
theorem year_length_upper_13 (y : ℤ) (hy : 1 ≤ y)
    (h13 : hebrew_months_elapsed (y + 1) = hebrew_months_elapsed y + 13) :
    hebrew_year_length y ≤ 385 := by
  obtain ⟨b1, b2, -⟩ := delay_of_week_step_13 y h13
  have hstep := molad_day_step_13 y h13
  have e2 : y + 1 + 1 = y + 2 := by ring
  have e0 : y + 1 - 1 = y := by ring
  rw [hebrew_year_length_eq]
  have hsh := delay_adjacent_shape (y + 1)
  rw [e2, e0] at hsh
  rcases hsh with ⟨s1, s2⟩ | ⟨s1, s2⟩ | s1
  · have hg := delay_gap_356 (y + 1) (by omega) (by rw [e2]; exact s2)
    obtain ⟨-, -, g3, g4⟩ := hg
    have hD0 := molad_day_nonneg y hy
    obtain ⟨a1, a2⟩ := delay_of_week_mod y hD0
    have hw : hebrew_delay_of_week_int (y + 1) - hebrew_delay_of_week_int y = 383 := by
      rcases hstep with hs | hs
      · have := a2 (by omega)
        omega
      · have := a1 (by omega)
        omega
    rw [s1]
    split_ifs <;> omega
  · rw [s1]
    split_ifs <;> omega
  · rw [s1]
    split_ifs <;> omega

/-- The length of a Hebrew year `y ≥ 1`, as `hebrew_to_jd` counts it, is 353,
354 or 355 days in a common year and 383, 384 or 385 days in a leap year. -/
theorem hebrew_year_length_legal (y : ℤ) (hy : 1 ≤ y) :
    (is_hebrew_leapyear y = false →
      hebrew_year_length y = 353 ∨ hebrew_year_length y = 354 ∨ hebrew_year_length y = 355) ∧
    (is_hebrew_leapyear y = true →
      hebrew_year_length y = 383 ∨ hebrew_year_length y = 384 ∨ hebrew_year_length y = 385) := by
  have hl := is_hebrew_leapyear_iff_13 y (by omega)
  obtain ⟨l12, l13⟩ := year_length_lower y
  constructor
  · intro hf
    have h12 : hebrew_months_elapsed (y + 1) = hebrew_months_elapsed y + 12 := by
      rcases months_elapsed_step y with h | h
      · exact h
      · have := hl.2 h
        rw [hf] at this
        exact absurd this (by decide)
    have := l12 h12
    have := year_length_upper_12 y hy h12
    omega
  · intro ht
    have h13 := hl.1 ht
    have := l13 h13
    have := year_length_upper_13 y hy h13
    omega

theorem hebrew_days_in_year_cast (y : ℤ) :
    hebrew_days_in_year y = ((hebrew_year_length y : ℤ) : ℚ) := by
  rw [hebrew_days_in_year_eq, hebrew_new_year_eq, hebrew_new_year_eq]
  unfold hebrew_year_length
  push_cast
  ring

/-! ## Month and year lengths against the JD conversions -/

/-- C31. Islamic month lengths match the JD conversion: for every year `y ≥ 1`
and month `m` in `1..11`,
`islamic_to_jd(y, m + 1, 1) - islamic_to_jd(y, m, 1) = islamic_days_in_month(m, leap(y))`,
and `islamic_to_jd(y + 1, 1, 1) - islamic_to_jd(y, 12, 1) = islamic_days_in_month(12, leap(y))`;
the month length is 30 for odd months and month 11, 29 for the other even
months below 12, and 30 or 29 for month 12 by leap status. -/
theorem islamic_month_lengths (y m : ℤ) (hy : 1 ≤ y) (hm1 : 1 ≤ m) (hm2 : m ≤ 11) :
    islamic_to_jd y (m + 1) 1 - islamic_to_jd y m 1
      = (islamic_days_in_month m (is_islamic_leapyear y) : ℚ) ∧
    islamic_to_jd (y + 1) 1 1 - islamic_to_jd y 12 1
      = (islamic_days_in_month 12 (is_islamic_leapyear y) : ℚ) ∧
    (∀ l : Bool, islamic_days_in_month m l = if m % 2 = 1 ∨ m = 11 then 30 else 29) ∧
    (∀ l : Bool, islamic_days_in_month 12 l = if l = true then 30 else 29) := by
  have h1 := islamic_next_month y m (by omega) hm1 (by omega)
  have h2 := islamic_next_month y 12 (by omega) (by decide) (by decide)
  rw [if_neg (by omega), if_neg (by omega)] at h1
  rw [if_pos (by decide), if_pos (by decide)] at h2
  refine ⟨?_, ?_, ?_, ?_⟩
  · rw [islamic_to_jd_eq, islamic_to_jd_eq, h1]
    push_cast
    ring
  · rw [islamic_to_jd_eq, islamic_to_jd_eq, h2]
    push_cast
    ring
  · intro l
    unfold islamic_days_in_month
    rw [cmod_of_nonneg (by omega) (by norm_num)]
    interval_cases m <;> simp
  · intro l
    cases l <;> decide

/-- Witness for C31: year 2 (a leap year), month 11. -/
theorem islamic_month_lengths_witness :
    islamic_to_jd 2 (11 + 1) 1 - islamic_to_jd 2 11 1
      = (islamic_days_in_month 11 (is_islamic_leapyear 2) : ℚ) ∧
    islamic_to_jd (2 + 1) 1 1 - islamic_to_jd 2 12 1
      = (islamic_days_in_month 12 (is_islamic_leapyear 2) : ℚ) ∧
    (∀ l : Bool, islamic_days_in_month 11 l = if (11 : ℤ) % 2 = 1 ∨ (11 : ℤ) = 11 then 30 else 29) ∧
    (∀ l : Bool, islamic_days_in_month 12 l = if l = true then 30 else 29) :=
  islamic_month_lengths 2 11 (by decide) (by decide) (by decide)

/-- C32. Hebrew year lengths are one of the six legal values: for every year
`y ≥ 1`, `hebrew_days_in_year(y) = hebrew_to_jd(y + 1, 7, 1) - hebrew_to_jd(y, 7, 1)`
is 353, 354 or 355 when `is_hebrew_leapyear(y)` is false and 383, 384 or 385
when it is true. -/
theorem hebrew_year_lengths_legal (y : ℤ) (hy : 1 ≤ y) :
    hebrew_days_in_year y = hebrew_to_jd (y + 1) 7 1 - hebrew_to_jd y 7 1 ∧
    (is_hebrew_leapyear y = false →
      hebrew_days_in_year y = 353 ∨ hebrew_days_in_year y = 354 ∨
        hebrew_days_in_year y = 355) ∧
    (is_hebrew_leapyear y = true →
      hebrew_days_in_year y = 383 ∨ hebrew_days_in_year y = 384 ∨
        hebrew_days_in_year y = 385) := by
  obtain ⟨h1, h2⟩ := hebrew_year_length_legal y hy
  refine ⟨hebrew_days_in_year_eq y, ?_, ?_⟩
  · intro hf
    rw [hebrew_days_in_year_cast]
    rcases h1 hf with h | h | h <;> rw [h] <;> norm_num
  · intro ht
    rw [hebrew_days_in_year_cast]
    rcases h2 ht with h | h | h <;> rw [h] <;> norm_num

/-- Witness for C32: year 5784. -/
theorem hebrew_year_lengths_legal_witness :
    hebrew_days_in_year 5784 = hebrew_to_jd (5784 + 1) 7 1 - hebrew_to_jd 5784 7 1 ∧
    (is_hebrew_leapyear 5784 = false →
      hebrew_days_in_year 5784 = 353 ∨ hebrew_days_in_year 5784 = 354 ∨
        hebrew_days_in_year 5784 = 355) ∧
    (is_hebrew_leapyear 5784 = true →
      hebrew_days_in_year 5784 = 383 ∨ hebrew_days_in_year 5784 = 384 ∨
        hebrew_days_in_year 5784 = 385) :=
  hebrew_year_lengths_legal 5784 (by decide)

theorem month_days_sum_12 (dim : ℤ → ℤ) (s : ℤ) :
    month_days_sum dim 12 s
      = dim s + dim (s + 1) + dim (s + 2) + dim (s + 3) + dim (s + 4) + dim (s + 5)
        + dim (s + 6) + dim (s + 7) + dim (s + 8) + dim (s + 9) + dim (s + 10)
        + dim (s + 11) := by
  simp only [month_days_sum]
  ring_nf

theorem month_days_sum_13 (dim : ℤ → ℤ) (s : ℤ) :
    month_days_sum dim 13 s
      = dim s + dim (s + 1) + dim (s + 2) + dim (s + 3) + dim (s + 4) + dim (s + 5)
        + dim (s + 6) + dim (s + 7) + dim (s + 8) + dim (s + 9) + dim (s + 10)
        + dim (s + 11) + dim (s + 12) := by
  simp only [month_days_sum]
  ring_nf

/-- The months of a year `y ≥ 1` add up to the length of the year, in the order
`hebrew_to_jd` adds them and in the order of the month numbers. -/
theorem hebrew_year_months_sum (y : ℤ) (hy : 1 ≤ y) :
    hebrew_month_offset y 6 + hebrew_days_in_month y 6 = hebrew_year_length y ∧
    month_days_sum (hebrew_days_in_month y) (hebrew_months_in_year y).toNat 1
      = hebrew_year_length y := by
  obtain ⟨f1, f2, f3, f4, f5, f6, f7, f10, f11, f13⟩ := hebrew_days_in_month_fixed y
  have f8 := hebrew_days_in_month_8 y
  have f9 := hebrew_days_in_month_9 y
  have f12 := hebrew_days_in_month_12 y
  obtain ⟨hl0, hl1⟩ := hebrew_year_length_legal y hy
  unfold hebrew_month_offset
  rw [if_pos (by norm_num)]
  have e5 : ((6 : ℤ) - 1).toNat = 5 := rfl
  rw [e5, month_days_sum_5]
  cases hleap : is_hebrew_leapyear y
  · have hm : hebrew_months_in_year y = 12 := by simp [hebrew_months_in_year, hleap]
    have e6 : ((12 : ℤ) + 1 - 7).toNat = 6 := rfl
    have e12 : (12 : ℤ).toNat = 12 := rfl
    rw [hm, e6, e12, month_days_sum_6, month_days_sum_12]
    norm_num
    have f12b : hebrew_days_in_month y 12 = 29 := by
      rw [f12, hleap]
      simp
    rw [f1, f2, f3, f4, f5, f6, f7, f8, f9, f10, f11, f12b]
    have hlen := hl0 hleap
    constructor <;> split_ifs <;> omega
  · have hm : hebrew_months_in_year y = 13 := by simp [hebrew_months_in_year, hleap]
    have e7 : ((13 : ℤ) + 1 - 7).toNat = 7 := rfl
    have e13 : (13 : ℤ).toNat = 13 := rfl
    rw [hm, e7, e13, month_days_sum_7, month_days_sum_13]
    norm_num
    have f12b : hebrew_days_in_month y 12 = 30 := by
      rw [f12, hleap]
      simp
    rw [f1, f2, f3, f4, f5, f6, f7, f8, f9, f10, f11, f12b, f13]
    have hlen := hl1 hleap
    constructor <;> split_ifs <;> omega

/-- C33. Hebrew months tile the year: for every year `y ≥ 1` the sum of
`hebrew_days_in_month(y, m)` over `m = 1..hebrew_months_in_year(y)` equals
`hebrew_days_in_year(y)`, and the day after 29 Elul,
`hebrew_to_jd(y, 6, 29) + 1`, is `hebrew_to_jd(y + 1, 7, 1)`. -/
theorem hebrew_months_tile_year (y : ℤ) (hy : 1 ≤ y) :
    ((month_days_sum (hebrew_days_in_month y) (hebrew_months_in_year y).toNat 1 : ℤ) : ℚ)
      = hebrew_days_in_year y ∧
    hebrew_to_jd y 6 29 + 1 = hebrew_to_jd (y + 1) 7 1 := by
  obtain ⟨h1, h2⟩ := hebrew_year_months_sum y hy
  have f6 := (hebrew_days_in_month_fixed y).2.2.2.2.2.1
  constructor
  · rw [h2, hebrew_days_in_year_cast]
  · rw [hebrew_to_jd_eq, hebrew_new_year_eq]
    have e : hebrew_day_number y 6 29 + 1 = hebrew_new_year_int (y + 1) := by
      unfold hebrew_day_number
      unfold hebrew_year_length at h1
      omega
    rw [← e]
    push_cast
    ring

/-- Witness for C33: year 5784. -/
theorem hebrew_months_tile_year_witness :
    ((month_days_sum (hebrew_days_in_month 5784) (hebrew_months_in_year 5784).toNat 1 : ℤ) : ℚ)
      = hebrew_days_in_year 5784 ∧
    hebrew_to_jd 5784 6 29 + 1 = hebrew_to_jd (5784 + 1) 7 1 :=
  hebrew_months_tile_year 5784 (by decide)

/-- The year from 1 January of `y` to 1 January of `y + 1` has 365 days, or 366
when `y` is a leap year. -/
theorem gregorian_next_year (y : ℤ) :
    gregorian_jdn (y + 1) 1 1
      = gregorian_jdn y 1 1 + 365 + (if is_gregorian_leapyear y = true then 1 else 0) := by
  have hL := is_gregorian_leapyear_iff y
  have h1 := div_div_100_4 y
  have h2 := div_div_100_4 (y - 1)
  have h3 : 1461 * (y + 4716) / 4 = 365 * (y + 4716) + (y + 4716) / 4 := by omega
  have h4 : 1461 * (y - 1 + 4716) / 4 = 365 * (y - 1 + 4716) + (y - 1 + 4716) / 4 := by omega
  have e : y + 1 - 1 = y := by ring
  simp only [gregorian_jdn, show ((1 : ℤ) ≤ 2) by decide, if_true, e]
  rw [h1, h2, h3, h4]
  cases hl : is_gregorian_leapyear y <;> rw [hl] at hL <;> simp at hL ⊢ <;> omega

/-- C34. Gregorian month and year lengths match the JD conversion: for every
year `y` (in particular `y ≥ -4712`) and month `m` in `1..12`, the JD of the
first day of the following month minus `gregorian_to_jd(y, m, 1)` is
`gregorian_days_in_month(m, is_gregorian_leapyear(y))`, which is the entry of
the table 31, 28 or 29, 31, 30, 31, 30, 31, 31, 30, 31, 30, 31; and
`gregorian_to_jd(y + 1, 1, 1) - gregorian_to_jd(y, 1, 1)` is 366 in a leap year
and 365 otherwise. -/
theorem gregorian_month_year_lengths (y m : ℤ) (hm1 : 1 ≤ m) (hm2 : m ≤ 12) :
    gregorian_to_jd (if m = 12 then y + 1 else y) (if m = 12 then 1 else m + 1) 1
        - gregorian_to_jd y m 1
      = (gregorian_days_in_month m (is_gregorian_leapyear y) : ℚ) ∧
    gregorian_days_in_month m (is_gregorian_leapyear y)
      = [31, if is_gregorian_leapyear y = true then 29 else 28, 31, 30, 31, 30, 31, 31, 30, 31,
          30, 31].getD (m - 1).toNat 0 ∧
    gregorian_to_jd (y + 1) 1 1 - gregorian_to_jd y 1 1
      = 365 + (if is_gregorian_leapyear y = true then 1 else 0) := by
  have h := gregorian_next_month y m hm1 hm2
  have e1 : (if m + 1 > 12 then y + 1 else y) = (if m = 12 then y + 1 else y) := by
    split_ifs <;> omega
  have e2 : (if m + 1 > 12 then (1 : ℤ) else m + 1) = (if m = 12 then 1 else m + 1) := by
    split_ifs <;> omega
  rw [e1, e2] at h
  refine ⟨?_, ?_, ?_⟩
  · rw [gregorian_to_jd_eq, gregorian_to_jd_eq, h]
    push_cast
    ring
  · cases is_gregorian_leapyear y <;> interval_cases m <;> decide
  · rw [gregorian_to_jd_eq, gregorian_to_jd_eq, gregorian_next_year]
    push_cast
    split_ifs <;> ring

/-- Witness for C34: February 2024. -/
theorem gregorian_month_year_lengths_witness :
    gregorian_to_jd (if (2 : ℤ) = 12 then 2024 + 1 else 2024) (if (2 : ℤ) = 12 then 1 else 2 + 1) 1
        - gregorian_to_jd 2024 2 1
      = (gregorian_days_in_month 2 (is_gregorian_leapyear 2024) : ℚ) ∧
    gregorian_days_in_month 2 (is_gregorian_leapyear 2024)
      = [31, if is_gregorian_leapyear 2024 = true then 29 else 28, 31, 30, 31, 30, 31, 31, 30,
          31, 30, 31].getD ((2 : ℤ) - 1).toNat 0 ∧
    gregorian_to_jd (2024 + 1) 1 1 - gregorian_to_jd 2024 1 1
      = 365 + (if is_gregorian_leapyear 2024 = true then 1 else 0) :=
  gregorian_month_year_lengths 2024 2 (by decide) (by decide)

/-- C35. The Gregorian and Julian forward conversions differ by the century
correction only: for every year `y ≥ -4712`, month `m` in `1..12` and day `d`,
`gregorian_to_jd(y, m, d) - julian_to_jd(y, m, d) = 2 - ⌊Y / 100⌋ + ⌊Y / 400⌋`
with `Y = y - 1` if `m ≤ 2` and `Y = y` otherwise (`/` on `ℤ` is the floor
division); the difference is `-10` in October 1582. -/
theorem gregorian_julian_difference (y m d : ℤ) (hy : -4712 ≤ y) (hm1 : 1 ≤ m)
    (hm2 : m ≤ 12) :
    gregorian_to_jd y m d - julian_to_jd y m d
      = ((2 - (if m ≤ 2 then y - 1 else y) / 100 + (if m ≤ 2 then y - 1 else y) / 400 : ℤ) : ℚ) ∧
    gregorian_to_jd 1582 10 15 - julian_to_jd 1582 10 15 = -10 := by
  constructor
  · rw [gregorian_to_jd_eq, julian_to_jd_eq y m d (by omega) hm1 hm2]
    have key : gregorian_jdn y m d
        - (d + (153 * (m + 12 * ((14 - m) / 12) - 3) + 2) / 5
          + 365 * (y + 4800 - (14 - m) / 12) + (y + 4800 - (14 - m) / 12) / 4 - 32083)
        = 2 - (if m ≤ 2 then y - 1 else y) / 100 + (if m ≤ 2 then y - 1 else y) / 400 := by
      unfold gregorian_jdn
      simp only []
      by_cases hm : m ≤ 2
      · simp only [hm, if_true]
        have h1 := div_div_100_4 (y - 1)
        have h3 : 1461 * (y - 1 + 4716) / 4 = 365 * (y - 1 + 4716) + (y - 1 + 4716) / 4 := by
          omega
        rw [h1, h3]
        interval_cases m <;> omega
      · simp only [hm, if_false]
        have h1 := div_div_100_4 y
        have h3 : 1461 * (y + 4716) / 4 = 365 * (y + 4716) + (y + 4716) / 4 := by omega
        rw [h1, h3]
        interval_cases m <;> omega
    rw [← key]
    push_cast
    ring
  · norm_num [gregorian_to_jd, julian_to_jd, cdiv_of_nonneg]

/-- Witness for C35: 15 October 1582. -/
theorem gregorian_julian_difference_witness :
    gregorian_to_jd 1582 10 15 - julian_to_jd 1582 10 15
      = ((2 - (if (10 : ℤ) ≤ 2 then 1582 - 1 else 1582) / 100
          + (if (10 : ℤ) ≤ 2 then 1582 - 1 else 1582) / 400 : ℤ) : ℚ) ∧
    gregorian_to_jd 1582 10 15 - julian_to_jd 1582 10 15 = -10 :=
  gregorian_julian_difference 1582 10 15 (by decide) (by decide) (by decide)

/-! ## Day of week -/

/-- C36 (failing input). On 19 March 2000, a valid date, `day_of_week(Gregorian)`
returns `-1`, outside `0..6`, while `day_of_week(jd_t)` on the JD of the same
date returns `6`. -/
theorem day_of_week_negative :
    19 ≤ gregorian_days_in_month 3 (is_gregorian_leapyear 2000) ∧
    day_of_week { year_ := 2000, month_ := 3, day_ := 19 } = -1 ∧
    day_of_week_jd (gregorian_to_jd 2000 3 19) = 6 := by
  refine ⟨by decide, by decide, ?_⟩
  norm_num [day_of_week_jd, gregorian_to_jd, toInt, cmod_of_nonneg]

/-! ## Day addition and the time of day -/

/-- C37 (failing input). `add_days` applied to 31 January 2024, 12:30:45, and
one day returns 1 February 2024 at 00:00:00: the day count is recovered by the
difference operator, the time of day is not kept. -/
theorem gregorian_add_days_drops_time (n : ℕ) :
    (Gregorian.add_days (n + 2)
        { year_ := 2024, month_ := 1, day_ := 31, hour_ := 12, minute_ := 30, second_ := 45 } 1).map
      (fun r => (r.year_, r.month_, r.day_, r.hour_, r.minute_, r.second_))
      = some (2024, 2, 1, 0, 0, 0) ∧
    Gregorian.operator_diff { year_ := 2024, month_ := 2, day_ := 1 }
      { year_ := 2024, month_ := 1, day_ := 31, hour_ := 12, minute_ := 30, second_ := 45 } = 1 := by
  have d1 : gregorian_days_in_month 1 (is_gregorian_leapyear 2024) = 31 := by decide
  have d2 : gregorian_days_in_month 2 (is_gregorian_leapyear 2024) = 29 := by decide
  constructor
  · simp [Gregorian.add_days, Gregorian.add_days_loop, d1, d2]
  · norm_num [Gregorian.operator_diff, gregorian_to_jd, toInt]

/-! ## Julian day numbers and era literals -/

theorem wrap32_of_range (x : ℤ) (h1 : -2147483648 ≤ x) (h2 : x ≤ 2147483647) : wrap32 x = x := by
  unfold wrap32
  omega

/-- Below the first overflow the 32-bit decoder computes what the decoder on
unbounded integers computes. -/
theorem jd_to_gregorian_int32_eq (jd : ℚ) (n : ℤ) (h : ⌊jd + 0.5⌋ = n) (h1 : -32044 ≤ n)
    (h2 : n ≤ 536838867) :
    jd_to_gregorian_int32 jd = jd_to_gregorian jd := by
  rw [jd_to_gregorian_of_floor jd n h, jd_to_gregorian_jdn n (by omega)]
  unfold jd_to_gregorian_int32
  simp only [h, toInt_intCast]
  rw [wrap32_of_range n (by omega) (by omega),
    wrap32_of_range (n + 32044) (by omega) (by omega),
    wrap32_of_range (4 * (n + 32044) + 3) (by omega) (by omega)]
  generalize hA : n + 32044 = A
  have hA0 : 0 ≤ A := by omega
  have hA1 : A ≤ 536870911 := by omega
  have hB : cdiv (4 * A + 3) 146097 = (4 * A + 3) / 146097 :=
    cdiv_of_nonneg (by omega) (by norm_num)
  rw [hB]
  generalize hBd : (4 * A + 3) / 146097 = B
  have hB0 : 0 ≤ B := by omega
  have hB1 : B * 146097 ≤ 4 * A + 3 := by omega
  rw [wrap32_of_range (B * 146097) (by omega) (by omega)]
  have hC : cdiv (B * 146097) 4 = (B * 146097) / 4 := cdiv_of_nonneg (by omega) (by norm_num)
  rw [hC]
  have hC0 : 0 ≤ A - B * 146097 / 4 ∧ A - B * 146097 / 4 ≤ 36524 := by
    constructor <;> omega
  rw [wrap32_of_range (A - B * 146097 / 4) (by omega) (by omega)]
  generalize hCd : A - B * 146097 / 4 = C at hC0
  rw [wrap32_of_range (4 * C + 3) (by omega) (by omega)]
  have hD : cdiv (4 * C + 3) 1461 = (4 * C + 3) / 1461 := cdiv_of_nonneg (by omega) (by norm_num)
  rw [hD]
  generalize hDd : (4 * C + 3) / 1461 = D
  have hD0 : 0 ≤ D ∧ D ≤ 99 := by constructor <;> omega
  rw [wrap32_of_range (1461 * D) (by omega) (by omega)]
  have hE : cdiv (1461 * D) 4 = (1461 * D) / 4 := cdiv_of_nonneg (by omega) (by norm_num)
  rw [hE]
  have hE0 : 0 ≤ C - 1461 * D / 4 ∧ C - 1461 * D / 4 ≤ 365 := by constructor <;> omega
  rw [wrap32_of_range (C - 1461 * D / 4) (by omega) (by omega)]
  generalize hEd : C - 1461 * D / 4 = E at hE0
  rw [wrap32_of_range (5 * E + 2) (by omega) (by omega)]
  have hM : cdiv (5 * E + 2) 153 = (5 * E + 2) / 153 := cdiv_of_nonneg (by omega) (by norm_num)
  rw [hM]
  generalize hMd : (5 * E + 2) / 153 = M
  have hM0 : 0 ≤ M ∧ M ≤ 11 := by constructor <;> omega
  rw [cdiv_of_nonneg hM0.1 (by norm_num),
    wrap32_of_range (153 * M + 2) (by omega) (by omega),
    cdiv_of_nonneg (show 0 ≤ 153 * M + 2 by omega) (by norm_num),
    wrap32_of_range (M + 3 - 12 * (M / 10)) (by omega) (by omega),
    wrap32_of_range (E - (153 * M + 2) / 5 + 1) (by omega) (by omega),
    wrap32_of_range (B * 100 + D - 4800 + M / 10) (by omega) (by omega)]

theorem cround_bounds (x : ℚ) (a b : ℤ) (h0 : 0 ≤ x) (ha : (a : ℚ) ≤ x) (hb : x ≤ (b : ℚ)) :
    a ≤ cround x ∧ cround x ≤ b := by
  unfold cround
  rw [if_pos h0]
  constructor
  · rw [Int.le_floor]
    linarith
  · have h : ⌊x + 1 / 2⌋ < b + 1 := by
      rw [Int.floor_lt]
      push_cast
      linarith
    omega

/-- Below the first overflow the 32-bit decoder with time computes what the
decoder on unbounded integers computes. -/
theorem jd_to_gregorian_hms_int32_eq (jd : ℚ) (n : ℤ) (h : ⌊jd + 0.5⌋ = n) (h1 : -32044 ≤ n)
    (h2 : n ≤ 536838867) :
    jd_to_gregorian_hms_int32 jd = jd_to_gregorian_hms jd := by
  have hfl : ⌊((n : ℤ) : ℚ) + 0.5⌋ = n := by
    rw [Int.floor_eq_iff]
    constructor <;> norm_num
  have hf1 := Int.floor_le (jd + 0.5)
  have hf2 := Int.lt_floor_add_one (jd + 0.5)
  rw [h] at hf1 hf2
  have hfrac0 : (0 : ℚ) ≤ (jd + 0.5 - (n : ℚ)) * 86400.0 := by
    have : (0 : ℚ) ≤ jd + 0.5 - (n : ℚ) := by linarith
    positivity
  have hfrac1 : (jd + 0.5 - (n : ℚ)) * 86400.0 ≤ ((86400 : ℤ) : ℚ) := by
    have : jd + 0.5 - (n : ℚ) ≤ 1 := by linarith
    push_cast
    norm_num
    linarith
  obtain ⟨c0, c1⟩ := cround_bounds _ 0 86400 hfrac0 (by simpa using hfrac0) hfrac1
  unfold jd_to_gregorian_hms_int32 jd_to_gregorian_hms
  simp only [h, toInt_intCast]
  rw [wrap32_of_range n (by omega) (by omega), jd_to_gregorian_int32_eq _ n hfl h1 h2,
    wrap32_of_range _ (by omega) (by omega)]

theorem gregorian_jdn_range (y m d : ℤ) (hy1 : -4712 ≤ y) (hy2 : y ≤ 1465000) (hm1 : 1 ≤ m)
    (hm2 : m ≤ 12) (hd1 : 1 ≤ d) (hd2 : d ≤ 31) :
    -32044 ≤ gregorian_jdn y m d ∧ gregorian_jdn y m d ≤ 536838867 := by
  unfold gregorian_jdn
  simp only []
  have h1 := div_div_100_4 (y - 1)
  have h2 := div_div_100_4 y
  by_cases hm : m ≤ 2
  · simp only [hm, if_true]
    rw [h1]
    constructor <;> omega
  · simp only [hm, if_false]
    rw [h2]
    constructor <;> omega

/-- C6 (as stated, refuted). The valid Gregorian date 29 February -4800 at
00:00:00 does not round trip: the seven-argument `jd_to_gregorian` returns
day 0 of March. -/
theorem gregorian_hms_before_4712 :
    is_gregorian_leapyear (-4800) = true ∧
    29 ≤ gregorian_days_in_month 2 (is_gregorian_leapyear (-4800)) ∧
    gregorian_to_jd_hms (-4800) 2 29 0 0 0 = -32045.5 ∧
    jd_to_gregorian_hms_int32 (gregorian_to_jd_hms (-4800) 2 29 0 0 0)
      = (-4800, 3, 0, 0, 0, 0) ∧
    jd_to_gregorian_hms (gregorian_to_jd_hms (-4800) 2 29 0 0 0) = (-4800, 3, 0, 0, 0, 0) := by
  have hjd : gregorian_to_jd_hms (-4800) 2 29 0 0 0 = -32045.5 := by
    norm_num [gregorian_to_jd_hms, gregorian_to_jd]
  have hZ : toInt (⌊(-32045.5 : ℚ) + 0.5⌋ : ℤ) = -32045 := by
    norm_num [toInt, ceil_eq_neg_floor]
  have hZ2 : toInt (⌊((-32045 : ℤ) : ℚ) + 0.5⌋ : ℤ) = -32045 := by
    norm_num [toInt, ceil_eq_neg_floor]
  have hw : wrap32 (-32045) = -32045 := by decide
  have hsec : toInt (cround (((-32045.5 : ℚ) + 0.5 - ((-32045 : ℤ) : ℚ)) * 86400.0) : ℤ) = 0 := by
    norm_num [cround, toInt]
  have hymd : jd_to_gregorian ((-32045 : ℤ) : ℚ) = (-4800, 3, 0) := by
    unfold jd_to_gregorian
    rw [hZ2]
    decide
  have hymd2 : jd_to_gregorian_int32 ((-32045 : ℤ) : ℚ) = (-4800, 3, 0) := by
    unfold jd_to_gregorian_int32
    rw [hZ2]
    decide
  refine ⟨by decide, by decide, hjd, ?_, ?_⟩
  · rw [hjd]
    unfold jd_to_gregorian_hms_int32
    simp only [hZ, hw, hymd2, hsec]
    decide
  · rw [hjd]
    unfold jd_to_gregorian_hms
    simp only [hZ, hymd, hsec]
    decide

/-- C6 (amended). Gregorian round trip with time of day, 32-bit arithmetic of
the decoder included: for every valid Gregorian date with
`-4712 ≤ y ≤ 1465000` and every integer time `0 ≤ h ≤ 23`, `0 ≤ mi ≤ 59`,
`0 ≤ s ≤ 59`, the seven-argument `jd_to_gregorian` applied to the six-argument
`gregorian_to_jd` returns `(y, m, d, h, mi, s)`. -/
theorem gregorian_hms_round_trip (y m d h mi s : ℤ) (hy : -4712 ≤ y) (hy2 : y ≤ 1465000)
    (hm1 : 1 ≤ m) (hm2 : m ≤ 12) (hd1 : 1 ≤ d)
    (hd2 : d ≤ gregorian_days_in_month m (is_gregorian_leapyear y))
    (hh1 : 0 ≤ h) (hh2 : h ≤ 23) (hmi1 : 0 ≤ mi) (hmi2 : mi ≤ 59) (hs1 : 0 ≤ s)
    (hs2 : s ≤ 59) :
    jd_to_gregorian_hms_int32 (gregorian_to_jd_hms y m d h mi (s : ℚ))
      = (y, m, d, h, mi, (s : ℚ)) := by
  have hdim := (gregorian_days_in_month_bounds m (is_gregorian_leapyear y) hm1 hm2).2
  obtain ⟨r1, r2⟩ := gregorian_jdn_range y m d hy hy2 hm1 hm2 hd1 (by omega)
  have hfl : ⌊gregorian_to_jd_hms y m d h mi (s : ℚ) + 0.5⌋ = gregorian_jdn y m d := by
    have hjd : gregorian_to_jd_hms y m d h mi (s : ℚ)
        = (gregorian_jdn y m d : ℚ) - 1 / 2 + ((h * 3600 + mi * 60 + s : ℤ) : ℚ) / 86400 := by
      unfold gregorian_to_jd_hms
      simp only []
      rw [gregorian_to_jd_eq]
      push_cast
      norm_num
    rw [hjd]
    generalize hT : h * 3600 + mi * 60 + s = T
    have hT0 : (0 : ℚ) ≤ (T : ℚ) := by
      have : 0 ≤ T := by omega
      exact_mod_cast this
    have hT1 : (T : ℚ) ≤ 86399 := by
      have : T ≤ 86399 := by omega
      exact_mod_cast this
    have h1 : (0 : ℚ) ≤ (T : ℚ) / 86400 := by positivity
    have h2 : (T : ℚ) / 86400 < 1 := by
      rw [div_lt_one (by norm_num)]
      linarith
    rw [Int.floor_eq_iff]
    constructor <;> norm_num <;> linarith
  rw [jd_to_gregorian_hms_int32_eq _ _ hfl r1 r2]
  exact gregorian_hms_round_trip_exact y m d h mi s hy hm1 hm2 hd1 hd2 hh1 hh2 hmi1 hmi2 hs1 hs2

/-- Witness for C6 (amended): noon of 2000-01-01 round trips. -/
theorem gregorian_hms_round_trip_witness :
    jd_to_gregorian_hms_int32 (gregorian_to_jd_hms 2000 1 1 12 0 ((0 : ℤ) : ℚ))
      = (2000, 1, 1, 12, 0, ((0 : ℤ) : ℚ)) :=
  gregorian_hms_round_trip 2000 1 1 12 0 0 (by decide) (by decide) (by decide) (by decide)
    (by decide) (by decide) (by decide) (by decide) (by decide) (by decide) (by decide)
    (by decide)

/-- C7 (as stated, refuted). At the date-only value `536838867.5` the 32-bit
product `4 * A` of `jd_to_gregorian` overflows (`A = 536870912`); the decoder
returns month `-1403577` and the returned fields do not convert back to
`536838867.5`. -/
theorem gregorian_jd_round_trip_overflow :
    (-32044 : ℤ) ≤ 536838867 ∧
    jd_to_gregorian_int32 (((536838867 : ℤ) : ℚ) + 0.5) = (-772911, -1403577, 858993486) ∧
    gregorian_to_jd (jd_to_gregorian_int32 (((536838867 : ℤ) : ℚ) + 0.5)).1
      (jd_to_gregorian_int32 (((536838867 : ℤ) : ℚ) + 0.5)).2.1
      (jd_to_gregorian_int32 (((536838867 : ℤ) : ℚ) + 0.5)).2.2
      ≠ ((536838867 : ℤ) : ℚ) + 0.5 := by
  have hZ : toInt (⌊((536838867 : ℤ) : ℚ) + 0.5 + 0.5⌋ : ℤ) = 536838868 := by
    norm_num [toInt]
  have hv : jd_to_gregorian_int32 (((536838867 : ℤ) : ℚ) + 0.5)
      = (-772911, -1403577, 858993486) := by
    unfold jd_to_gregorian_int32
    rw [hZ]
    decide
  refine ⟨by decide, hv, ?_⟩
  rw [hv]
  norm_num [gregorian_to_jd]

/-- C7 (amended). Reverse round trip on the JD axis, 32-bit arithmetic of the
decoder included: for every date-only value `x = n + 0.5` with
`-32044 ≤ n ≤ 536838866`, `gregorian_to_jd` applied to the
`(year, month, day)` returned by `jd_to_gregorian x` equals `x`. -/
theorem gregorian_jd_round_trip (n : ℤ) (hn : -32044 ≤ n) (hn2 : n ≤ 536838866) :
    gregorian_to_jd (jd_to_gregorian_int32 ((n : ℚ) + 0.5)).1
      (jd_to_gregorian_int32 ((n : ℚ) + 0.5)).2.1
      (jd_to_gregorian_int32 ((n : ℚ) + 0.5)).2.2 = (n : ℚ) + 0.5 := by
  have hfl : ⌊((n : ℚ) + 0.5) + 0.5⌋ = n + 1 := by
    rw [Int.floor_eq_iff]
    constructor <;> push_cast <;> norm_num <;> linarith
  rw [jd_to_gregorian_int32_eq _ _ hfl (by omega) (by omega)]
  exact gregorian_jd_round_trip_exact n hn

/-- Witness for C7 (amended): the last value before the overflow round trips. -/
theorem gregorian_jd_round_trip_witness :
    gregorian_to_jd (jd_to_gregorian_int32 (((536838866 : ℤ) : ℚ) + 0.5)).1
      (jd_to_gregorian_int32 (((536838866 : ℤ) : ℚ) + 0.5)).2.1
      (jd_to_gregorian_int32 (((536838866 : ℤ) : ℚ) + 0.5)).2.2
      = ((536838866 : ℤ) : ℚ) + 0.5 :=
  gregorian_jd_round_trip 536838866 (by decide) (by decide)

end Khronos
